import Mathlib

/-!
# Verification of the `chess_rs` move-generation and search kernel

Shallow embedding of the engine's source (src/src/engine/*.rs) in Lean 4.
Machine integers (`u64`, `u16`, `u8`, `usize`) are modelled as `Nat`, with
`% 2^64` (or masking with `U64_MAX`) inserted exactly where the Rust
arithmetic wraps or truncates.  Rust code that can panic (`unwrap`,
out-of-bounds indexing, `panic!`) is modelled with `Option`: `none` is a
panic.  Mutation is modelled by explicit state passing: every Rust method
taking `&mut self` becomes a function returning the updated value.

Section layout: bitboard primitives, piece/colour algebra, move encoding,
`Board` with `make_move` / `undo_move` (board.rs), the evaluator (eval.rs),
FEN serialisation and parsing (board.rs `to_fen` / `load_fen`), the move
generator (movegen.rs), `perft` (perft.rs), the `iterative_deepening`
driver (search.rs), followed by the theorems.
-/

namespace Chess

/-- `u64::MAX`, the all-ones 64-bit word (`FULL_BB` in bitboard.rs). -/
def U64_MAX : Nat := 2 ^ 64 - 1

/-- `bb.set_bit(idx)` from bitboard.rs: `*self |= 1 << idx`. -/
def set_bit (bb : Nat) (idx : Nat) : Nat := bb ||| (1 <<< idx)

/-- `bb.clear_bit(idx)` from bitboard.rs: `*self &= !(1 << idx)`; the `u64`
complement of `1 << idx` is `U64_MAX ^^^ (1 <<< idx)`. -/
def clear_bit (bb : Nat) (idx : Nat) : Nat := bb &&& (U64_MAX ^^^ (1 <<< idx))

/-- `bb.is_bit_set(idx)` from bitboard.rs: `*self & (1 << idx) != 0`. -/
def is_bit_set (bb : Nat) (idx : Nat) : Bool := bb &&& (1 <<< idx) != 0

/-- `bb.count_1s()` from bitboard.rs (Kernighan loop); on a 64-bit word this
is the population count, i.e. the number of set bits below 64. -/
def count_1s (bb : Nat) : Nat := ((List.range 64).filter (fun i => bb.testBit i)).length

/-- The `LSB_64_TABLE` of bitboard.rs. -/
def LSB_64_TABLE : List Nat :=
  [63, 30,  3, 32, 25, 41, 22, 33,
   15, 50, 42, 13, 11, 53, 19, 34,
   61, 29,  2, 51, 21, 43, 45, 10,
   18, 47,  1, 54,  9, 57,  0, 35,
   62, 31, 40,  4, 49,  5, 52, 26,
   60,  6, 23, 44, 46, 27, 56, 16,
    7, 39, 48, 24, 59, 14, 12, 55,
   38, 28, 58, 20, 37, 17, 36,  8]

/-- `bb.lsb_idx()` from bitboard.rsm, exactly as written: the fold
`b = bb ^ (bb - 1)`, `folded = (b & 0xffffffff) ^ (b >> 32)`, and the table
index `(folded * 0x783A9B23) >> 26` computed in **64-bit** arithmetic (the
Rust code multiplies two `u64`s; the product never exceeds `2^64` so no
wrapping occurs).  `LSB_64_TABLE[idx]` panics when `idx ≥ 64`, modelled as
`none`. -/
def lsb_idx (bb : Nat) : Option Nat :=
  let b := bb ^^^ (bb - 1)
  let folded := (b &&& 0xffffffff) ^^^ (b >>> 32)
  let idx := (folded * 0x783A9B23) >>> 26
  LSB_64_TABLE.get? idx

/-- `bb.pop_lsb()` from bitboard.rs: returns the table-scanned index and the
board with `*self &= *self - 1` applied. -/
def pop_lsb (bb : Nat) : Option (Nat × Nat) :=
  (lsb_idx bb).map (fun i => (i, bb &&& (bb - 1)))

/-- The same folded bit-scan with the multiply performed in the 32-bit
wrapping arithmetic of the classic C origin of this table (folded and the
magic are 32-bit there, so the product is taken mod `2^32`). -/
def lsb_idx_u32 (bb : Nat) : Option Nat :=
  let b := bb ^^^ (bb - 1)
  let folded := (b &&& 0xffffffff) ^^^ (b >>> 32)
  let idx := ((folded * 0x783A9B23) % (2 ^ 32)) >>> 26
  LSB_64_TABLE.get? idx

/-- Index of the lowest set bit (number of trailing zeros): the value the
bit-scan is intended to produce.  Defined as the head of the increasing
list of set-bit indices; `0` as the (never used) default for `bb = 0`,
where the source asserts `bb != 0` and panics. -/
def lsbi (bb : Nat) : Nat := (((List.range 64).filter (fun i => bb.testBit i)).headD 0)

/-- The set bits of a 64-bit word in increasing order.  A loop
`while bb != 0 { let i = bb.pop_lsb(); … }` whose body does not otherwise
touch `bb` visits exactly these indices in exactly this order (each
`pop_lsb` returns the least remaining index and clears that one bit). -/
def bit_indices (bb : Nat) : List Nat := (List.range 64).filter (fun i => bb.testBit i)

/- ------------------------------------------------------------------ -/
/- piece.rs                                                            -/
/- ------------------------------------------------------------------ -/

/-- `Color` from piece.rs (`White = 1`, `Black = 0`). -/
inductive Color where
  | White
  | Black
deriving DecidableEq, Repr, Fintype

/-- `Color::enemy`. -/
def Color.enemy : Color → Color
  | Color.White => Color.Black
  | Color.Black => Color.White

/-- `Color::is_white`. -/
def Color.is_white : Color → Bool
  | Color.White => true
  | Color.Black => false

/-- `Color::as_letter`. -/
def Color.as_letter : Color → Char
  | Color.White => 'w'
  | Color.Black => 'b'

/-- `Pieces` from piece.rs, discriminants 0..11. -/
inductive Pieces where
  | WhitePawn | WhiteKnight | WhiteBishop | WhiteRook | WhiteQueen | WhiteKing
  | BlackPawn | BlackKnight | BlackBishop | BlackRook | BlackQueen | BlackKing
deriving DecidableEq, Repr, Fintype

/-- `Pieces::idx` (the `usize` discriminant). -/
def Pieces.idx : Pieces → Nat
  | .WhitePawn => 0 | .WhiteKnight => 1 | .WhiteBishop => 2
  | .WhiteRook => 3 | .WhiteQueen => 4 | .WhiteKing => 5
  | .BlackPawn => 6 | .BlackKnight => 7 | .BlackBishop => 8
  | .BlackRook => 9 | .BlackQueen => 10 | .BlackKing => 11

/-- `Pieces::color`. -/
def Pieces.color (p : Pieces) : Color :=
  match p with
  | .WhitePawn | .WhiteKnight | .WhiteBishop | .WhiteRook | .WhiteQueen | .WhiteKing =>
      Color.White
  | _ => Color.Black

/-- `Pieces::is_pawn`. -/
def Pieces.is_pawn (p : Pieces) : Bool :=
  match p with | .WhitePawn | .BlackPawn => true | _ => false

/-- `Pieces::is_knight`. -/
def Pieces.is_knight (p : Pieces) : Bool :=
  match p with | .WhiteKnight | .BlackKnight => true | _ => false

/-- `Pieces::is_bishop`. -/
def Pieces.is_bishop (p : Pieces) : Bool :=
  match p with | .WhiteBishop | .BlackBishop => true | _ => false

/-- `Pieces::is_rook`. -/
def Pieces.is_rook (p : Pieces) : Bool :=
  match p with | .WhiteRook | .BlackRook => true | _ => false

/-- `Pieces::is_queen`. -/
def Pieces.is_queen (p : Pieces) : Bool :=
  match p with | .WhiteQueen | .BlackQueen => true | _ => false

/-- `Pieces::is_king`. -/
def Pieces.is_king (p : Pieces) : Bool :=
  match p with | .WhiteKing | .BlackKing => true | _ => false

/-- `Pieces::pawn(color)`. -/
def Pieces.pawn : Color → Pieces
  | Color.White => .WhitePawn | Color.Black => .BlackPawn

/-- `Pieces::knight(color)`. -/
def Pieces.knight : Color → Pieces
  | Color.White => .WhiteKnight | Color.Black => .BlackKnight

/-- `Pieces::bishop(color)`. -/
def Pieces.bishop : Color → Pieces
  | Color.White => .WhiteBishop | Color.Black => .BlackBishop

/-- `Pieces::rook(color)`. -/
def Pieces.rook : Color → Pieces
  | Color.White => .WhiteRook | Color.Black => .BlackRook

/-- `Pieces::queen(color)`. -/
def Pieces.queen : Color → Pieces
  | Color.White => .WhiteQueen | Color.Black => .BlackQueen

/-- `Pieces::king(color)`. -/
def Pieces.king : Color → Pieces
  | Color.White => .WhiteKing | Color.Black => .BlackKing

/-- `Pieces::notation`: the FEN letter of a piece. -/
def Pieces.fen_char : Pieces → Char
  | .WhitePawn => 'P' | .WhiteKnight => 'N' | .WhiteBishop => 'B'
  | .WhiteRook => 'R' | .WhiteQueen => 'Q' | .WhiteKing => 'K'
  | .BlackPawn => 'p' | .BlackKnight => 'n' | .BlackBishop => 'b'
  | .BlackRook => 'r' | .BlackQueen => 'q' | .BlackKing => 'k'

/- ------------------------------------------------------------------ -/
/- move.rs                                                             -/
/- ------------------------------------------------------------------ -/

/-- `Move` is a `u16`; modelled as `Nat` (all constructors stay below
`2^16`). -/
abbrev Move := Nat

def MOVE_TYPE_CASTLE : Nat := 4
def MOVE_TYPE_EN_PASSANT : Nat := 8
def MOVE_TYPE_PROMOTION : Nat := 12

def MOVE_PROMOTION_PIECE_KNIGHT : Nat := 0
def MOVE_PROMOTION_PIECE_BISHOP : Nat := 1
def MOVE_PROMOTION_PIECE_ROOK : Nat := 2
def MOVE_PROMOTION_PIECE_QUEEN : Nat := 3

def MOVE_CASTLE_SIDE_QS : Nat := 0
def MOVE_CASTLE_SIDE_KS : Nat := 1

/-- `get_move_type`: `*self & 0b1100`. -/
def get_move_type (m : Move) : Nat := m &&& 12

/-- `get_move_piece`: `*self & 0b0011`. -/
def get_move_piece (m : Move) : Nat := m &&& 3

/-- `get_move_start`: `(*self & 0b0000001111110000) >> 4`. -/
def get_move_start (m : Move) : Nat := (m &&& 0x3F0) >>> 4

/-- `get_move_end`: `(*self & 0b1111110000000000) >> 10`. -/
def get_move_end (m : Move) : Nat := (m &&& 0xFC00) >>> 10

/-- `new_move(start, end, flags)`: `(end << 10) | (start << 4) | flags`. -/
def new_move (start endSq flags : Nat) : Move := (endSq <<< 10) ||| (start <<< 4) ||| flags

/-- `UndoInfo` from move.rs.  It has exactly these four fields: the prior
castling mask, prior halfmove clock, prior en-passant target and the
captured piece.  (There is no evaluator-delta field, although search.rs
reads `info.evalutor_diff`.) -/
structure UndoInfo where
  castling : Nat
  fifty_move : Nat
  en_passant : Option Nat
  captured : Option Pieces
deriving DecidableEq, Repr

/- ------------------------------------------------------------------ -/
/- board.rs: state                                                     -/
/- ------------------------------------------------------------------ -/

def BLACK_CASTLE_QS : Nat := 1
def BLACK_CASTLE_KS : Nat := 2
def WHITE_CASTLE_QS : Nat := 4
def WHITE_CASTLE_KS : Nat := 8
def WHITE_CASTLE : Nat := WHITE_CASTLE_KS ||| WHITE_CASTLE_QS
def BLACK_CASTLE : Nat := BLACK_CASTLE_KS ||| BLACK_CASTLE_QS

/-- `Board` from board.rs.  Squares are indices 0..63 with a8 = 0, h1 = 63.
The `[u64; 12]` piece-bitboard array is modelled as a function from the
piece (its only access path is `get_bb(piece)` = `array[piece.idx()]`),
likewise the two colour-union bitboards and the 64×12 Zobrist table. -/
structure Board where
  current_color : Color
  fifty_move : Nat
  full_move_count : Nat
  castling : Nat
  en_passant : Option Nat
  pieces : Nat → Option Pieces
  piece_bitboards : Pieces → Nat
  combined_bitboards : Color → Nat
  zobrist_table : Nat → Nat → Nat
  zobrist_hash : Nat

/-- `Board::friendly_color`. -/
def Board.friendly_color (b : Board) : Color := b.current_color

/-- `Board::enemy_color`. -/
def Board.enemy_color (b : Board) : Color := b.current_color.enemy

/-- `Board::get_bb`. -/
def Board.get_bb (b : Board) (p : Pieces) : Nat := b.piece_bitboards p

/-- `Board::get_combined_bb`. -/
def Board.get_combined_bb (b : Board) (c : Color) : Nat := b.combined_bitboards c

/-- `Board::get_occupancy`. -/
def Board.get_occupancy (b : Board) : Nat :=
  b.get_combined_bb Color.White ||| b.get_combined_bb Color.Black

/-- Pointwise update of the piece-square array (`self.pieces[i] = v`). -/
def upd_pieces (f : Nat → Option Pieces) (i : Nat) (v : Option Pieces) :
    Nat → Option Pieces := fun j => if j = i then v else f j

/-- Update of one piece bitboard (`*self.get_bb_mut(p) = v`). -/
def upd_bb (f : Pieces → Nat) (p : Pieces) (v : Nat) : Pieces → Nat :=
  fun q => if q = p then v else f q

/-- Update of one colour-union bitboard. -/
def upd_comb (f : Color → Nat) (c : Color) (v : Nat) : Color → Nat :=
  fun d => if d = c then v else f d

/-- `Board::distance` (absolute difference of square indices). -/
def Board.distance (a b : Nat) : Nat := if a > b then a - b else b - a

/-- `Board::disable_castle_for_color` (`castling &= !WHITE_CASTLE` resp.
`!BLACK_CASTLE`; the `u8` complement is `255 ^^^ mask`). -/
def disable_castle_for_color (castling : Nat) (c : Color) : Nat :=
  if c.is_white then castling &&& (255 ^^^ WHITE_CASTLE)
  else castling &&& (255 ^^^ BLACK_CASTLE)

/-- `Board::disable_castle_from_sq` (A1 = 56, H1 = 63, A8 = 0, H8 = 7). -/
def disable_castle_from_sq (castling : Nat) (sq : Nat) : Nat :=
  if sq = 56 then castling &&& (255 ^^^ WHITE_CASTLE_QS)
  else if sq = 63 then castling &&& (255 ^^^ WHITE_CASTLE_KS)
  else if sq = 0 then castling &&& (255 ^^^ BLACK_CASTLE_QS)
  else if sq = 7 then castling &&& (255 ^^^ BLACK_CASTLE_KS)
  else castling

/-- `Board::can_castle_qs`. -/
def Board.can_castle_qs (b : Board) (c : Color) : Bool :=
  if c.is_white then b.castling &&& WHITE_CASTLE_QS != 0
  else b.castling &&& BLACK_CASTLE_QS != 0

/-- `Board::can_castle_ks`. -/
def Board.can_castle_ks (b : Board) (c : Color) : Bool :=
  if c.is_white then b.castling &&& WHITE_CASTLE_KS != 0
  else b.castling &&& BLACK_CASTLE_KS != 0

/- ------------------------------------------------------------------ -/
/- board.rs: make_move / undo_move                                     -/
/- ------------------------------------------------------------------ -/

/-- `self.zobrist_hash ^= k` (one XOR of a Zobrist key into the hash). -/
def Board.xor_hash (b : Board) (k : Nat) : Board :=
  { b with zobrist_hash := b.zobrist_hash ^^^ k }

/-- Write-back of one piece bitboard (`*self.get_bb_mut(p) = v`). -/
def Board.with_bb (b : Board) (p : Pieces) (v : Nat) : Board :=
  { b with piece_bitboards := upd_bb b.piece_bitboards p v }

/-- Write-back of one colour-union bitboard. -/
def Board.with_comb (b : Board) (c : Color) (v : Nat) : Board :=
  { b with combined_bitboards := upd_comb b.combined_bitboards c v }

/-- `self.pieces[i] = v`. -/
def Board.with_piece (b : Board) (i : Nat) (v : Option Pieces) : Board :=
  { b with pieces := upd_pieces b.pieces i v }

/-- `self.en_passant = v`. -/
def Board.with_ep (b : Board) (v : Option Nat) : Board :=
  { b with en_passant := v }

/-- `self.castling = v`. -/
def Board.with_castling (b : Board) (v : Nat) : Board :=
  { b with castling := v }

/-- `Board::make_move` (board.rs lines 169-425), en-passant branch (after
the common prologue). -/
def make_move_ep (b : Board) (start endSq : Nat) : Option Board :=
  match b.en_passant with
  | none => none
  | some eps =>
    let friendly := b.friendly_color
    let enemy := b.enemy_color
    let fp := Pieces.pawn friendly
    let ep := Pieces.pawn enemy
    let b := b.xor_hash (b.zobrist_table eps fp.idx)
    let b := b.xor_hash (b.zobrist_table endSq ep.idx)
    let b := b.with_bb fp (set_bit (clear_bit (b.get_bb fp) start) eps)
    let b := b.with_bb ep (clear_bit (b.get_bb ep) endSq)
    let b := b.with_comb friendly (set_bit (clear_bit (b.get_combined_bb friendly) start) eps)
    let b := b.with_comb enemy (clear_bit (b.get_combined_bb enemy) endSq)
    let b := b.with_piece eps (some fp)
    let b := b.with_piece start none
    let b := b.with_piece endSq none
    some (b.with_ep none)

/-- `Board::make_move`, castle branch. -/
def make_move_castle (b : Board) (start endSq piece : Nat) : Board :=
  let friendly := b.friendly_color
  let fk := Pieces.king friendly
  let fr := Pieces.rook friendly
  let b := b.xor_hash (b.zobrist_table endSq fk.idx)
  let b := b.with_bb fk (set_bit (clear_bit (b.get_bb fk) start) endSq)
  let b := b.with_comb friendly (set_bit (clear_bit (b.get_combined_bb friendly) start) endSq)
  let offset := start &&& 56
  let b :=
    if piece = MOVE_CASTLE_SIDE_QS then
      let b := b.xor_hash (b.zobrist_table offset fr.idx)
      let b := b.xor_hash (b.zobrist_table (offset + 3) fr.idx)
      let b := b.with_bb fr (set_bit (clear_bit (b.get_bb fr) offset) (offset + 3))
      let b := b.with_comb friendly
        (set_bit (clear_bit (b.get_combined_bb friendly) offset) (offset + 3))
      let b := b.with_piece (offset + 3) (some fr)
      b.with_piece offset none
    else
      let b := b.xor_hash (b.zobrist_table (offset + 7) fr.idx)
      let b := b.xor_hash (b.zobrist_table (offset + 5) fr.idx)
      let b := b.with_bb fr (set_bit (clear_bit (b.get_bb fr) (offset + 7)) (offset + 5))
      let b := b.with_comb friendly
        (set_bit (clear_bit (b.get_combined_bb friendly) (offset + 7)) (offset + 5))
      let b := b.with_piece (offset + 5) (some fr)
      b.with_piece (offset + 7) none
  let b := b.with_castling (disable_castle_for_color b.castling friendly)
  let b := b.with_piece endSq (some fk)
  let b := b.with_piece start none
  b.with_ep none

/-- Decode of the promotion piece in `make_move`'s promotion branch (the
`_ => panic!` arm of the source `match` is unreachable because
`piece = m & 0b11 < 4`, so `piece = 3` lands on the queen arm). -/
def decode_promotion (piece : Nat) (c : Color) : Pieces :=
  if piece = MOVE_PROMOTION_PIECE_KNIGHT then Pieces.knight c
  else if piece = MOVE_PROMOTION_PIECE_BISHOP then Pieces.bishop c
  else if piece = MOVE_PROMOTION_PIECE_ROOK then Pieces.rook c
  else Pieces.queen c

/-- `Board::make_move`, promotion branch. -/
def make_move_promotion (b : Board) (start endSq piece : Nat)
    (end_piece : Option Pieces) : Board :=
  let friendly := b.friendly_color
  let enemy := b.enemy_color
  let fp := Pieces.pawn friendly
  let promo := decode_promotion piece friendly
  let b :=
    match end_piece with
    | none => b
    | some cap =>
      let b := b.xor_hash (b.zobrist_table endSq cap.idx)
      let b := b.with_bb cap (clear_bit (b.get_bb cap) endSq)
      let b := b.with_comb enemy (clear_bit (b.get_combined_bb enemy) endSq)
      b.with_castling
        (if cap.is_rook then disable_castle_from_sq b.castling endSq else b.castling)
  let b := b.xor_hash (b.zobrist_table endSq promo.idx)
  let b := b.with_bb fp (clear_bit (b.get_bb fp) start)
  let b := b.with_bb promo (set_bit (b.get_bb promo) endSq)
  let b := b.with_comb friendly (set_bit (clear_bit (b.get_combined_bb friendly) start) endSq)
  let b := b.with_piece start none
  let b := b.with_piece endSq (some promo)
  b.with_ep none

/-- `Board::make_move`, default (quiet / capture) branch. -/
def make_move_default (b : Board) (start endSq : Nat) (start_piece : Pieces)
    (end_piece : Option Pieces) : Board :=
  let friendly := b.friendly_color
  let enemy := b.enemy_color
  let newEp : Option Nat :=
    if start_piece.is_pawn ∧ Board.distance endSq start = 16 then
      some ((endSq + start) / 2)
    else none
  let b := b.with_ep newEp
  let b :=
    match end_piece with
    | none => b
    | some cap =>
      let b := b.xor_hash (b.zobrist_table endSq cap.idx)
      let b := b.with_bb cap (clear_bit (b.get_bb cap) endSq)
      let b := b.with_comb enemy (clear_bit (b.get_combined_bb enemy) endSq)
      b.with_castling
        (if cap.is_rook then disable_castle_from_sq b.castling endSq else b.castling)
  let b := b.with_castling
    (if start_piece.is_king then disable_castle_for_color b.castling friendly
     else if start_piece.is_rook then disable_castle_from_sq b.castling start
     else b.castling)
  let b := b.xor_hash (b.zobrist_table endSq start_piece.idx)
  let b := b.with_bb start_piece (set_bit (clear_bit (b.get_bb start_piece) start) endSq)
  let b := b.with_comb friendly (set_bit (clear_bit (b.get_combined_bb friendly) start) endSq)
  let b := b.with_piece endSq (b.pieces start)
  b.with_piece start none

/-- `Board::make_move` (board.rs lines 169-425).  Returns the updated board
and the filled-in `UndoInfo`; `none` models a panic (`unwrap` of a missing
start piece or of a missing en-passant target). -/
def make_move (b : Board) (m : Move) : Option (Board × UndoInfo) :=
  let start := get_move_start m
  let endSq := get_move_end m
  let piece := get_move_piece m
  let info : UndoInfo := ⟨b.castling, b.fifty_move, b.en_passant, b.pieces endSq⟩
  match b.pieces start with
  | none => none
  | some start_piece =>
    let end_piece := b.pieces endSq
    let b := b.xor_hash (b.zobrist_table start start_piece.idx)
    let b := { b with fifty_move :=
      if start_piece.is_pawn ∨ (b.pieces endSq).isSome then 0 else b.fifty_move + 1 }
    let next : Option Board :=
      if get_move_type m = MOVE_TYPE_EN_PASSANT then
        make_move_ep b start endSq
      else if get_move_type m = MOVE_TYPE_CASTLE then
        some (make_move_castle b start endSq piece)
      else if get_move_type m = MOVE_TYPE_PROMOTION then
        some (make_move_promotion b start endSq piece end_piece)
      else
        some (make_move_default b start endSq start_piece end_piece)
    next.map (fun b => ({ b with current_color := b.current_color.enemy }, info))

/-- `Board::undo_move`, en-passant branch (the board's scalar fields have
already been restored from the `UndoInfo`, so `b.en_passant` here is the
pre-move target). -/
def undo_move_ep (b : Board) (start endSq : Nat) (friendly enemy : Color) :
    Option Board :=
  match b.en_passant with
  | none => none
  | some eps =>
    let fp := Pieces.pawn friendly
    let ep := Pieces.pawn enemy
    let b := b.xor_hash (b.zobrist_table start fp.idx)
    let b := b.xor_hash (b.zobrist_table eps fp.idx)
    let b := b.xor_hash (b.zobrist_table endSq ep.idx)
    let b := b.with_bb fp (clear_bit (set_bit (b.get_bb fp) start) eps)
    let b := b.with_bb ep (set_bit (b.get_bb ep) endSq)
    let b := b.with_comb friendly (clear_bit (set_bit (b.get_combined_bb friendly) start) eps)
    let b := b.with_comb enemy (set_bit (b.get_combined_bb enemy) endSq)
    let b := b.with_piece eps none
    let b := b.with_piece start (some fp)
    some (b.with_piece endSq (some ep))

/-- `Board::undo_move`, castle branch. -/
def undo_move_castle (b : Board) (start endSq piece : Nat) (friendly : Color) : Board :=
  let fk := Pieces.king friendly
  let fr := Pieces.rook friendly
  let b := b.xor_hash (b.zobrist_table start fk.idx)
  let b := b.xor_hash (b.zobrist_table endSq fk.idx)
  let b := b.with_bb fk (clear_bit (set_bit (b.get_bb fk) start) endSq)
  let b := b.with_comb friendly (clear_bit (set_bit (b.get_combined_bb friendly) start) endSq)
  let b := b.with_piece start (some fk)
  let b := b.with_piece endSq none
  let offset := start &&& 56
  if piece = MOVE_CASTLE_SIDE_QS then
    let b := b.xor_hash (b.zobrist_table offset fr.idx)
    let b := b.xor_hash (b.zobrist_table (offset + 3) fr.idx)
    let b := b.with_bb fr (clear_bit (set_bit (b.get_bb fr) offset) (offset + 3))
    let b := b.with_comb friendly
      (clear_bit (set_bit (b.get_combined_bb friendly) offset) (offset + 3))
    let b := b.with_piece (offset + 3) none
    b.with_piece offset (some fr)
  else
    let b := b.xor_hash (b.zobrist_table (offset + 7) fr.idx)
    let b := b.xor_hash (b.zobrist_table (offset + 5) fr.idx)
    let b := b.with_bb fr (clear_bit (set_bit (b.get_bb fr) (offset + 7)) (offset + 5))
    let b := b.with_comb friendly
      (clear_bit (set_bit (b.get_combined_bb friendly) (offset + 7)) (offset + 5))
    let b := b.with_piece (offset + 5) none
    b.with_piece (offset + 7) (some fr)

/-- `Board::undo_move`, promotion branch. -/
def undo_move_promotion (b : Board) (start endSq : Nat)
    (captured : Option Pieces) (friendly enemy : Color) : Option Board :=
  match b.pieces endSq with
  | none => none
  | some promo =>
    let fp := Pieces.pawn friendly
    let b := b.xor_hash (b.zobrist_table start fp.idx)
    let b := b.xor_hash (b.zobrist_table endSq promo.idx)
    let b := b.with_bb fp (set_bit (b.get_bb fp) start)
    let b := b.with_bb promo (clear_bit (b.get_bb promo) endSq)
    let b := b.with_comb friendly (clear_bit (set_bit (b.get_combined_bb friendly) start) endSq)
    let b := b.with_piece start (some fp)
    let b := b.with_piece endSq captured
    match captured with
    | none => some b
    | some cap =>
      let b := b.xor_hash (b.zobrist_table endSq cap.idx)
      let b := b.with_bb cap (set_bit (b.get_bb cap) endSq)
      some (b.with_comb enemy (set_bit (b.get_combined_bb enemy) endSq))

/-- `Board::undo_move`, default branch. -/
def undo_move_default (b : Board) (start endSq : Nat)
    (end_piece : Option Pieces) (captured : Option Pieces)
    (friendly enemy : Color) : Option Board :=
  match end_piece with
  | none => none
  | some ep =>
    let b := b.xor_hash (b.zobrist_table start ep.idx)
    let b := b.xor_hash (b.zobrist_table endSq ep.idx)
    let b := b.with_bb ep (clear_bit (set_bit (b.get_bb ep) start) endSq)
    let b := b.with_comb friendly (clear_bit (set_bit (b.get_combined_bb friendly) start) endSq)
    let b := b.with_piece start (b.pieces endSq)
    let b := b.with_piece endSq captured
    match captured with
    | none => some b
    | some cap =>
      let b := b.xor_hash (b.zobrist_table endSq cap.idx)
      let b := b.with_bb cap (set_bit (b.get_bb cap) endSq)
      some (b.with_comb enemy (set_bit (b.get_combined_bb enemy) endSq))

/-- `Board::undo_move` (board.rs lines 426-632). -/
def undo_move (b : Board) (m : Move) (info : UndoInfo) : Option Board :=
  let start := get_move_start m
  let endSq := get_move_end m
  let piece := get_move_piece m
  let friendly := b.enemy_color
  let enemy := b.friendly_color
  let b := { b with current_color := b.current_color.enemy }
  let b := b.with_castling info.castling
  let b := { b with fifty_move := info.fifty_move }
  let b := b.with_ep info.en_passant
  let captured := info.captured
  let end_piece := b.pieces endSq
  if get_move_type m = MOVE_TYPE_EN_PASSANT then
    undo_move_ep b start endSq friendly enemy
  else if get_move_type m = MOVE_TYPE_CASTLE then
    some (undo_move_castle b start endSq piece friendly)
  else if get_move_type m = MOVE_TYPE_PROMOTION then
    undo_move_promotion b start endSq captured friendly enemy
  else
    undo_move_default b start endSq end_piece captured friendly enemy

/- ------------------------------------------------------------------ -/
/- eval.rs                                                             -/
/- ------------------------------------------------------------------ -/

/-- `PIECE_VALUE` from eval.rs, indexed by `Pieces::idx`. -/
def PIECE_VALUE : List Int :=
  [100, 315, 325, 500, 900, 0, -100, -315, -325, -500, -900, 0]

/-- `PAWN_SQ_VALUE` from eval.rs. -/
def PAWN_SQ_VALUE : List Int :=
  [0,  0,  0,  0,  0,  0,  0,  0,
   50, 50, 50, 50, 50, 50, 50, 50,
   10, 10, 20, 30, 30, 20, 10, 10,
    5,  5, 10, 25, 25, 10,  5,  5,
    0,  0,  0, 20, 20,  0,  0,  0,
    5, -5,-10,  0,  0,-10, -5,  5,
    5, 10, 10,-20,-20, 10, 10,  5,
    0,  0,  0,  0,  0,  0,  0,  0]

/-- `KNIGHT_SQ_VALUE` from eval.rs. -/
def KNIGHT_SQ_VALUE : List Int :=
  [-50,-40,-30,-30,-30,-30,-40,-50,
   -40,-20,  0,  0,  0,  0,-20,-40,
   -30,  0, 10, 15, 15, 10,  0,-30,
   -30,  5, 15, 20, 20, 15,  5,-30,
   -30,  0, 15, 20, 20, 15,  0,-30,
   -30,  5, 10, 15, 15, 10,  5,-30,
   -40,-20,  0,  5,  5,  0,-20,-40,
   -50,-40,-30,-30,-30,-30,-40,-50]

/-- `BISHOP_SQ_VALUE` from eval.rs. -/
def BISHOP_SQ_VALUE : List Int :=
  [-20,-10,-10,-10,-10,-10,-10,-20,
   -10,  0,  0,  0,  0,  0,  0,-10,
   -10,  0,  5, 10, 10,  5,  0,-10,
   -10,  5,  5, 10, 10,  5,  5,-10,
   -10,  0, 10, 10, 10, 10,  0,-10,
   -10, 10, 10, 10, 10, 10, 10,-10,
   -10,  5,  0,  0,  0,  0,  5,-10,
   -20,-10,-10,-10,-10,-10,-10,-20]

/-- `ROOK_SQ_VALUE` from eval.rs. -/
def ROOK_SQ_VALUE : List Int :=
  [0,  0,  0,  0,  0,  0,  0,  0,
   5, 10, 10, 10, 10, 10, 10,  5,
  -5,  0,  0,  0,  0,  0,  0, -5,
  -5,  0,  0,  0,  0,  0,  0, -5,
  -5,  0,  0,  0,  0,  0,  0, -5,
  -5,  0,  0,  0,  0,  0,  0, -5,
  -5,  0,  0,  0,  0,  0,  0, -5,
   0,  0,  0,  5,  5,  0,  0,  0]

/-- `QUEEN_SQ_VALUE` from eval.rs. -/
def QUEEN_SQ_VALUE : List Int :=
  [-20,-10,-10, -5, -5,-10,-10,-20,
   -10,  0,  0,  0,  0,  0,  0,-10,
   -10,  0,  5,  5,  5,  5,  0,-10,
    -5,  0,  5,  5,  5,  5,  0, -5,
     0,  0,  5,  5,  5,  5,  0, -5,
   -10,  5,  5,  5,  5,  5,  0,-10,
   -10,  0,  5,  0,  0,  0,  0,-10,
   -20,-10,-10, -5, -5,-10,-10,-20]

/-- `KING_SQ_VALUE` from eval.rs. -/
def KING_SQ_VALUE : List Int :=
  [-30,-40,-40,-50,-50,-40,-40,-30,
   -30,-40,-40,-50,-50,-40,-40,-30,
   -30,-40,-40,-50,-50,-40,-40,-30,
   -30,-40,-40,-50,-50,-40,-40,-30,
   -20,-30,-30,-40,-40,-30,-30,-20,
   -10,-20,-20,-20,-20,-20,-20,-10,
    20, 20,  0,  0,  0,  0, 20, 20,
    20, 30, 10,  0,  0, 10, 30, 20]

/-- `SQ_VALUE` from eval.rs: the six tables indexed by `piece.idx() % 6`. -/
def SQ_VALUE : List (List Int) :=
  [PAWN_SQ_VALUE, KNIGHT_SQ_VALUE, BISHOP_SQ_VALUE,
   ROOK_SQ_VALUE, QUEEN_SQ_VALUE, KING_SQ_VALUE]

/-- `Evaluator::piece_value`: `PIECE_VALUE[piece.idx()]`. -/
def piece_value (p : Pieces) : Int := PIECE_VALUE.getD p.idx 0

/-- `Evaluator::sq_value` (eval.rs lines 165-168), exactly as written:
`SQ_VALUE[piece.idx() % 6][sq] * (white ? 1 : -1)`.  Note: the square index
is `sq` for **both** colours; no rank mirror (`sq ^ 56`) is applied. -/
def sq_value (p : Pieces) (sq : Nat) : Int :=
  ((SQ_VALUE.getD (p.idx % 6) []).getD sq 0) * (if p.color.is_white then 1 else -1)

/-- `Evaluator::init_score` (eval.rs lines 177-187): the score after
recomputation, a fold of `piece_value + sq_value` over the occupied squares
`0..64`. -/
def init_score (b : Board) : Int :=
  (List.range 64).foldl
    (fun acc sq =>
      match b.pieces sq with
      | some p => acc + (piece_value p + sq_value p sq)
      | none => acc)
    0

/- ------------------------------------------------------------------ -/
/- search.rs: iterative_deepening control flow                         -/
/- ------------------------------------------------------------------ -/

/-- The `for depth in 1..=max_depth` loop of `iterative_deepening`
(search.rs lines 161-190), abstracted over the wall clock: `elapsed d` is
the millisecond reading taken after the iteration with loop counter `d`,
and `depths` the loop counters still to run.  Returns the successive
**depth arguments passed to `find_best_move`** — the source passes
`max_depth` on every iteration (search.rs line 164), the loop counter
`depth` is used only in the log line.  After each call the loop breaks
when `elapsed ≥ max_time_millis`. -/
def iterative_deepening_loop (max_depth : Nat) (elapsed : Nat → Nat)
    (max_time_millis : Nat) : List Nat → List Nat
  | [] => []
  | d :: rest =>
    max_depth ::
      (if elapsed d ≥ max_time_millis then []
       else iterative_deepening_loop max_depth elapsed max_time_millis rest)

/-- The list of depth arguments `iterative_deepening(max_depth, …)` passes
to `find_best_move`, with the wall clock abstracted as `elapsed`. -/
def iterative_deepening_depths (max_depth : Nat) (elapsed : Nat → Nat)
    (max_time_millis : Nat) : List Nat :=
  iterative_deepening_loop max_depth elapsed max_time_millis
    ((List.range max_depth).map (· + 1))

/- ------------------------------------------------------------------ -/
/- board.rs: FEN                                                       -/
/- ------------------------------------------------------------------ -/

/-- Decimal digit character (`'0'` + d). -/
def dig_char (d : Nat) : Char := Char.ofNat (48 + d)

/-- Digit-by-digit decimal rendering, structurally recursive on a fuel
bound (`fuel ≥ number of digits` suffices; `nat_chars` passes `n + 1`). -/
def nat_chars_go : Nat → Nat → List Char
  | 0, _ => []
  | fuel + 1, n =>
    if n < 10 then [dig_char n]
    else nat_chars_go fuel (n / 10) ++ [dig_char (n % 10)]

/-- Decimal rendering of a `usize` (Rust `n.to_string()`): most significant
digit first, no leading zeros. -/
def nat_chars (n : Nat) : List Char := nat_chars_go (n + 1) n

/-- Is `c` a decimal digit? -/
def is_digit (c : Char) : Bool := 48 ≤ c.toNat ∧ c.toNat ≤ 57

/-- Rust `str::parse::<usize>()` restricted to plain digit strings (the
engine only ever parses the decimal fields of a FEN; `none` models a parse
error, which the source turns into a panic via `unwrap`). -/
def parse_usize (s : List Char) : Option Nat :=
  if s ≠ [] ∧ s.all is_digit then
    some (s.foldl (fun a c => a * 10 + (c.toNat - 48)) 0)
  else none

/-- `Square::notation`: file letter then rank digit (`8 - rank`). -/
def sq_chars (sq : Nat) : List Char :=
  [Char.ofNat (97 + sq % 8), dig_char (8 - sq / 8)]

/-- `Square::from_notation`: position of the file letter in `"abcdefgh"`
and the rank digit, combined by `from_rf(8 - rank, file)`.  Out-of-range
input (missing characters, non-letter, digit outside `1..=8`) makes the
source panic (`unwrap` / out-of-bounds `SQUARES` index), modelled `none`. -/
def from_alg (s : List Char) : Option Nat :=
  match s with
  | f :: r :: _ =>
    if 97 ≤ f.toNat ∧ f.toNat ≤ 104 then
      if is_digit r then
        let rank := r.toNat - 48
        if 1 ≤ rank ∧ rank ≤ 8 then some ((8 - rank) * 8 + (f.toNat - 97))
        else none
      else none
    else none
  | _ => none

/-- The board-placement part of `Board::to_fen` (board.rs lines 716-748):
the `while rank < 8` loop with its `square`, `rank`, `file` and pending
`empty` counters.  The loop body runs exactly 64 times; `fuel = 64`
iterations reproduce it exactly. -/
def fen_board_go (pieces : Nat → Option Pieces) :
    Nat → Nat → Nat → Nat → Nat → List Char
  | 0, _, _, _, _ => []
  | fuel + 1, square, rank, file, empty =>
    if rank < 8 then
      let out1 : List Char :=
        match pieces square with
        | some p => (if empty ≠ 0 then nat_chars empty else []) ++ [p.fen_char]
        | none => []
      let empty' : Nat := match pieces square with | some _ => 0 | none => empty + 1
      if file + 1 > 7 then
        out1 ++ (if empty' ≠ 0 then nat_chars empty' else [])
          ++ (if rank < 7 then ['/'] else [])
          ++ fen_board_go pieces fuel (square + 1) (rank + 1) 0 0
      else
        out1 ++ fen_board_go pieces fuel (square + 1) rank (file + 1) empty'
    else []

/-- The castling-rights field of `Board::to_fen` (board.rs lines 752-767):
`'-'` when empty, else the subset of `Q q K k` **in that order** (white
queenside, black queenside, white kingside, black kingside). -/
def castling_chars (c : Nat) : List Char :=
  if c = 0 then ['-']
  else
    (if c &&& WHITE_CASTLE_QS != 0 then ['Q'] else [])
      ++ (if c &&& BLACK_CASTLE_QS != 0 then ['q'] else [])
      ++ (if c &&& WHITE_CASTLE_KS != 0 then ['K'] else [])
      ++ (if c &&& BLACK_CASTLE_KS != 0 then ['k'] else [])

/-- `Board::to_fen` (board.rs lines 709-781). -/
def to_fen (b : Board) : List Char :=
  fen_board_go b.pieces 64 0 0 0 0
    ++ [' ', b.friendly_color.as_letter, ' ']
    ++ castling_chars b.castling
    ++ [' ']
    ++ (match b.en_passant with | some sq => sq_chars sq | none => ['-'])
    ++ [' '] ++ nat_chars b.fifty_move
    ++ [' '] ++ nat_chars b.full_move_count

/-- Rust `char::is_whitespace` restricted to the ASCII whitespace that can
occur in the engine's inputs. -/
def is_ws (c : Char) : Bool := c = ' ' ∨ c = '\t' ∨ c = '\n' ∨ c = '\r'

/-- Helper for `split_ws`: accumulate the current token (reversed). -/
def split_ws_go : List Char → List Char → List (List Char)
  | [], acc => if acc.isEmpty then [] else [acc.reverse]
  | c :: rest, acc =>
    if is_ws c then
      if acc.isEmpty then split_ws_go rest []
      else acc.reverse :: split_ws_go rest []
    else split_ws_go rest (c :: acc)

/-- Rust `str::split_whitespace().collect()`: maximal non-whitespace runs,
empty runs discarded. -/
def split_ws (s : List Char) : List (List Char) := split_ws_go s []

/-- FEN letter to piece (the 12 piece arms of the `match` in `load_fen`). -/
def piece_of_char (c : Char) : Option Pieces :=
  if c = 'p' then some .BlackPawn else if c = 'n' then some .BlackKnight
  else if c = 'b' then some .BlackBishop else if c = 'r' then some .BlackRook
  else if c = 'q' then some .BlackQueen else if c = 'k' then some .BlackKing
  else if c = 'P' then some .WhitePawn else if c = 'N' then some .WhiteKnight
  else if c = 'B' then some .WhiteBishop else if c = 'R' then some .WhiteRook
  else if c = 'Q' then some .WhiteQueen else if c = 'K' then some .WhiteKing
  else none

/-- `Board::zero_boards` (board.rs lines 40-44). -/
def zero_boards (b : Board) : Board :=
  { b with pieces := fun _ => none,
           piece_bitboards := fun _ => 0,
           combined_bitboards := fun _ => 0 }

/-- The placement-parsing loop of `load_fen` (board.rs lines 54-96):
`while square < 64 && pos < len`.  Digits `'1'..='8'` advance `square`;
`'/'` and `' '` are skipped; a piece letter sets the bitboard bit and the
array slot and advances `square`; anything else aborts with the error, the
board keeping every mutation made so far. -/
def parse_board_go (b : Board) (square : Nat) : List Char → Board × Nat × Option (List Char)
  | [] => (b, square, none)
  | c :: rest =>
    if square < 64 then
      match piece_of_char c with
      | some p =>
        let b := b.with_bb p (set_bit (b.get_bb p) square)
        let b := b.with_piece square (some p)
        parse_board_go b (square + 1) rest
      | none =>
        if 49 ≤ c.toNat ∧ c.toNat ≤ 56 then
          parse_board_go b (square + (c.toNat - 48)) rest
        else if c = '/' ∨ c = ' ' then parse_board_go b square rest
        else (b, square, some ("Unrecognised character in FEN".toList))
    else (b, square, none)

/-- The castling-rights loop of `load_fen` (board.rs lines 114-124),
starting from `self.castling = 0`: returns the accumulated mask and the
error, if any (the mask keeps the bits OR-ed in before the bad
character). -/
def parse_castling_go (castling : Nat) : List Char → Nat × Option (List Char)
  | [] => (castling, none)
  | c :: rest =>
    if c = 'q' then parse_castling_go (castling ||| BLACK_CASTLE_QS) rest
    else if c = 'k' then parse_castling_go (castling ||| BLACK_CASTLE_KS) rest
    else if c = 'Q' then parse_castling_go (castling ||| WHITE_CASTLE_QS) rest
    else if c = 'K' then parse_castling_go (castling ||| WHITE_CASTLE_KS) rest
    else if c = '-' then (castling, none)
    else (castling, some ("Invalid character in castling rights".toList))

/-- The union of the six white (resp. black) piece bitboards, as recomputed
at the end of `load_fen` (board.rs lines 140-152). -/
def combined_of (b : Board) (c : Color) : Nat :=
  b.get_bb (Pieces.pawn c) ||| b.get_bb (Pieces.knight c)
    ||| b.get_bb (Pieces.bishop c) ||| b.get_bb (Pieces.rook c)
    ||| b.get_bb (Pieces.queen c) ||| b.get_bb (Pieces.king c)

/-- `Board::load_fen` (board.rs lines 45-155).  Returns the board after the
call together with `none` for `Ok(())` or the error message for `Err`;
because `self` is mutated in place, the board component on the error path
is the partially-updated state (`zero_boards` runs first, then each field
is assigned as parsed).  The source's `unwrap` panics on the two numeric
fields are reported here as errors whose text starts with `panic:`; the
assignment `self.en_passant = Square::from_notation(arg)` (which does not
type-check against `from_notation`'s declared `Square` return type as the
source stands) is modelled as storing `from_alg arg`. -/
def load_fen (b : Board) (s : List Char) : Board × Option (List Char) :=
  let b := zero_boards b
  let args := split_ws s
  if args.length ≠ 6 then
    (b, some ("Expected 6 whitespace delimited arguments".toList))
  else
    match parse_board_go b 0 (args.getD 0 []) with
    | (b, square, someErr) =>
      match someErr with
      | some e => (b, some e)
      | none =>
        if square < 64 then (b, some ("Expected 64 squares in FEN".toList))
        else
          match (args.getD 1 []).head? with
          | none => (b, some ("Expected w/b for current player".toList))
          | some c =>
            if c = 'w' ∨ c = 'b' then
              let b := { b with current_color :=
                if c = 'w' then Color.White else Color.Black }
              match parse_castling_go 0 (args.getD 2 []) with
              | (cas, casErr) =>
                let b := b.with_castling cas
                match casErr with
                | some e => (b, some e)
                | none =>
                  let epArg := args.getD 3 []
                  let b :=
                    if epArg = ['-'] then b.with_ep none
                    else b.with_ep (from_alg epArg)
                  match parse_usize (args.getD 4 []) with
                  | none => (b, some ("panic: fifty_move parse".toList))
                  | some fifty =>
                    let b := { b with fifty_move := fifty }
                    match parse_usize (args.getD 5 []) with
                    | none => (b, some ("panic: full_move_count parse".toList))
                    | some full =>
                      let b := { b with full_move_count := full }
                      let b := b.with_comb Color.White (combined_of b Color.White)
                      let b := b.with_comb Color.Black (combined_of b Color.Black)
                      (b, none)
            else (b, some ("Expected w/b for current player".toList))

/-- `Board::new` (board.rs lines 783-815).  The random Zobrist table is
abstracted as the parameter `tbl` (`rand_zobrist_table` fills it from a
thread RNG); on success the hash is initialised by XOR-ing the key of
every occupied square into the zeroed hash. -/
def board_new (tbl : Nat → Nat → Nat) (fen : List Char) : Except (List Char) Board :=
  let init : Board :=
    { current_color := Color.White, fifty_move := 0, full_move_count := 0,
      castling := 15, en_passant := none,
      pieces := fun _ => none, piece_bitboards := fun _ => 0,
      combined_bitboards := fun _ => 0,
      zobrist_table := tbl, zobrist_hash := 0 }
  match load_fen init fen with
  | (b, none) =>
    let hash :=
      (List.range 64).foldl
        (fun h sq =>
          match b.pieces sq with
          | some p => h ^^^ b.zobrist_table sq p.idx
          | none => h)
        b.zobrist_hash
    .ok { b with zobrist_hash := hash }
  | (_, some e) => .error e

/-- `STARTING_FEN` from board.rs. -/
def STARTING_FEN : List Char :=
  "rnbqkbnr/pppppppp/8/8/8/8/PPPPPPPP/RNBQKBNR w KQkq - 0 1".toList

/- ------------------------------------------------------------------ -/
/- movegen.rs: tables                                                  -/
/- ------------------------------------------------------------------ -/

/-- 64-bit truncating left shift (Rust `u64` `<<`). -/
def shl64 (x k : Nat) : Nat := (x <<< k) &&& U64_MAX

/-- `u64` bitwise complement (`!x`). -/
def not64 (x : Nat) : Nat := U64_MAX ^^^ x

/-- The `Ranks` discriminants of movegen.rs (`One = 1` … `Eight = 128`). -/
def RANKS_ONE : Nat := 1
def RANKS_THREE : Nat := 4
def RANKS_SIX : Nat := 32
def RANKS_EIGHT : Nat := 128

/-- The `Files` discriminants of movegen.rs (`A = 1` … `H = 128`). -/
def FILES_A : Nat := 1
def FILES_B : Nat := 2
def FILES_C : Nat := 4
def FILES_D : Nat := 8
def FILES_F : Nat := 32
def FILES_G : Nat := 64
def FILES_H : Nat := 128

/-- `WhitePlayer`/`BlackPlayer` `opposite_back_rank()`. -/
def opposite_back_rank (c : Color) : Nat :=
  if c.is_white then RANKS_EIGHT else RANKS_ONE

/-- `WhitePlayer`/`BlackPlayer` `en_passant_rank()`. -/
def en_passant_rank (c : Color) : Nat :=
  if c.is_white then RANKS_THREE else RANKS_SIX

/-- `WhitePlayer`/`BlackPlayer` `capture_offset(is_left_capture)` (an `i16`:
the start square of a pawn capture is `end + offset`). -/
def capture_offset (c : Color) (isLeft : Bool) : Int :=
  if c.is_white then (if isLeft then 9 else 7)
  else (if isLeft then -7 else -9)

/-- `WhitePlayer`/`BlackPlayer` `forward_offset()`. -/
def forward_offset (c : Color) : Int := if c.is_white then 8 else -8

/-- The `files` table built in `MoveGenerator::init` (movegen.rs lines
506-520): for a `Files` subset mask, the union of the full file
bitboards `0x0101010101010101 << i`. -/
def files_tbl (i : Nat) : Nat :=
  (List.range 8).foldl
    (fun acc j => if i &&& (1 <<< j) != 0 then acc ||| (0x0101010101010101 <<< j) else acc) 0

/-- The `ranks` table of `init`: union of `0xff << (8 * (7 - i))`. -/
def ranks_tbl (i : Nat) : Nat :=
  (List.range 8).foldl
    (fun acc j => if i &&& (1 <<< j) != 0 then acc ||| (0xff <<< (8 * (7 - j))) else acc) 0

/-- `not_files[i] = !files[i]`. -/
def not_files_tbl (i : Nat) : Nat := not64 (files_tbl i)

/-- `not_ranks[i] = !ranks[i]`. -/
def not_ranks_tbl (i : Nat) : Nat := not64 (ranks_tbl i)

/-- One ray of the relevance-mask generators `gen_rook_mask` /
`gen_bishop_mask` (movegen.rs lines 256-328): step by `(dr, df)` from
`(r, f)` while `cont r f` holds, setting each visited square; every such
loop runs at most 7 steps, so `fuel = 8` reproduces it exactly. -/
def walk_mask (cont : Int → Int → Bool) (dr df : Int) :
    Nat → Int → Int → Nat
  | 0, _, _ => 0
  | fuel + 1, r, f =>
    if cont r f then
      set_bit (walk_mask cont dr df fuel (r + dr) (f + df)) (r.toNat * 8 + f.toNat)
    else 0

/-- `MoveGenerator::gen_rook_mask`. -/
def gen_rook_mask (sq : Nat) : Nat :=
  let r : Int := sq / 8
  let f : Int := sq % 8
  walk_mask (fun r' _ => 1 ≤ r') (-1) 0 8 (r - 1) f
    ||| walk_mask (fun r' _ => r' ≤ 6) 1 0 8 (r + 1) f
    ||| walk_mask (fun _ f' => 1 ≤ f') 0 (-1) 8 r (f - 1)
    ||| walk_mask (fun _ f' => f' ≤ 6) 0 1 8 r (f + 1)

/-- `MoveGenerator::gen_bishop_mask`. -/
def gen_bishop_mask (sq : Nat) : Nat :=
  let r : Int := sq / 8
  let f : Int := sq % 8
  walk_mask (fun r' f' => 1 ≤ r' ∧ 1 ≤ f') (-1) (-1) 8 (r - 1) (f - 1)
    ||| walk_mask (fun r' f' => r' ≤ 6 ∧ 1 ≤ f') 1 (-1) 8 (r + 1) (f - 1)
    ||| walk_mask (fun r' f' => 1 ≤ r' ∧ f' ≤ 6) (-1) 1 8 (r - 1) (f + 1)
    ||| walk_mask (fun r' f' => r' ≤ 6 ∧ f' ≤ 6) 1 1 8 (r + 1) (f + 1)

/-- One ray of the attack generators `gen_rook_moves` / `gen_bishop_moves`
(movegen.rs lines 330-434): like `walk_mask` but stopping at (and
including) the first square occupied in `occ`. -/
def walk_moves (cont : Int → Int → Bool) (occ : Nat) (dr df : Int) :
    Nat → Int → Int → Nat
  | 0, _, _ => 0
  | fuel + 1, r, f =>
    if cont r f then
      let pos := r.toNat * 8 + f.toNat
      let rest :=
        if is_bit_set occ pos then 0
        else walk_moves cont occ dr df fuel (r + dr) (f + df)
      set_bit rest pos
    else 0

/-- `MoveGenerator::gen_rook_moves(start, occupancy)`: the true rook attack
set with blockers. -/
def gen_rook_moves (sq : Nat) (occ : Nat) : Nat :=
  let r : Int := sq / 8
  let f : Int := sq % 8
  walk_moves (fun r' _ => 0 ≤ r') occ (-1) 0 8 (r - 1) f
    ||| walk_moves (fun r' _ => r' ≤ 7) occ 1 0 8 (r + 1) f
    ||| walk_moves (fun _ f' => 0 ≤ f') occ 0 (-1) 8 r (f - 1)
    ||| walk_moves (fun _ f' => f' ≤ 7) occ 0 1 8 r (f + 1)

/-- `MoveGenerator::gen_bishop_moves(start, occupancy)` (its loops use
`Square::valid_rf`). -/
def gen_bishop_moves (sq : Nat) (occ : Nat) : Nat :=
  let r : Int := sq / 8
  let f : Int := sq % 8
  let valid : Int → Int → Bool := fun r' f' => 0 ≤ r' ∧ r' < 8 ∧ 0 ≤ f' ∧ f' < 8
  walk_moves valid occ (-1) (-1) 8 (r - 1) (f - 1)
    ||| walk_moves valid occ 1 (-1) 8 (r + 1) (f - 1)
    ||| walk_moves valid occ (-1) 1 8 (r - 1) (f + 1)
    ||| walk_moves valid occ 1 1 8 (r + 1) (f + 1)

/-- `MoveGenerator::gen_king_moves`: the eight-neighbour table entry. -/
def king_moves_tbl (sq : Nat) : Nat :=
  let r : Int := sq / 8
  let f : Int := sq % 8
  let vecs : List (Int × Int) :=
    [(-1, -1), (-1, 0), (-1, 1), (0, -1), (0, 1), (1, -1), (1, 0), (1, 1)]
  vecs.foldl
    (fun acc v =>
      let f' := f + v.1
      let r' := r + v.2
      if 0 ≤ r' ∧ r' < 8 ∧ 0 ≤ f' ∧ f' < 8 then
        set_bit acc (r'.toNat * 8 + f'.toNat)
      else acc) 0

/-- `MoveGenerator::gen_knight_moves`: the knight-hop table entry. -/
def knight_moves_tbl (sq : Nat) : Nat :=
  let r : Int := sq / 8
  let f : Int := sq % 8
  let vecs : List (Int × Int) :=
    [(-1, 2), (-2, 1), (1, 2), (2, 1), (-1, -2), (-2, -1), (1, -2), (2, -1)]
  vecs.foldl
    (fun acc v =>
      let f' := f + v.1
      let r' := r + v.2
      if 0 ≤ r' ∧ r' < 8 ∧ 0 ≤ f' ∧ f' < 8 then
        set_bit acc (r'.toNat * 8 + f'.toNat)
      else acc) 0

/-- The `pawn_attacks[color][sq]` table of `init` (movegen.rs lines
552-568): the squares from which an enemy pawn of the *opposite* direction
would attack, used as "the two diagonally-forward squares of `color`". -/
def pawn_attacks (c : Color) (i : Nat) : Nat :=
  match c with
  | Color.White =>
    let a := if i / 8 ≠ 0 ∧ i % 8 ≠ 7 then set_bit 0 (i - 7) else 0
    if i / 8 ≠ 0 ∧ i % 8 ≠ 0 then set_bit a (i - 9) else a
  | Color.Black =>
    let a := if i / 8 ≠ 7 ∧ i % 8 ≠ 7 then set_bit 0 (i + 9) else 0
    if i / 8 ≠ 7 ∧ i % 8 ≠ 0 then set_bit a (i + 7) else a

/-- The `slider_range[start][end]` table of `init` (movegen.rs lines
572-624): squares strictly between two squares on a shared rank, file or
diagonal, else 0.  The `while` loops of the diagonal cases are bounded
monotone conditions, rendered as filtered folds over the step count. -/
def slider_range (s e : Nat) : Nat :=
  let mn := min s e
  let mx := max s e
  let mnR := mn / 8
  let mnF := mn % 8
  let mxR := mx / 8
  let mxF := mx % 8
  if mnR = mxR then
    ((List.range 8).filter (fun f => mnF + 1 ≤ f ∧ f < mxF)).foldl
      (fun a f => set_bit a (mnR * 8 + f)) 0
  else if mnF = mxF then
    ((List.range 8).filter (fun r => mnR + 1 ≤ r ∧ r < mxR)).foldl
      (fun a r => set_bit a (r * 8 + mnF)) 0
  else
    let rd : Int := (mxR : Int) - (mnR : Int)
    let fd : Int := (mxF : Int) - (mnF : Int)
    if rd.natAbs = fd.natAbs then
      if rd = fd then
        ((List.range 8).filter (fun k => 1 ≤ k ∧ mnR + k < mxR ∧ mnF + k < mxF)).foldl
          (fun a k => set_bit a ((mnR + k) * 8 + (mnF + k))) 0
      else
        ((List.range 8).filter (fun k => 1 ≤ k ∧ mnR + k < mxR ∧ mnF - k > mxF)).foldl
          (fun a k => set_bit a ((mnR + k) * 8 + (mnF - k))) 0
    else 0

/-- `MoveGenerator::magic_rook_moves(sq, occupancy)`.  The source masks the
occupancy with `rook_masks[sq]` and looks the result up in the magic table
`rook_moves[sq]`; `init` (movegen.rs lines 535-539) stores
`gen_rook_moves(sq, subset)` at the magic key of every subset of the mask,
so the lookup returns `gen_rook_moves(sq, occ & rook_masks[sq])` — the
defining property of the magic perfect hash, which we take as the
semantics of the table. -/
def magic_rook_moves (sq occ : Nat) : Nat :=
  gen_rook_moves sq (occ &&& gen_rook_mask sq)

/-- `MoveGenerator::magic_bishop_moves(sq, occupancy)`; see
`magic_rook_moves`. -/
def magic_bishop_moves (sq occ : Nat) : Nat :=
  gen_bishop_moves sq (occ &&& gen_bishop_mask sq)

/-- `MoveGenerator::magic_queen_moves`. -/
def magic_queen_moves (sq occ : Nat) : Nat :=
  magic_bishop_moves sq occ ||| magic_rook_moves sq occ

/- ------------------------------------------------------------------ -/
/- movegen.rs: move generation                                         -/
/- ------------------------------------------------------------------ -/

/-!
The generator is embedded twice.

The functions named after the source (`add_king_moves`, `gen_moves`,
`perft`, ...) are the **literal** embedding: every bit-scan is
bitboard.rs's `lsb_idx` / `pop_lsb`, whose table lookup goes out of
bounds (a panic, modelled `none`) for every word whose lowest set bit is
at position 1..62 (see `claim_C6_theorem`).  They therefore return
`Option`, and on essentially every position they return `none`, exactly
as the program panics.

The `*_intended` twins replace only the bit-scan by its intended value
(`lsbi` / `bit_indices`: index of the lowest set bit, bits visited in
increasing order) - the counterpart of `lsb_idx_u32` for the whole
generator.  They state what the generator computes once the C6 bug is
out of the way and are used for the intent halves of the theorems.
-/

/-- `MoveGenerator::find_enemy_attackers::<P>` (movegen.rs lines 678-695)
with `P::color() = c`. -/
def find_enemy_attackers (c : Color) (sq : Nat) (b : Board) (occ : Nat) : Nat :=
  let bq := b.get_bb (Pieces.bishop c.enemy) ||| b.get_bb (Pieces.queen c.enemy)
  let rq := b.get_bb (Pieces.rook c.enemy) ||| b.get_bb (Pieces.queen c.enemy)
  ((magic_bishop_moves sq occ &&& bq) ||| (magic_rook_moves sq occ &&& rq))
    ||| ((knight_moves_tbl sq &&& b.get_bb (Pieces.knight c.enemy))
      ||| (king_moves_tbl sq &&& b.get_bb (Pieces.king c.enemy))
      ||| (pawn_attacks c sq &&& b.get_bb (Pieces.pawn c.enemy)))

/-- `MoveGenerator::is_sq_under_attack::<P>` (movegen.rs lines 697-716):
the same tests with early exit, as a disjunction. -/
def is_sq_under_attack (c : Color) (sq : Nat) (b : Board) (occ : Nat) : Bool :=
  (knight_moves_tbl sq &&& b.get_bb (Pieces.knight c.enemy) != 0)
    || (king_moves_tbl sq &&& b.get_bb (Pieces.king c.enemy) != 0)
    || (pawn_attacks c sq &&& b.get_bb (Pieces.pawn c.enemy) != 0)
    || (magic_bishop_moves sq occ
        &&& (b.get_bb (Pieces.bishop c.enemy) ||| b.get_bb (Pieces.queen c.enemy)) != 0)
    || (magic_rook_moves sq occ
        &&& (b.get_bb (Pieces.rook c.enemy) ||| b.get_bb (Pieces.queen c.enemy)) != 0)

/-- `MoveGenerator::validate_en_passant::<P>` (movegen.rs lines 719-771):
temporarily plays the en-passant capture on the board's pawn and
colour-union bitboards (and on a copy of the occupancy), tests whether the
king square is attacked, then reverts the bitboard changes.  Returns the
legality verdict **and the board after the revert**.  The caller has
checked `board.en_passant.is_some()`; on `none` the source would panic
(`unwrap`), modelled here by returning the board unchanged with `false`
(the arm is unreachable from the callers). -/
def validate_en_passant (c : Color) (b : Board) (king_pos start endSq : Nat)
    (occ : Nat) : Bool × Board :=
  match b.en_passant with
  | none => (false, b)
  | some eps =>
    let b := b.with_bb (Pieces.pawn c.enemy) (clear_bit (b.get_bb (Pieces.pawn c.enemy)) endSq)
    let b := b.with_bb (Pieces.pawn c)
      (set_bit (clear_bit (b.get_bb (Pieces.pawn c)) start) eps)
    let b := b.with_comb c.enemy (clear_bit (b.get_combined_bb c.enemy) endSq)
    let b := b.with_comb c (set_bit (clear_bit (b.get_combined_bb c) start) eps)
    let occ := clear_bit (set_bit (clear_bit occ start) eps) endSq
    let result := ! is_sq_under_attack c king_pos b occ
    let b := b.with_bb (Pieces.pawn c.enemy) (set_bit (b.get_bb (Pieces.pawn c.enemy)) endSq)
    let b := b.with_bb (Pieces.pawn c)
      (clear_bit (set_bit (b.get_bb (Pieces.pawn c)) start) eps)
    let b := b.with_comb c.enemy (set_bit (b.get_combined_bb c.enemy) endSq)
    let b := b.with_comb c (clear_bit (set_bit (b.get_combined_bb c) start) eps)
    (result, b)

/-- `MoveList::add_promotion` (movegen.rs lines 175-188): queen, rook,
bishop, knight, in that order. -/
def add_promotion (start endSq : Nat) : List Move :=
  [new_move start endSq (MOVE_TYPE_PROMOTION ||| MOVE_PROMOTION_PIECE_QUEEN),
   new_move start endSq (MOVE_TYPE_PROMOTION ||| MOVE_PROMOTION_PIECE_ROOK),
   new_move start endSq (MOVE_TYPE_PROMOTION ||| MOVE_PROMOTION_PIECE_BISHOP),
   new_move start endSq (MOVE_TYPE_PROMOTION ||| MOVE_PROMOTION_PIECE_KNIGHT)]

/-- Intended-bit-scan variant of `MoveGenerator::add_pawn_captures::<P, C>` (movegen.rs lines 773-820).
Returns the emitted moves (candidate en-passant capture first, then plain
captures, then promotion captures, each loop in increasing square order)
and the board (threaded through `validate_en_passant`). -/
def add_pawn_captures_intended (c : Color) (isLeft : Bool) (b : Board)
    (occ pinned legal_captures : Nat) (king_pos : Nat) : List Move × Board :=
  let enemy_bb := b.get_combined_bb c.enemy
  let pawns_bb := b.get_bb (Pieces.pawn c) &&& not64 pinned
  let offset := capture_offset c isLeft
  let back_rank := opposite_back_rank c
  let excluded_file := if isLeft then FILES_A else FILES_H
  let file_mask := not_files_tbl excluded_file
  let captures0 :=
    if c.is_white then (pawns_bb &&& file_mask) >>> (if isLeft then 9 else 7)
    else shl64 (pawns_bb &&& file_mask) (if isLeft then 7 else 9)
  let epMoves : List Move × Board :=
    match b.en_passant with
    | none => ([], b)
    | some eps =>
      let start := ((eps : Int) + offset).toNat
      let epEnd := ((eps : Int) + forward_offset c).toNat
      if is_bit_set captures0 eps then
        let (ok, b') := validate_en_passant c b king_pos start epEnd occ
        if ok then ([new_move start epEnd MOVE_TYPE_EN_PASSANT], b')
        else ([], b')
      else ([], b)
  let b := epMoves.2
  let captures := captures0 &&& legal_captures &&& enemy_bb
  let nonPromo :=
    (bit_indices (captures &&& not_ranks_tbl back_rank)).map
      (fun endSq => new_move ((offset + Int.ofNat endSq).toNat) endSq 0)
  let promo :=
    (bit_indices (captures &&& ranks_tbl back_rank)).foldl
      (fun acc endSq => acc ++ add_promotion ((offset + Int.ofNat endSq).toNat) endSq) []
  (epMoves.1 ++ nonPromo ++ promo, b)

/-- Intended-bit-scan variant of `MoveGenerator::add_pawn_pushes::<P>` (movegen.rs lines 821-865). -/
def add_pawn_pushes_intended (c : Color) (b : Board) (occ pinned blockers : Nat) : List Move :=
  let pawns_bb := b.get_bb (Pieces.pawn c) &&& not64 pinned
  let offset := forward_offset c
  let back_rank := opposite_back_rank c
  let singles0 :=
    (if c.is_white then pawns_bb >>> 8 else shl64 pawns_bb 8) &&& not64 occ
  let nonPromo :=
    (bit_indices (singles0 &&& blockers &&& not_ranks_tbl back_rank)).map
      (fun endSq => new_move ((offset + Int.ofNat endSq).toNat) endSq 0)
  let promo :=
    (bit_indices (singles0 &&& blockers &&& ranks_tbl back_rank)).foldl
      (fun acc endSq => acc ++ add_promotion ((offset + Int.ofNat endSq).toNat) endSq) []
  let singles1 := singles0 &&& ranks_tbl (en_passant_rank c)
  let doubles :=
    (if c.is_white then singles1 >>> 8 else shl64 singles1 8) &&& not64 occ &&& blockers
  let doubleMoves :=
    (bit_indices doubles).map
      (fun endSq => new_move ((offset * 2 + Int.ofNat endSq).toNat) endSq 0)
  nonPromo ++ promo ++ doubleMoves

/-- Intended-bit-scan variant of `MoveGenerator::add_pawn_moves::<P>` (movegen.rs lines 871-898): left
captures, right captures, pushes. -/
def add_pawn_moves_intended (c : Color) (b : Board)
    (occ pinned legal_captures blockers : Nat) (king_pos : Nat) :
    List Move × Board :=
  let (l, b) := add_pawn_captures_intended c true b occ pinned legal_captures king_pos
  let (r, b) := add_pawn_captures_intended c false b occ pinned legal_captures king_pos
  (l ++ r ++ add_pawn_pushes_intended c b occ pinned blockers, b)

/-- Intended-bit-scan variant of `MoveGenerator::add_knight_moves::<P>` (movegen.rs lines 900-918). -/
def add_knight_moves_intended (c : Color) (b : Board) (pinned move_mask : Nat) : List Move :=
  let mask := move_mask &&& not64 (b.get_combined_bb c)
  (bit_indices (b.get_bb (Pieces.knight c) &&& not64 pinned)).foldl
    (fun acc start =>
      acc ++ (bit_indices (knight_moves_tbl start &&& mask)).map
        (fun endSq => new_move start endSq 0)) []

/-- Intended-bit-scan variant of `MoveGenerator::add_bishop_moves::<P>` (movegen.rs lines 920-939). -/
def add_bishop_moves_intended (c : Color) (b : Board) (occ pinned move_mask : Nat) : List Move :=
  let mask := move_mask &&& not64 (b.get_combined_bb c)
  (bit_indices (b.get_bb (Pieces.bishop c) &&& not64 pinned)).foldl
    (fun acc start =>
      acc ++ (bit_indices (magic_bishop_moves start occ &&& mask)).map
        (fun endSq => new_move start endSq 0)) []

/-- Intended-bit-scan variant of `MoveGenerator::add_rook_moves::<P>` (movegen.rs lines 941-960). -/
def add_rook_moves_intended (c : Color) (b : Board) (occ pinned move_mask : Nat) : List Move :=
  let mask := move_mask &&& not64 (b.get_combined_bb c)
  (bit_indices (b.get_bb (Pieces.rook c) &&& not64 pinned)).foldl
    (fun acc start =>
      acc ++ (bit_indices (magic_rook_moves start occ &&& mask)).map
        (fun endSq => new_move start endSq 0)) []

/-- Intended-bit-scan variant of `MoveGenerator::add_queen_moves::<P>` (movegen.rs lines 962-981). -/
def add_queen_moves_intended (c : Color) (b : Board) (occ pinned move_mask : Nat) : List Move :=
  let mask := move_mask &&& not64 (b.get_combined_bb c)
  (bit_indices (b.get_bb (Pieces.queen c) &&& not64 pinned)).foldl
    (fun acc start =>
      acc ++ (bit_indices (magic_queen_moves start occ &&& mask)).map
        (fun endSq => new_move start endSq 0)) []

/-- Intended-bit-scan variant of `MoveGenerator::add_king_moves::<P>` (movegen.rs lines 983-997): each
destination is tested with the king removed from the occupancy. -/
def add_king_moves_intended (c : Color) (b : Board) (occ : Nat) : List Move :=
  let king_bb := b.get_bb (Pieces.king c)
  let start := lsbi king_bb
  let occ := occ &&& not64 king_bb
  (bit_indices (king_moves_tbl start &&& not64 (b.get_combined_bb c))).foldl
    (fun acc endSq =>
      if ! is_sq_under_attack c endSq b occ then acc ++ [new_move start endSq 0]
      else acc) []

/-- `MoveGenerator::add_castling_moves::<P>` (movegen.rs lines 999-1050). -/
def add_castling_moves (c : Color) (b : Board) (occ : Nat) : List Move :=
  let file_mask_qs := files_tbl (FILES_B ||| FILES_C ||| FILES_D)
  let file_mask_ks := files_tbl (FILES_F ||| FILES_G)
  if c.is_white then
    (if b.can_castle_qs Color.White
        ∧ occ &&& ranks_tbl RANKS_ONE &&& file_mask_qs = 0
        ∧ ¬ is_sq_under_attack c 59 b occ
        ∧ ¬ is_sq_under_attack c 58 b occ then
      [new_move 60 58 (MOVE_TYPE_CASTLE ||| MOVE_CASTLE_SIDE_QS)]
    else [])
    ++ (if b.can_castle_ks Color.White
        ∧ occ &&& ranks_tbl RANKS_ONE &&& file_mask_ks = 0
        ∧ ¬ is_sq_under_attack c 61 b occ
        ∧ ¬ is_sq_under_attack c 62 b occ then
      [new_move 60 62 (MOVE_TYPE_CASTLE ||| MOVE_CASTLE_SIDE_KS)]
    else [])
  else
    (if b.can_castle_qs Color.Black
        ∧ occ &&& ranks_tbl RANKS_EIGHT &&& file_mask_qs = 0
        ∧ ¬ is_sq_under_attack c 3 b occ
        ∧ ¬ is_sq_under_attack c 2 b occ then
      [new_move 4 2 (MOVE_TYPE_CASTLE ||| MOVE_CASTLE_SIDE_QS)]
    else [])
    ++ (if b.can_castle_ks Color.Black
        ∧ occ &&& ranks_tbl RANKS_EIGHT &&& file_mask_ks = 0
        ∧ ¬ is_sq_under_attack c 5 b occ
        ∧ ¬ is_sq_under_attack c 6 b occ then
      [new_move 4 6 (MOVE_TYPE_CASTLE ||| MOVE_CASTLE_SIDE_KS)]
    else [])

/-- Intended-bit-scan variant of `MoveGenerator::add_pinned_pawn_pushes::<P>` (movegen.rs lines
1055-1094). -/
def add_pinned_pawn_pushes_intended (c : Color) (occ pinned_pos mask : Nat) : List Move :=
  let pawns_bb := 1 <<< pinned_pos
  let back_rank := opposite_back_rank c
  let singles0 :=
    (if c.is_white then pawns_bb >>> 8 else shl64 pawns_bb 8) &&& not64 occ
  let promo := singles0 &&& ranks_tbl back_rank &&& mask
  if promo ≠ 0 then add_promotion pinned_pos (lsbi promo)
  else
    let nonPromo := singles0 &&& not_ranks_tbl back_rank &&& mask
    let first := if nonPromo ≠ 0 then [new_move pinned_pos (lsbi nonPromo) 0] else []
    let singles1 := singles0 &&& ranks_tbl (en_passant_rank c)
    let doubles :=
      (if c.is_white then singles1 >>> 8 else shl64 singles1 8) &&& mask &&& not64 occ
    first ++ (if doubles ≠ 0 then [new_move pinned_pos (lsbi doubles) 0] else [])

/-- Intended-bit-scan variant of `MoveGenerator::add_pinned_pawn_captures::<P, C>` (movegen.rs lines
1095-1143). -/
def add_pinned_pawn_captures_intended (c : Color) (isLeft : Bool) (b : Board)
    (occ pinned_pos mask king_pos : Nat) : List Move × Board :=
  let enemy_bb := b.get_combined_bb c.enemy
  let pawns_bb := 1 <<< pinned_pos
  let back_rank := opposite_back_rank c
  let excluded_file := if isLeft then FILES_A else FILES_H
  let file_mask := not_files_tbl excluded_file
  let captures :=
    (if c.is_white then (pawns_bb &&& file_mask) >>> (if isLeft then 9 else 7)
     else shl64 (pawns_bb &&& file_mask) (if isLeft then 7 else 9)) &&& mask
  let promoCaps := captures &&& ranks_tbl back_rank &&& enemy_bb
  if promoCaps ≠ 0 then (add_promotion pinned_pos (lsbi promoCaps), b)
  else
    let epMoves : List Move × Board :=
      match b.en_passant with
      | none => ([], b)
      | some eps =>
        let epEnd := ((eps : Int) + forward_offset c).toNat
        if is_bit_set captures eps then
          let (ok, b') := validate_en_passant c b king_pos pinned_pos epEnd occ
          if ok then ([new_move pinned_pos epEnd MOVE_TYPE_EN_PASSANT], b')
          else ([], b')
        else ([], b)
    let b := epMoves.2
    let nonPromoCaps := captures &&& not_ranks_tbl back_rank &&& enemy_bb
    (epMoves.1
      ++ (if nonPromoCaps ≠ 0 then [new_move pinned_pos (lsbi nonPromoCaps) 0] else []),
     b)

/-- Intended-bit-scan variant of `MoveGenerator::add_pinned_moves::<P>` (movegen.rs lines 1144-1223).
The `board.pieces[pinned_pos].unwrap()` is backed by a `debug_assert`; the
`none` arm (unreachable from `gen_pin_attackers_intended` on coherent boards) emits
nothing. -/
def add_pinned_moves_intended (c : Color) (b : Board)
    (occ legal_captures blockers king_pos pinned_pos attacker_pos : Nat) :
    List Move × Board :=
  let moves_mask := legal_captures ||| blockers
  let pin_move_mask :=
    (slider_range attacker_pos king_pos &&& not64 (b.get_combined_bb c))
      ||| (1 <<< attacker_pos)
  match b.pieces pinned_pos with
  | none => ([], b)
  | some piece =>
    if piece.is_pawn then
      if king_pos / 8 ≠ pinned_pos / 8 then
        if king_pos % 8 = pinned_pos % 8 then
          (add_pinned_pawn_pushes_intended c occ pinned_pos (pin_move_mask &&& blockers), b)
        else
          let (l, b) := add_pinned_pawn_captures_intended c true b occ pinned_pos
            (legal_captures &&& pin_move_mask) king_pos
          let (r, b) := add_pinned_pawn_captures_intended c false b occ pinned_pos
            (legal_captures &&& pin_move_mask) king_pos
          (l ++ r, b)
      else ([], b)
    else
      let bMoves :=
        if piece.is_bishop || piece.is_queen then
          (bit_indices (magic_bishop_moves pinned_pos occ &&& moves_mask &&& pin_move_mask)).map
            (fun endSq => new_move pinned_pos endSq 0)
        else []
      let rMoves :=
        if piece.is_rook || piece.is_queen then
          (bit_indices (magic_rook_moves pinned_pos occ &&& moves_mask &&& pin_move_mask)).map
            (fun endSq => new_move pinned_pos endSq 0)
        else []
      (bMoves ++ rMoves, b)

/-- Intended-bit-scan variant of `MoveGenerator::gen_pin_attackers::<P>` (movegen.rs lines 1224-1275):
for each enemy slider seen from the king through enemy-only occupancy, if
exactly one friendly piece sits between, emit that piece's pinned moves
and record it.  Returns (moves, board, pinned-bitboard). -/
def gen_pin_attackers_intended (c : Color) (b : Board)
    (occ king_pos checkers legal_captures blockers : Nat) (is_bishop : Bool) :
    List Move × Board × Nat :=
  let piece_mask := b.get_bb (Pieces.queen c.enemy)
    ||| b.get_bb (if is_bishop then Pieces.bishop c.enemy else Pieces.rook c.enemy)
  let attackers :=
    (if is_bishop then magic_bishop_moves king_pos (b.get_combined_bb c.enemy)
     else magic_rook_moves king_pos (b.get_combined_bb c.enemy))
      &&& piece_mask &&& not64 checkers
  (bit_indices attackers).foldl
    (fun st attacker_pos =>
      let (ml, b, pinned) := st
      let occupied := slider_range attacker_pos king_pos &&& b.get_combined_bb c
      if occupied = 0 then (ml, b, pinned)
      else
        let pinned_pos := lsbi occupied
        let occupied' := occupied &&& (occupied - 1)
        if occupied' = 0 then
          let (ml', b') := add_pinned_moves_intended c b occ legal_captures blockers
            king_pos pinned_pos attacker_pos
          (ml ++ ml', b', set_bit pinned pinned_pos)
        else (ml, b, pinned))
    ([], b, 0)

/-- Intended-bit-scan variant of `MoveGenerator::gen_pinned_pieces::<P>` (movegen.rs lines 1276-1305):
the bishop-direction pass, then the rook-direction pass; the pinned sets
are OR-ed. -/
def gen_pinned_pieces_intended (c : Color) (b : Board)
    (occ king_pos checkers legal_captures blockers : Nat) :
    List Move × Board × Nat :=
  let (ml1, b, p1) :=
    gen_pin_attackers_intended c b occ king_pos checkers legal_captures blockers true
  let (ml2, b, p2) :=
    gen_pin_attackers_intended c b occ king_pos checkers legal_captures blockers false
  (ml1 ++ ml2, b, p1 ||| p2)

/-- Intended-bit-scan variant of `MoveGenerator::gen_moves_for_player::<P>` (movegen.rs lines
1307-1380).  King moves are generated first; then the branch on the number
of checkers.  `none` models the `panic!("Invalid number of attackers on
the king")` arm.  The `board.pieces[attacker_pos].unwrap()` knight test is
backed by a `debug_assert`; a missing piece is treated as the non-knight
arm (unreachable on coherent boards). -/
def gen_moves_for_player_intended (c : Color) (b : Board) : Option (List Move × Board) :=
  let occupancy := b.get_occupancy
  let king_pos := lsbi (b.get_bb (Pieces.king c))
  let kingMoves := add_king_moves_intended c b occupancy
  let attacking_king := find_enemy_attackers c king_pos b occupancy
  if count_1s attacking_king = 2 then
    some (kingMoves, b)
  else if count_1s attacking_king = 1 then
    let attacker_pos := lsbi attacking_king
    let blockers :=
      match b.pieces attacker_pos with
      | some p => if p.is_knight then 0 else slider_range king_pos attacker_pos
      | none => slider_range king_pos attacker_pos
    let move_mask := attacking_king ||| blockers
    let (mlPin, b, pinned) := gen_pinned_pieces_intended c b occupancy king_pos
      attacking_king attacking_king blockers
    let (mlPawn, b) := add_pawn_moves_intended c b occupancy pinned attacking_king blockers king_pos
    some (kingMoves ++ mlPin ++ mlPawn
      ++ add_knight_moves_intended c b pinned move_mask
      ++ add_bishop_moves_intended c b occupancy pinned move_mask
      ++ add_rook_moves_intended c b occupancy pinned move_mask
      ++ add_queen_moves_intended c b occupancy pinned move_mask, b)
  else if count_1s attacking_king = 0 then
    let (mlPin, b, pinned) := gen_pinned_pieces_intended c b occupancy king_pos
      0 U64_MAX U64_MAX
    let mlCastle := add_castling_moves c b occupancy
    let (mlPawn, b) := add_pawn_moves_intended c b occupancy pinned U64_MAX U64_MAX king_pos
    some (kingMoves ++ mlPin ++ mlCastle ++ mlPawn
      ++ add_knight_moves_intended c b pinned U64_MAX
      ++ add_bishop_moves_intended c b occupancy pinned U64_MAX
      ++ add_rook_moves_intended c b occupancy pinned U64_MAX
      ++ add_queen_moves_intended c b occupancy pinned U64_MAX, b)
  else none

/-- Intended-bit-scan variant of `MoveGenerator::gen_moves` (movegen.rs lines 1382-1388): dispatch on
the side to move.  Returns the emitted move list and the board after the
call (the board is taken by `&mut` and threaded through
`validate_en_passant`). -/
def gen_moves_intended (b : Board) : Option (List Move × Board) :=
  if b.friendly_color.is_white then gen_moves_for_player_intended Color.White b
  else gen_moves_for_player_intended Color.Black b

/- ------------------------------------------------------------------ -/
/- perft.rs                                                            -/
/- ------------------------------------------------------------------ -/

/-- Intended-bit-scan variant of `perft` (perft.rs lines 5-24): generate, and at depth ≤ 1 count the
list; otherwise make / recurse / undo over the generated moves.  The board
is threaded; `none` models any panic below. -/
def perft_intended : Nat → Board → Option (Nat × Board)
  | 0, b => (gen_moves_intended b).map (fun mlb => (mlb.1.length, mlb.2))
  | 1, b => (gen_moves_intended b).map (fun mlb => (mlb.1.length, mlb.2))
  | depth + 2, b =>
    (gen_moves_intended b).bind (fun mlb =>
      mlb.1.foldlM
        (fun st mv => do
          let (acc, bcur) := st
          let (b1, info) ← make_move bcur mv
          let (n, b2) ← perft_intended (depth + 1) b1
          let b3 ← undo_move b2 mv info
          pure (acc + n, b3))
        ((0 : Nat), mlb.2))

/-!
The literal generator.  Every bit-scan below is bitboard.rs's `lsb_idx`
or `pop_lsb`; `none` is the out-of-bounds table panic of `LSB_64_TABLE`
(or one of the source's own `panic!`/`unwrap` arms).
-/

/-- A source loop `while bb != 0 { let i = bb.pop_lsb(); body }` whose
body does not touch `bb`: the indices popped, in order, or `none` if any
`pop_lsb` panics.  Each successful step clears one bit, so 64 units of
fuel can never be exhausted on a 64-bit word; pre-scanning the pops is
observationally equal to interleaving them with the body, because the
same pops run on the same words and a panic leaves no result either
way. -/
def pop_lsb_loop : Nat → Nat → Option (List Nat)
  | 0, bb => if bb = 0 then some [] else none
  | fuel + 1, bb =>
    if bb = 0 then some []
    else
      match pop_lsb bb with
      | none => none
      | some iv => (pop_lsb_loop fuel iv.2).map (fun l => iv.1 :: l)

/-- `MoveGenerator::add_pawn_captures::<P, C>` (movegen.rs lines 775-820),
literal: the en-passant block first, then the two `pop_lsb` emission
loops over non-promotion and promotion captures. -/
def add_pawn_captures (c : Color) (isLeft : Bool) (b : Board)
    (occ pinned legal_captures : Nat) (king_pos : Nat) :
    Option (List Move × Board) :=
  let enemy_bb := b.get_combined_bb c.enemy
  let pawns_bb := b.get_bb (Pieces.pawn c) &&& not64 pinned
  let offset := capture_offset c isLeft
  let back_rank := opposite_back_rank c
  let excluded_file := if isLeft then FILES_A else FILES_H
  let file_mask := not_files_tbl excluded_file
  let captures0 :=
    if c.is_white then (pawns_bb &&& file_mask) >>> (if isLeft then 9 else 7)
    else shl64 (pawns_bb &&& file_mask) (if isLeft then 7 else 9)
  let epMoves : List Move × Board :=
    match b.en_passant with
    | none => ([], b)
    | some eps =>
      let start := ((eps : Int) + offset).toNat
      let epEnd := ((eps : Int) + forward_offset c).toNat
      if is_bit_set captures0 eps then
        let (ok, b2) := validate_en_passant c b king_pos start epEnd occ
        if ok then ([new_move start epEnd MOVE_TYPE_EN_PASSANT], b2)
        else ([], b2)
      else ([], b)
  let b := epMoves.2
  let captures := captures0 &&& legal_captures &&& enemy_bb
  match pop_lsb_loop 64 (captures &&& not_ranks_tbl back_rank) with
  | none => none
  | some npEnds =>
    match pop_lsb_loop 64 (captures &&& ranks_tbl back_rank) with
    | none => none
    | some prEnds =>
      some (epMoves.1
        ++ npEnds.map (fun endSq => new_move ((offset + Int.ofNat endSq).toNat) endSq 0)
        ++ prEnds.foldl (fun acc endSq =>
            acc ++ add_promotion ((offset + Int.ofNat endSq).toNat) endSq) [],
        b)

/-- `MoveGenerator::add_pawn_pushes::<P>` (movegen.rs lines 821-865),
literal: three `pop_lsb` emission loops (non-promotion singles,
promotion singles, doubles). -/
def add_pawn_pushes (c : Color) (b : Board) (occ pinned blockers : Nat) :
    Option (List Move) :=
  let pawns_bb := b.get_bb (Pieces.pawn c) &&& not64 pinned
  let offset := forward_offset c
  let back_rank := opposite_back_rank c
  let singles0 :=
    (if c.is_white then pawns_bb >>> 8 else shl64 pawns_bb 8) &&& not64 occ
  match pop_lsb_loop 64 (singles0 &&& blockers &&& not_ranks_tbl back_rank) with
  | none => none
  | some npEnds =>
    match pop_lsb_loop 64 (singles0 &&& blockers &&& ranks_tbl back_rank) with
    | none => none
    | some prEnds =>
      let singles1 := singles0 &&& ranks_tbl (en_passant_rank c)
      let doubles :=
        (if c.is_white then singles1 >>> 8 else shl64 singles1 8)
          &&& not64 occ &&& blockers
      match pop_lsb_loop 64 doubles with
      | none => none
      | some dEnds =>
        some (npEnds.map (fun endSq =>
            new_move ((offset + Int.ofNat endSq).toNat) endSq 0)
          ++ prEnds.foldl (fun acc endSq =>
              acc ++ add_promotion ((offset + Int.ofNat endSq).toNat) endSq) []
          ++ dEnds.map (fun endSq =>
              new_move ((offset * 2 + Int.ofNat endSq).toNat) endSq 0))

/-- `MoveGenerator::add_pawn_moves::<P>` (movegen.rs lines 871-898),
literal: left captures, right captures, pushes. -/
def add_pawn_moves (c : Color) (b : Board)
    (occ pinned legal_captures blockers : Nat) (king_pos : Nat) :
    Option (List Move × Board) :=
  match add_pawn_captures c true b occ pinned legal_captures king_pos with
  | none => none
  | some lb =>
    match add_pawn_captures c false lb.2 occ pinned legal_captures king_pos with
    | none => none
    | some rb =>
      match add_pawn_pushes c rb.2 occ pinned blockers with
      | none => none
      | some pushes => some (lb.1 ++ rb.1 ++ pushes, rb.2)

/-- `MoveGenerator::add_knight_moves::<P>` (movegen.rs lines 900-918),
literal: `pop_lsb` over the knights, `pop_lsb` over each target set. -/
def add_knight_moves (c : Color) (b : Board) (pinned move_mask : Nat) :
    Option (List Move) :=
  let mask := move_mask &&& not64 (b.get_combined_bb c)
  match pop_lsb_loop 64 (b.get_bb (Pieces.knight c) &&& not64 pinned) with
  | none => none
  | some starts =>
    starts.foldlM (fun acc start =>
      (pop_lsb_loop 64 (knight_moves_tbl start &&& mask)).map
        (fun ends => acc ++ ends.map (fun endSq => new_move start endSq 0))) []

/-- `MoveGenerator::add_bishop_moves::<P>` (movegen.rs lines 920-939),
literal. -/
def add_bishop_moves (c : Color) (b : Board) (occ pinned move_mask : Nat) :
    Option (List Move) :=
  let mask := move_mask &&& not64 (b.get_combined_bb c)
  match pop_lsb_loop 64 (b.get_bb (Pieces.bishop c) &&& not64 pinned) with
  | none => none
  | some starts =>
    starts.foldlM (fun acc start =>
      (pop_lsb_loop 64 (magic_bishop_moves start occ &&& mask)).map
        (fun ends => acc ++ ends.map (fun endSq => new_move start endSq 0))) []

/-- `MoveGenerator::add_rook_moves::<P>` (movegen.rs lines 941-960),
literal. -/
def add_rook_moves (c : Color) (b : Board) (occ pinned move_mask : Nat) :
    Option (List Move) :=
  let mask := move_mask &&& not64 (b.get_combined_bb c)
  match pop_lsb_loop 64 (b.get_bb (Pieces.rook c) &&& not64 pinned) with
  | none => none
  | some starts =>
    starts.foldlM (fun acc start =>
      (pop_lsb_loop 64 (magic_rook_moves start occ &&& mask)).map
        (fun ends => acc ++ ends.map (fun endSq => new_move start endSq 0))) []

/-- `MoveGenerator::add_queen_moves::<P>` (movegen.rs lines 962-981),
literal. -/
def add_queen_moves (c : Color) (b : Board) (occ pinned move_mask : Nat) :
    Option (List Move) :=
  let mask := move_mask &&& not64 (b.get_combined_bb c)
  match pop_lsb_loop 64 (b.get_bb (Pieces.queen c) &&& not64 pinned) with
  | none => none
  | some starts =>
    starts.foldlM (fun acc start =>
      (pop_lsb_loop 64 (magic_queen_moves start occ &&& mask)).map
        (fun ends => acc ++ ends.map (fun endSq => new_move start endSq 0))) []

/-- `MoveGenerator::add_king_moves::<P>` (movegen.rs lines 983-997),
literal: `lsb_idx` on the king bitboard, then a `pop_lsb` loop over the
destinations, each tested with the king removed from the occupancy. -/
def add_king_moves (c : Color) (b : Board) (occ : Nat) : Option (List Move) :=
  let king_bb := b.get_bb (Pieces.king c)
  match lsb_idx king_bb with
  | none => none
  | some start =>
    let occ := occ &&& not64 king_bb
    (pop_lsb_loop 64 (king_moves_tbl start &&& not64 (b.get_combined_bb c))).map
      (fun ends => ends.foldl (fun acc endSq =>
        if ! is_sq_under_attack c endSq b occ then acc ++ [new_move start endSq 0]
        else acc) [])

/-- `MoveGenerator::add_pinned_pawn_pushes::<P>` (movegen.rs lines
1055-1094), literal: three `lsb_idx` scans. -/
def add_pinned_pawn_pushes (c : Color) (occ pinned_pos mask : Nat) :
    Option (List Move) :=
  let pawns_bb := 1 <<< pinned_pos
  let back_rank := opposite_back_rank c
  let singles0 :=
    (if c.is_white then pawns_bb >>> 8 else shl64 pawns_bb 8) &&& not64 occ
  let promo := singles0 &&& ranks_tbl back_rank &&& mask
  if promo ≠ 0 then (lsb_idx promo).map (add_promotion pinned_pos)
  else
    let nonPromo := singles0 &&& not_ranks_tbl back_rank &&& mask
    match (if nonPromo ≠ 0 then
        (lsb_idx nonPromo).map (fun i => [new_move pinned_pos i 0])
      else some []) with
    | none => none
    | some first =>
      let singles1 := singles0 &&& ranks_tbl (en_passant_rank c)
      let doubles :=
        (if c.is_white then singles1 >>> 8 else shl64 singles1 8)
          &&& mask &&& not64 occ
      if doubles ≠ 0 then
        (lsb_idx doubles).map (fun i => first ++ [new_move pinned_pos i 0])
      else some first

/-- `MoveGenerator::add_pinned_pawn_captures::<P, C>` (movegen.rs lines
1095-1143), literal: `lsb_idx` scans on the promotion and non-promotion
capture sets. -/
def add_pinned_pawn_captures (c : Color) (isLeft : Bool) (b : Board)
    (occ pinned_pos mask king_pos : Nat) : Option (List Move × Board) :=
  let enemy_bb := b.get_combined_bb c.enemy
  let pawns_bb := 1 <<< pinned_pos
  let back_rank := opposite_back_rank c
  let excluded_file := if isLeft then FILES_A else FILES_H
  let file_mask := not_files_tbl excluded_file
  let captures :=
    (if c.is_white then (pawns_bb &&& file_mask) >>> (if isLeft then 9 else 7)
     else shl64 (pawns_bb &&& file_mask) (if isLeft then 7 else 9)) &&& mask
  let promoCaps := captures &&& ranks_tbl back_rank &&& enemy_bb
  if promoCaps ≠ 0 then
    (lsb_idx promoCaps).map (fun i => (add_promotion pinned_pos i, b))
  else
    let epMoves : List Move × Board :=
      match b.en_passant with
      | none => ([], b)
      | some eps =>
        let epEnd := ((eps : Int) + forward_offset c).toNat
        if is_bit_set captures eps then
          let (ok, b2) := validate_en_passant c b king_pos pinned_pos epEnd occ
          if ok then ([new_move pinned_pos epEnd MOVE_TYPE_EN_PASSANT], b2)
          else ([], b2)
        else ([], b)
    let b := epMoves.2
    let nonPromoCaps := captures &&& not_ranks_tbl back_rank &&& enemy_bb
    if nonPromoCaps ≠ 0 then
      (lsb_idx nonPromoCaps).map
        (fun i => (epMoves.1 ++ [new_move pinned_pos i 0], b))
    else some (epMoves.1, b)

/-- `MoveGenerator::add_pinned_moves::<P>` (movegen.rs lines 1144-1223),
literal.  The `board.pieces[pinned_pos].unwrap()` is backed by a
`debug_assert`; the `none` arm (unreachable from `gen_pin_attackers` on
coherent boards) emits nothing. -/
def add_pinned_moves (c : Color) (b : Board)
    (occ legal_captures blockers king_pos pinned_pos attacker_pos : Nat) :
    Option (List Move × Board) :=
  let moves_mask := legal_captures ||| blockers
  let pin_move_mask :=
    (slider_range attacker_pos king_pos &&& not64 (b.get_combined_bb c))
      ||| (1 <<< attacker_pos)
  match b.pieces pinned_pos with
  | none => some ([], b)
  | some piece =>
    if piece.is_pawn then
      if king_pos / 8 ≠ pinned_pos / 8 then
        if king_pos % 8 = pinned_pos % 8 then
          (add_pinned_pawn_pushes c occ pinned_pos
            (pin_move_mask &&& blockers)).map (fun l => (l, b))
        else
          match add_pinned_pawn_captures c true b occ pinned_pos
              (legal_captures &&& pin_move_mask) king_pos with
          | none => none
          | some lb =>
            (add_pinned_pawn_captures c false lb.2 occ pinned_pos
              (legal_captures &&& pin_move_mask) king_pos).map
              (fun rb => (lb.1 ++ rb.1, rb.2))
      else some ([], b)
    else
      match (if piece.is_bishop || piece.is_queen then
          (pop_lsb_loop 64
            (magic_bishop_moves pinned_pos occ &&& moves_mask &&& pin_move_mask)).map
            (List.map (fun endSq => new_move pinned_pos endSq 0))
        else some []) with
      | none => none
      | some bMoves =>
        match (if piece.is_rook || piece.is_queen then
            (pop_lsb_loop 64
              (magic_rook_moves pinned_pos occ &&& moves_mask &&& pin_move_mask)).map
              (List.map (fun endSq => new_move pinned_pos endSq 0))
          else some []) with
        | none => none
        | some rMoves => some (bMoves ++ rMoves, b)

/-- The `while attackers != 0` loop of `MoveGenerator::gen_pin_attackers`
(movegen.rs lines 1252-1273), literal and interleaved: `pop_lsb` on the
attacker set, then `pop_lsb` on the blocking pieces between attacker and
king.  Fuel 64 can never be exhausted (one attacker bit is cleared per
step). -/
def gen_pin_attackers_go (c : Color) (occ king_pos lc blockers : Nat) :
    Nat → Nat → List Move → Board → Nat → Option (List Move × Board × Nat)
  | 0, attackers, ml, b, pinned =>
    if attackers = 0 then some (ml, b, pinned) else none
  | fuel + 1, attackers, ml, b, pinned =>
    if attackers = 0 then some (ml, b, pinned)
    else
      match pop_lsb attackers with
      | none => none
      | some av =>
        let occupied := slider_range av.1 king_pos &&& b.get_combined_bb c
        if occupied = 0 then
          gen_pin_attackers_go c occ king_pos lc blockers fuel av.2 ml b pinned
        else
          match pop_lsb occupied with
          | none => none
          | some pv =>
            if pv.2 = 0 then
              match add_pinned_moves c b occ lc blockers king_pos pv.1 av.1 with
              | none => none
              | some mb =>
                gen_pin_attackers_go c occ king_pos lc blockers fuel av.2
                  (ml ++ mb.1) mb.2 (set_bit pinned pv.1)
            else
              gen_pin_attackers_go c occ king_pos lc blockers fuel av.2 ml b pinned

/-- `MoveGenerator::gen_pin_attackers::<P>` (movegen.rs lines 1224-1275),
literal. -/
def gen_pin_attackers (c : Color) (b : Board)
    (occ king_pos checkers legal_captures blockers : Nat) (is_bishop : Bool) :
    Option (List Move × Board × Nat) :=
  let piece_mask := b.get_bb (Pieces.queen c.enemy)
    ||| b.get_bb (if is_bishop then Pieces.bishop c.enemy else Pieces.rook c.enemy)
  let attackers :=
    (if is_bishop then magic_bishop_moves king_pos (b.get_combined_bb c.enemy)
     else magic_rook_moves king_pos (b.get_combined_bb c.enemy))
      &&& piece_mask &&& not64 checkers
  gen_pin_attackers_go c occ king_pos legal_captures blockers 64 attackers [] b 0

/-- `MoveGenerator::gen_pinned_pieces::<P>` (movegen.rs lines 1276-1305),
literal: bishop-direction pass then rook-direction pass, pinned sets
OR-ed. -/
def gen_pinned_pieces (c : Color) (b : Board)
    (occ king_pos checkers legal_captures blockers : Nat) :
    Option (List Move × Board × Nat) :=
  match gen_pin_attackers c b occ king_pos checkers legal_captures blockers true with
  | none => none
  | some r1 =>
    match gen_pin_attackers c r1.2.1 occ king_pos checkers legal_captures
        blockers false with
    | none => none
    | some r2 => some (r1.1 ++ r2.1, r2.2.1, r1.2.2 ||| r2.2.2)

/-- `MoveGenerator::gen_moves_for_player::<P>` (movegen.rs lines
1307-1380), literal.  The first `lsb_idx` (the king scan of line 1311)
already panics for every king square 1..62; `none` also models the
`panic!("Invalid number of attackers on the king")` arm. -/
def gen_moves_for_player (c : Color) (b : Board) : Option (List Move × Board) :=
  let occupancy := b.get_occupancy
  match lsb_idx (b.get_bb (Pieces.king c)) with
  | none => none
  | some king_pos =>
    match add_king_moves c b occupancy with
    | none => none
    | some kingMoves =>
      let attacking_king := find_enemy_attackers c king_pos b occupancy
      if count_1s attacking_king = 2 then
        some (kingMoves, b)
      else if count_1s attacking_king = 1 then
        match lsb_idx attacking_king with
        | none => none
        | some attacker_pos =>
          let blockers :=
            match b.pieces attacker_pos with
            | some p => if p.is_knight then 0 else slider_range king_pos attacker_pos
            | none => slider_range king_pos attacker_pos
          let move_mask := attacking_king ||| blockers
          match gen_pinned_pieces c b occupancy king_pos
              attacking_king attacking_king blockers with
          | none => none
          | some pinres =>
            match add_pawn_moves c pinres.2.1 occupancy pinres.2.2
                attacking_king blockers king_pos with
            | none => none
            | some pawnres =>
              match add_knight_moves c pawnres.2 pinres.2.2 move_mask with
              | none => none
              | some mlN =>
                match add_bishop_moves c pawnres.2 occupancy pinres.2.2 move_mask with
                | none => none
                | some mlB =>
                  match add_rook_moves c pawnres.2 occupancy pinres.2.2 move_mask with
                  | none => none
                  | some mlR =>
                    match add_queen_moves c pawnres.2 occupancy pinres.2.2 move_mask with
                    | none => none
                    | some mlQ =>
                      some (kingMoves ++ pinres.1 ++ pawnres.1
                        ++ mlN ++ mlB ++ mlR ++ mlQ, pawnres.2)
      else if count_1s attacking_king = 0 then
        match gen_pinned_pieces c b occupancy king_pos 0 U64_MAX U64_MAX with
        | none => none
        | some pinres =>
          let mlCastle := add_castling_moves c pinres.2.1 occupancy
          match add_pawn_moves c pinres.2.1 occupancy pinres.2.2
              U64_MAX U64_MAX king_pos with
          | none => none
          | some pawnres =>
            match add_knight_moves c pawnres.2 pinres.2.2 U64_MAX with
            | none => none
            | some mlN =>
              match add_bishop_moves c pawnres.2 occupancy pinres.2.2 U64_MAX with
              | none => none
              | some mlB =>
                match add_rook_moves c pawnres.2 occupancy pinres.2.2 U64_MAX with
                | none => none
                | some mlR =>
                  match add_queen_moves c pawnres.2 occupancy pinres.2.2 U64_MAX with
                  | none => none
                  | some mlQ =>
                    some (kingMoves ++ pinres.1 ++ mlCastle ++ pawnres.1
                      ++ mlN ++ mlB ++ mlR ++ mlQ, pawnres.2)
      else none

/-- `MoveGenerator::gen_moves` (movegen.rs lines 1382-1388), literal:
dispatch on the side to move.  `none` is a panic inside the generator -
the fate of essentially every call, since the very first king bit-scan
panics for any king square 1..62 (see `claim_C6_theorem`). -/
def gen_moves (b : Board) : Option (List Move × Board) :=
  if b.friendly_color.is_white then gen_moves_for_player Color.White b
  else gen_moves_for_player Color.Black b

/-- `perft` (perft.rs lines 5-24), literal: generate, and at depth <= 1
count the list; otherwise make / recurse / undo over the generated
moves.  `none` is a panic anywhere below, including the generator's
bit-scan panic. -/
def perft : Nat → Board → Option (Nat × Board)
  | 0, b => (gen_moves b).map (fun mlb => (mlb.1.length, mlb.2))
  | 1, b => (gen_moves b).map (fun mlb => (mlb.1.length, mlb.2))
  | depth + 2, b =>
    (gen_moves b).bind (fun mlb =>
      mlb.1.foldlM
        (fun st mv => do
          let (acc, bcur) := st
          let (b1, info) ← make_move bcur mv
          let (n, b2) ← perft (depth + 1) b1
          let b3 ← undo_move b2 mv info
          pure (acc + n, b3))
        ((0 : Nat), mlb.2))

/- ------------------------------------------------------------------ -/
/- Concrete instances used by the theorems                             -/
/- ------------------------------------------------------------------ -/

/-- A concrete stand-in for the random Zobrist table drawn in
`Board::new` (the table is data; nothing below depends on its values
beyond being fixed). -/
def demo_tbl : Nat → Nat → Nat := fun i j => i * 12 + j + 1

/-- The board literal `Board::new` starts from before `load_fen`. -/
def init_board : Board :=
  { current_color := Color.White, fifty_move := 0, full_move_count := 0,
    castling := 15, en_passant := none,
    pieces := fun _ => none, piece_bitboards := fun _ => 0,
    combined_bitboards := fun _ => 0,
    zobrist_table := demo_tbl, zobrist_hash := 0 }

/-- A position accepted by `load_fen` whose en-passant target (b6) has no
capturable black pawn behind it (b5 is empty): white king a1, white pawn
c5, black king a8, white to move. -/
def phantom_board : Board :=
  (load_fen init_board ("k7/8/8/2P5/8/8/8/K7 w - b6 0 1".toList)).1

/-- The en-passant capture c5×b6 emitted by the generator on
`phantom_board`: start 26 (c5), end 25 (b5, the "captured pawn" square),
type en-passant. -/
def phantom_ep_move : Move := new_move 26 25 MOVE_TYPE_EN_PASSANT

/-- The FEN of the en-passant-discovered-check perft position of the spec:
`8/8/8/2k5/3Pp3/8/8/4K3 b - d3 0 1`. -/
def c3_fen : List Char := "8/8/8/2k5/3Pp3/8/8/4K3 b - d3 0 1".toList

/-- The board obtained by loading the starting position (used as the
pre-existing state in the C7 counterexample). -/
def c7_prev : Board := (load_fen init_board STARTING_FEN).1

/- ------------------------------------------------------------------ -/
/- Board coherence predicates (the invariants of spec section 3)       -/
/- ------------------------------------------------------------------ -/

/-- Bitboard/array coherence of a `Board` (spec section 3 and property 2
of section 8): the twelve piece bitboards and the two colour unions are
64-bit words, a piece sits in the array exactly where its bitboard has the
bit, and a colour union has a bit exactly where a piece of that colour
sits. -/
def well_formed (b : Board) : Prop :=
  (∀ p : Pieces, b.get_bb p < 2 ^ 64) ∧
  (∀ c : Color, b.get_combined_bb c < 2 ^ 64) ∧
  (∀ (i : Fin 64) (p : Pieces), b.pieces i.val = some p ↔ (b.get_bb p).testBit i.val) ∧
  (∀ (i : Fin 64) (c : Color), (b.get_combined_bb c).testBit i.val ↔
      ∃ p : Pieces, p.color = c ∧ b.pieces i.val = some p)

/-- Consistency of the en-passant target with the placement (spec
section 3: the target is the square behind a pawn that just double
pushed): the target square is empty and the enemy pawn to be captured
stands on the square in front of it. -/
def ep_consistent (b : Board) : Prop :=
  match b.en_passant with
  | none => True
  | some e =>
    b.pieces e = none ∧
    (b.current_color = Color.White →
      e + 8 < 64 ∧ b.pieces (e + 8) = some Pieces.BlackPawn) ∧
    (b.current_color = Color.Black →
      8 ≤ e ∧ e < 64 ∧ b.pieces (e - 8) = some Pieces.WhitePawn)

/-- The placement facts `make_move` relies on for a move, by move type:
exactly the shape of the moves `gen_moves_intended` emits (a friendly mover on
`start`; the destination empty or enemy; for castling the king and rook on
their squares with the crossed squares free; for en-passant the stored
target with the capturable enemy pawn on `end` and the target square
empty). -/
def move_precond (b : Board) (m : Move) : Prop :=
  let s := get_move_start m
  let e := get_move_end m
  if get_move_type m = MOVE_TYPE_EN_PASSANT then
    match b.en_passant with
    | none => False
    | some eps =>
      eps < 64 ∧
      b.pieces s = some (Pieces.pawn b.current_color) ∧
      b.pieces e = some (Pieces.pawn b.current_color.enemy) ∧
      b.pieces eps = none ∧ s ≠ e ∧ s ≠ eps ∧ e ≠ eps
  else if get_move_type m = MOVE_TYPE_CASTLE then
    let off := s &&& 56
    let rs := if get_move_piece m = MOVE_CASTLE_SIDE_QS then off else off + 7
    let re := if get_move_piece m = MOVE_CASTLE_SIDE_QS then off + 3 else off + 5
    b.pieces s = some (Pieces.king b.current_color) ∧
    b.pieces rs = some (Pieces.rook b.current_color) ∧
    b.pieces e = none ∧ b.pieces re = none ∧
    s ≠ e ∧ s ≠ rs ∧ s ≠ re ∧ e ≠ rs ∧ e ≠ re ∧ rs ≠ re
  else if get_move_type m = MOVE_TYPE_PROMOTION then
    b.pieces s = some (Pieces.pawn b.current_color) ∧ s ≠ e ∧
    (∀ q, b.pieces e = some q → q.color ≠ b.current_color)
  else
    (∃ sp, b.pieces s = some sp ∧ sp.color = b.current_color) ∧ s ≠ e ∧
    (∀ q, b.pieces e = some q → q.color ≠ b.current_color)

/-- A small concrete position used by the witnesses: white Kg1 and pawn
c5, black Ka8 and pawn b5, en-passant target b6, white to move. -/
def wit_board : Board :=
  { current_color := Color.White, fifty_move := 0, full_move_count := 1,
    castling := 0, en_passant := some 17,
    pieces := fun j =>
      if j = 0 then some Pieces.BlackKing
      else if j = 25 then some Pieces.BlackPawn
      else if j = 26 then some Pieces.WhitePawn
      else if j = 62 then some Pieces.WhiteKing
      else none,
    piece_bitboards := fun p =>
      if p = Pieces.BlackKing then 1
      else if p = Pieces.BlackPawn then 2 ^ 25
      else if p = Pieces.WhitePawn then 2 ^ 26
      else if p = Pieces.WhiteKing then 2 ^ 62
      else 0,
    combined_bitboards := fun c =>
      if c = Color.White then 2 ^ 26 + 2 ^ 62 else 1 + 2 ^ 25,
    zobrist_table := demo_tbl, zobrist_hash := 12345 }

attribute [ext] Board

instance well_formed_dec (b : Board) : Decidable (well_formed b) := by
  unfold well_formed
  infer_instance

instance move_precond_dec (b : Board) (m : Move) : Decidable (move_precond b m) := by
  unfold move_precond
  split
  · split <;> infer_instance
  · split <;> infer_instance

instance ep_consistent_dec (b : Board) : Decidable (ep_consistent b) := by
  unfold ep_consistent
  split <;> infer_instance

/- ------------------------------------------------------------------ -/
/- Theorems                                                            -/
/- ------------------------------------------------------------------ -/

/-- Sum form of a fold that adds the evaluator contribution of each
occupied square (helper for `claim_C5_theorem`). -/
theorem foldl_piece_sum (f : Nat → Option Pieces) (l : List Nat) (a : Int) :
    l.foldl
      (fun acc sq =>
        match f sq with
        | some p => acc + (piece_value p + sq_value p sq)
        | none => acc) a
    = a + (l.map (fun sq =>
        match f sq with
        | some p => piece_value p + sq_value p sq
        | none => (0 : Int))).sum := by
  induction l generalizing a with
  | nil => simp
  | cons hd tl ih =>
    cases hf : f hd with
    | none => simp only [List.foldl_cons, List.map_cons, List.sum_cons, hf, ih]; ring
    | some p => simp only [List.foldl_cons, List.map_cons, List.sum_cons, hf, ih]; ring

/-- C6.  `pop_lsb` / `lsb_idx` do **not** return the lowest set bit for
`bb = 2` (or any word whose lowest set bit is at positions 1..62): the
64-bit product `folded * 0x783A9B23` is not reduced mod `2^32`, the table
index becomes 90 ≥ 64 and `LSB_64_TABLE[idx]` panics (modelled `none`),
instead of returning index 1.  With the 32-bit wrapping multiply of the
trick's origin, the same magic and table scan every one of the 64 bit
positions correctly, confirming the intended behaviour the claim
describes. -/
theorem claim_C6_theorem :
    lsb_idx 2 = none ∧ pop_lsb 6 = none ∧
    (∀ k : Fin 64, lsb_idx_u32 (1 <<< k.val) = some k.val) := by
  refine ⟨by decide, by decide, by decide⟩

/-- C9.  The `UndoInfo` filled in by `make_move` consists of exactly the
prior castling mask, prior halfmove clock, prior en-passant target and the
piece previously on the destination square — the four fields the struct
has.  (No evaluator score delta exists in `UndoInfo`, although search.rs
reads `info.evalutor_diff`.) -/
theorem claim_C9_theorem (b : Board) (m : Move) (b' : Board) (i : UndoInfo)
    (h : make_move b m = some (b', i)) :
    i = ⟨b.castling, b.fifty_move, b.en_passant, b.pieces (get_move_end m)⟩ := by
  simp only [make_move] at h
  split at h
  · exact absurd h (by simp)
  · simp only [Option.map_eq_some'] at h
    obtain ⟨a, -, ha⟩ := h
    exact (Prod.mk.injEq _ _ _ _ ▸ ha).2.symm ▸ rfl

/-- Witness for C9: the quiet pawn push a2a3 from the starting position. -/
theorem claim_C9_witness :
    (make_move c7_prev (new_move 48 40 0)).map Prod.snd =
      some ⟨c7_prev.castling, c7_prev.fifty_move, c7_prev.en_passant,
            c7_prev.pieces (get_move_end (new_move 48 40 0))⟩ := by
  have hs : (make_move c7_prev (new_move 48 40 0)).isSome = true := by decide
  cases hm : make_move c7_prev (new_move 48 40 0) with
  | none => rw [hm] at hs; simp at hs
  | some bi =>
    simp only [Option.map_some']
    exact congrArg some (claim_C9_theorem c7_prev _ bi.1 bi.2 (by rw [hm]))

/-- C8.  `iterative_deepening` does **not** pass the depths 1, 2, …,
`max_depth` to `find_best_move`: every iteration passes `max_depth`
(search.rs line 164); with `max_depth = 3` and a clock that never reaches
the deadline the three calls receive depth 3, 3, 3 — not 1, 2, 3 as the
claim (and the engine's own `info … depth {}` log line) states.  The
deadline really is checked after each completed depth. -/
theorem claim_C8_theorem :
    iterative_deepening_depths 3 (fun _ => 0) 1000 = [3, 3, 3] ∧
    iterative_deepening_depths 3 (fun _ => 0) 1000 ≠ [1, 2, 3] := by
  constructor <;> decide

/-- Counterexample to C5 as stated: the claim says a Black piece on `sq`
contributes `−table[sq XOR 56]`; for the black pawn on a7 (`sq = 8`) the
evaluator actually contributes `sq_value = −table[8] = −50`, while the
claimed value is `−table[8 XOR 56] = −table[48] = −5`. -/
theorem claim_C5_counterexample :
    sq_value Pieces.BlackPawn 8 = -50 ∧
    sq_value Pieces.BlackPawn 8 ≠ -(PAWN_SQ_VALUE.getD (8 ^^^ 56) 0) := by
  constructor <;> decide

/-- C5 (amended).  The piece-square contribution is `+table[sq]` for a
White piece and `−table[sq]` — the **same, unmirrored index** — for a
Black piece, for each of the six tables; and `init_score` is the sum of
`piece_value + sq_value` over the occupied squares. -/
theorem claim_C5_theorem :
    (∀ sq : Fin 64,
      (sq_value Pieces.WhitePawn sq = PAWN_SQ_VALUE.getD sq 0 ∧
       sq_value Pieces.BlackPawn sq = -(PAWN_SQ_VALUE.getD sq 0)) ∧
      (sq_value Pieces.WhiteKnight sq = KNIGHT_SQ_VALUE.getD sq 0 ∧
       sq_value Pieces.BlackKnight sq = -(KNIGHT_SQ_VALUE.getD sq 0)) ∧
      (sq_value Pieces.WhiteBishop sq = BISHOP_SQ_VALUE.getD sq 0 ∧
       sq_value Pieces.BlackBishop sq = -(BISHOP_SQ_VALUE.getD sq 0)) ∧
      (sq_value Pieces.WhiteRook sq = ROOK_SQ_VALUE.getD sq 0 ∧
       sq_value Pieces.BlackRook sq = -(ROOK_SQ_VALUE.getD sq 0)) ∧
      (sq_value Pieces.WhiteQueen sq = QUEEN_SQ_VALUE.getD sq 0 ∧
       sq_value Pieces.BlackQueen sq = -(QUEEN_SQ_VALUE.getD sq 0)) ∧
      (sq_value Pieces.WhiteKing sq = KING_SQ_VALUE.getD sq 0 ∧
       sq_value Pieces.BlackKing sq = -(KING_SQ_VALUE.getD sq 0))) ∧
    (∀ b : Board, init_score b =
      ((List.range 64).map (fun sq =>
        match b.pieces sq with
        | some p => piece_value p + sq_value p sq
        | none => (0 : Int))).sum) := by
  constructor
  · decide
  · intro b
    simpa using foldl_piece_sum b.pieces (List.range 64) 0

/-- Counterexample to C4 as stated: the starting position's canonical FEN
(castling field `KQkq`) does not round-trip — `to_fen` writes the castling
rights in the order `QqKk`. -/
theorem claim_C4_counterexample :
    (match board_new demo_tbl STARTING_FEN with
      | .ok b => to_fen b
      | .error _ => []) =
      "rnbqkbnr/pppppppp/8/8/8/8/PPPPPPPP/RNBQKBNR w QqKk - 0 1".toList ∧
    (match board_new demo_tbl STARTING_FEN with
      | .ok b => to_fen b
      | .error _ => []) ≠ STARTING_FEN := by
  constructor <;> decide

/-- C3.  On `8/8/8/2k5/3Pp3/8/8/4K3 b - d3 0 1` the program panics:
`perft` at depth 1 hits the out-of-bounds table lookup of the very first
bit-scan (`lsb_idx` on the black king's bitboard, bit 26 — see
`claim_C6_theorem`) and never returns a count (first conjunct).  The
claim matches the movegen logic's intent: with the bit-scan at its
intended value the generator emits exactly 9 moves (the en-passant
capture e4xd3 resolving the d4-pawn's discovered check plus the eight
king moves) and perft at depth 1 returns 9. -/
theorem claim_C3_theorem :
    ((board_new demo_tbl c3_fen).toOption.bind (fun b => perft 1 b)) = none ∧
    ((board_new demo_tbl c3_fen).toOption.bind (fun b => gen_moves_intended b)).map
        (fun x => x.1.length) = some 9 ∧
    ((board_new demo_tbl c3_fen).toOption.bind (fun b => perft_intended 1 b)).map
        Prod.fst = some 9 := by
  refine ⟨by rfl, by decide, by decide⟩

theorem testBit_one_nat (k : Nat) : Nat.testBit 1 k = decide (0 = k) := by
  simpa using (Nat.testBit_two_pow (n := 0) (m := k))

theorem le_and_sub_zero (i j : Nat) :
    (decide (i ≤ j) && decide (0 = j - i)) = decide (j = i) := by
  by_cases h : j = i
  · simp [h]
  · by_cases h1 : i ≤ j <;> simp [h, h1] <;> omega

theorem testBit_set_bit (bb i j : Nat) :
    (set_bit bb i).testBit j = (bb.testBit j || decide (j = i)) := by
  simp [set_bit, testBit_one_nat, le_and_sub_zero]

theorem testBit_umax (j : Nat) : U64_MAX.testBit j = decide (j < 64) := by
  rw [show U64_MAX = 2 ^ 64 - 1 from rfl, Nat.testBit_two_pow_sub_one]

theorem testBit_clear_bit (bb i j : Nat) :
    (clear_bit bb i).testBit j
      = (bb.testBit j && ((decide (j < 64)).xor (decide (j = i)))) := by
  simp [clear_bit, testBit_umax, testBit_one_nat, le_and_sub_zero]

theorem testBit_hi {bb : Nat} (h : bb < 2 ^ 64) {j : Nat} (hj : 64 ≤ j) :
    bb.testBit j = false := by
  apply Nat.testBit_lt_two_pow
  calc bb < 2 ^ 64 := h
    _ ≤ 2 ^ j := Nat.pow_le_pow_right (by omega) hj

theorem set_bit_lt {bb : Nat} (h : bb < 2 ^ 64) {i : Nat} (hi : i < 64) :
    set_bit bb i < 2 ^ 64 := by
  apply Nat.or_lt_two_pow h
  rw [Nat.one_shiftLeft]
  exact Nat.pow_lt_pow_right (by omega) hi

theorem clear_bit_lt {bb : Nat} (h : bb < 2 ^ 64) (i : Nat) :
    clear_bit bb i < 2 ^ 64 :=
  Nat.lt_of_le_of_lt Nat.and_le_left h

theorem clear_set_restore {bb : Nat} (h : bb < 2 ^ 64) {s e : Nat}
    (hs64 : s < 64) (he64 : e < 64) (hse : s ≠ e)
    (hs : bb.testBit s = true) (he : bb.testBit e = false) :
    clear_bit (set_bit (set_bit (clear_bit bb s) e) s) e = bb := by
  apply Nat.eq_of_testBit_eq
  intro j
  by_cases hj : j < 64
  · simp only [testBit_clear_bit, testBit_set_bit]
    by_cases hjs : j = s <;> by_cases hje : j = e <;> simp_all
  · have hj1 : bb.testBit j = false := testBit_hi h (by omega)
    simp only [testBit_clear_bit, testBit_set_bit, hj1]
    have : (decide (j < 64)) = false := by simpa using hj
    simp [this]
    omega

theorem clear_then_set_restore {bb : Nat} (h : bb < 2 ^ 64) {e : Nat}
    (he64 : e < 64) (he : bb.testBit e = true) :
    set_bit (clear_bit bb e) e = bb := by
  apply Nat.eq_of_testBit_eq
  intro j
  by_cases hj : j < 64
  · simp only [testBit_clear_bit, testBit_set_bit]
    by_cases hje : j = e <;> simp_all
  · have hj1 : bb.testBit j = false := testBit_hi h (by omega)
    simp only [testBit_clear_bit, testBit_set_bit, hj1]
    simp
    omega

theorem set_then_clear_restore {bb : Nat} (h : bb < 2 ^ 64) {e : Nat}
    (he64 : e < 64) (he : bb.testBit e = false) :
    clear_bit (set_bit bb e) e = bb := by
  apply Nat.eq_of_testBit_eq
  intro j
  by_cases hj : j < 64
  · simp only [testBit_clear_bit, testBit_set_bit]
    by_cases hje : j = e <;> simp_all
  · have hj1 : bb.testBit j = false := testBit_hi h (by omega)
    simp only [testBit_clear_bit, testBit_set_bit, hj1]
    have : (decide (j < 64)) = false := by simpa using hj
    simp [this]
    omega

theorem castle_comb_restore {bb : Nat} (h : bb < 2 ^ 64) {s e rs re : Nat}
    (hs64 : s < 64) (he64 : e < 64) (hrs64 : rs < 64) (hre64 : re < 64)
    (h1 : s ≠ e) (h2 : s ≠ rs) (h3 : s ≠ re) (h4 : e ≠ rs) (h5 : e ≠ re)
    (h6 : rs ≠ re)
    (hbs : bb.testBit s = true) (hbe : bb.testBit e = false)
    (hbrs : bb.testBit rs = true) (hbre : bb.testBit re = false) :
    clear_bit (set_bit (clear_bit (set_bit
      (set_bit (clear_bit (set_bit (clear_bit bb s) e) rs) re) s) e) rs) re = bb := by
  apply Nat.eq_of_testBit_eq
  intro j
  by_cases hj : j < 64
  · simp only [testBit_clear_bit, testBit_set_bit]
    by_cases hjs : j = s <;> by_cases hje : j = e <;>
      by_cases hjrs : j = rs <;> by_cases hjre : j = re <;> simp_all
  · have hj1 : bb.testBit j = false := testBit_hi h (by omega)
    simp only [testBit_clear_bit, testBit_set_bit, hj1]
    have : (decide (j < 64)) = false := by simpa using hj
    simp [this]
    omega


-- C1 development
theorem get_move_start_lt (m : Move) : get_move_start m < 64 := by
  have h1 : m &&& 0x3F0 ≤ 0x3F0 := Nat.and_le_right
  have h2 := Nat.div_le_div_right (c := 2 ^ 4) h1
  simp only [get_move_start, Nat.shiftRight_eq_div_pow]
  omega

theorem get_move_end_lt (m : Move) : get_move_end m < 64 := by
  have h1 : m &&& 0xFC00 ≤ 0xFC00 := Nat.and_le_right
  have h2 := Nat.div_le_div_right (c := 2 ^ 10) h1
  simp only [get_move_end, Nat.shiftRight_eq_div_pow]
  omega

theorem Color.enemy_enemy (c : Color) : c.enemy.enemy = c := by cases c <;> rfl

theorem xor_left_comm (a b c : Nat) : a ^^^ (b ^^^ c) = b ^^^ (a ^^^ c) := by
  rw [← Nat.xor_assoc, Nat.xor_comm a b, Nat.xor_assoc]

theorem Color.enemy_ne (c : Color) : c.enemy ≠ c := by cases c <;> simp [Color.enemy]

theorem Color.eq_enemy_of_ne {c d : Color} (h : c ≠ d) : c = d.enemy := by
  cases c <;> cases d <;> simp_all [Color.enemy]

theorem roundtrip_default (b : Board) (m : Move)
    (hwf : well_formed b)
    (ht1 : ¬ get_move_type m = MOVE_TYPE_EN_PASSANT)
    (ht2 : ¬ get_move_type m = MOVE_TYPE_CASTLE)
    (ht3 : ¬ get_move_type m = MOVE_TYPE_PROMOTION)
    (sp : Pieces) (hs : b.pieces (get_move_start m) = some sp)
    (hcol : sp.color = b.current_color)
    (hse : get_move_start m ≠ get_move_end m)
    (hend : ∀ q, b.pieces (get_move_end m) = some q → q.color ≠ b.current_color) :
    (make_move b m).bind (fun bi => undo_move bi.1 m bi.2) = some b := by
  obtain ⟨hbb_lt, hcomb_lt, hpieces, hcomb⟩ := hwf
  have hs64 := get_move_start_lt m
  have he64 := get_move_end_lt m
  have hse' : get_move_end m ≠ get_move_start m := Ne.symm hse
  have hbs : (b.get_bb sp).testBit (get_move_start m) = true :=
    (hpieces ⟨_, hs64⟩ sp).mp hs
  have hcs : (b.get_combined_bb b.current_color).testBit (get_move_start m) = true :=
    (hcomb ⟨_, hs64⟩ b.current_color).mpr ⟨sp, hcol, hs⟩
  have hbe_sp : (b.get_bb sp).testBit (get_move_end m) = false := by
    cases hq : b.pieces (get_move_end m) with
    | none =>
      by_contra hcon
      have := (hpieces ⟨_, he64⟩ sp).mpr (by simpa using hcon)
      rw [hq] at this
      exact Option.noConfusion this
    | some q =>
      by_contra hcon
      have := (hpieces ⟨_, he64⟩ sp).mpr (by simpa using hcon)
      rw [hq] at this
      exact hend sp (by rw [hq, this]) hcol
  have hce : (b.get_combined_bb b.current_color).testBit (get_move_end m) = false := by
    by_contra hcon
    obtain ⟨q, hqc, hqe⟩ := (hcomb ⟨_, he64⟩ b.current_color).mp (by simpa using hcon)
    exact hend q hqe hqc
  cases hq : b.pieces (get_move_end m) with
  | none =>
    simp only [make_move, hs, hq, if_neg ht1, if_neg ht2, if_neg ht3,
      make_move_default, Board.xor_hash, Board.with_bb, Board.with_comb,
      Board.with_piece, Board.with_ep, Board.with_castling, Board.get_bb,
      Board.get_combined_bb, Board.friendly_color, Board.enemy_color,
      Option.map_some', Option.some_bind]
    simp only [undo_move, undo_move_default, Board.xor_hash, Board.with_bb,
      Board.with_comb, Board.with_piece, Board.with_ep, Board.with_castling,
      Board.get_bb, Board.get_combined_bb, Board.friendly_color, Board.enemy_color,
      upd_pieces, upd_bb, upd_comb, hse', if_neg ht1, if_neg ht2, if_neg ht3,
      Color.enemy_enemy, ite_true, ite_false, if_true, if_false,
      Option.some.injEq]
    refine Board.ext rfl rfl rfl rfl rfl ?_ ?_ ?_ rfl ?_
    · funext j
      simp only [upd_pieces]
      by_cases hj1 : j = get_move_end m <;> by_cases hj2 : j = get_move_start m <;>
        simp_all
    · funext q
      simp only [upd_bb]
      by_cases hq1 : q = sp
      · subst hq1
        simp only [if_pos rfl]
        exact clear_set_restore (hbb_lt _) hs64 he64 hse hbs hbe_sp
      · simp [hq1]
    · funext d
      simp only [upd_comb]
      by_cases hd : d = b.current_color
      · subst hd
        simp only [if_pos rfl]
        exact clear_set_restore (hcomb_lt _) hs64 he64 hse hcs hce
      · simp [hd]
    · simp [Nat.xor_assoc, Nat.xor_comm, xor_left_comm, Nat.xor_self,
        Nat.xor_cancel_left, Nat.xor_zero, Nat.zero_xor]
  | some cap =>
    have hcapcol : cap.color ≠ b.current_color := hend cap hq
    have hcapne : cap ≠ sp := fun h => hcapcol (h ▸ hcol)
    have hcapen : cap.color = b.current_color.enemy := Color.eq_enemy_of_ne hcapcol
    have hbq : (b.get_bb cap).testBit (get_move_end m) = true :=
      (hpieces ⟨_, he64⟩ cap).mp hq
    have hbe_cap_s : (b.get_bb cap).testBit (get_move_start m) = false := by
      by_contra hcon
      have := (hpieces ⟨_, hs64⟩ cap).mpr (by simpa using hcon)
      rw [hs] at this
      exact hcapne (by injection this with h; exact h.symm) 
    have hcombe : (b.get_combined_bb b.current_color.enemy).testBit (get_move_end m) = true :=
      (hcomb ⟨_, he64⟩ b.current_color.enemy).mpr ⟨cap, hcapen, hq⟩
    simp only [make_move, hs, hq, if_neg ht1, if_neg ht2, if_neg ht3,
      make_move_default, Board.xor_hash, Board.with_bb, Board.with_comb,
      Board.with_piece, Board.with_ep, Board.with_castling, Board.get_bb,
      Board.get_combined_bb, Board.friendly_color, Board.enemy_color,
      Option.map_some', Option.some_bind]
    simp only [undo_move, undo_move_default, Board.xor_hash, Board.with_bb,
      Board.with_comb, Board.with_piece, Board.with_ep, Board.with_castling,
      Board.get_bb, Board.get_combined_bb, Board.friendly_color, Board.enemy_color,
      upd_pieces, upd_bb, upd_comb, hse', if_neg ht1, if_neg ht2, if_neg ht3,
      if_neg hcapne, Color.enemy_enemy, if_neg (Color.enemy_ne b.current_color),
      ite_true, ite_false, if_true, if_false, Option.some.injEq]
    have hene : b.current_color ≠ b.current_color.enemy :=
      fun h => Color.enemy_ne b.current_color h.symm
    have hspcap : sp ≠ cap := fun h => hcapne h.symm
    refine Board.ext rfl rfl rfl rfl rfl ?_ ?_ ?_ rfl ?_
    · funext j
      simp only [upd_pieces]
      by_cases hj1 : j = get_move_end m <;> by_cases hj2 : j = get_move_start m <;>
        simp_all
    · funext q
      simp only [upd_bb]
      by_cases hq1 : q = sp
      · subst hq1
        rw [if_neg hspcap, if_pos rfl, if_neg hspcap]
        exact clear_set_restore (hbb_lt _) hs64 he64 hse hbs hbe_sp
      · by_cases hq2 : q = cap
        · subst hq2
          rw [if_pos rfl]
          exact clear_then_set_restore (hbb_lt _) he64 hbq
        · simp [hq1, hq2]
    · funext d
      simp only [upd_comb]
      by_cases hd : d = b.current_color
      · subst hd
        rw [if_neg hene, if_pos rfl, if_neg hene]
        exact clear_set_restore (hcomb_lt _) hs64 he64 hse hcs hce
      · by_cases hd2 : d = b.current_color.enemy
        · subst hd2
          rw [if_pos rfl]
          exact clear_then_set_restore (hcomb_lt _) he64 hcombe
        · simp [hd, hd2]
    · simp [Nat.xor_assoc, Nat.xor_comm, xor_left_comm, Nat.xor_self,
        Nat.xor_cancel_left, Nat.xor_zero, Nat.zero_xor]

theorem pawn_ne_pawn_enemy (c : Color) :
    Pieces.pawn c ≠ Pieces.pawn c.enemy := by
  cases c <;> simp [Pieces.pawn, Color.enemy]

theorem pawn_color (c : Color) : (Pieces.pawn c).color = c := by
  cases c <;> rfl

theorem roundtrip_ep (b : Board) (m : Move)
    (hwf : well_formed b)
    (ht : get_move_type m = MOVE_TYPE_EN_PASSANT)
    (eps : Nat) (heq : b.en_passant = some eps)
    (heps64 : eps < 64)
    (hs : b.pieces (get_move_start m) = some (Pieces.pawn b.current_color))
    (he : b.pieces (get_move_end m) = some (Pieces.pawn b.current_color.enemy))
    (hepsq : b.pieces eps = none)
    (hse : get_move_start m ≠ get_move_end m)
    (hseps : get_move_start m ≠ eps)
    (heeps : get_move_end m ≠ eps) :
    (make_move b m).bind (fun bi => undo_move bi.1 m bi.2) = some b := by
  obtain ⟨hbb_lt, hcomb_lt, hpieces, hcomb⟩ := hwf
  have hs64 := get_move_start_lt m
  have he64 := get_move_end_lt m
  have hfpep : Pieces.pawn b.current_color ≠ Pieces.pawn b.current_color.enemy :=
    pawn_ne_pawn_enemy b.current_color
  have hepfp : Pieces.pawn b.current_color.enemy ≠ Pieces.pawn b.current_color :=
    fun h => hfpep h.symm
  have hene : b.current_color ≠ b.current_color.enemy :=
    fun h => Color.enemy_ne b.current_color h.symm
  have hbit_none : ∀ (i : Nat), i < 64 → b.pieces i = none →
      ∀ p : Pieces, (b.get_bb p).testBit i = false := by
    intro i hi hnone p
    by_contra hcon
    have := (hpieces ⟨i, hi⟩ p).mpr (by simpa using hcon)
    rw [hnone] at this
    exact Option.noConfusion this
  have hcomb_none : ∀ (i : Nat), i < 64 → b.pieces i = none →
      ∀ c : Color, (b.get_combined_bb c).testBit i = false := by
    intro i hi hnone c
    by_contra hcon
    obtain ⟨p, _, hp⟩ := (hcomb ⟨i, hi⟩ c).mp (by simpa using hcon)
    rw [hnone] at hp
    exact Option.noConfusion hp
  have hbfs : (b.get_bb (Pieces.pawn b.current_color)).testBit (get_move_start m) = true :=
    (hpieces ⟨_, hs64⟩ _).mp hs
  have hbf_eps : (b.get_bb (Pieces.pawn b.current_color)).testBit eps = false :=
    hbit_none eps heps64 hepsq _
  have hbee : (b.get_bb (Pieces.pawn b.current_color.enemy)).testBit (get_move_end m) = true :=
    (hpieces ⟨_, he64⟩ _).mp he
  have hcfs : (b.get_combined_bb b.current_color).testBit (get_move_start m) = true :=
    (hcomb ⟨_, hs64⟩ _).mpr ⟨_, pawn_color _, hs⟩
  have hcf_eps : (b.get_combined_bb b.current_color).testBit eps = false :=
    hcomb_none eps heps64 hepsq _
  have hcee : (b.get_combined_bb b.current_color.enemy).testBit (get_move_end m) = true :=
    (hcomb ⟨_, he64⟩ _).mpr ⟨_, pawn_color _, he⟩
  simp only [make_move, hs, heq, if_pos ht, make_move_ep, Board.xor_hash,
    Board.with_bb, Board.with_comb, Board.with_piece, Board.with_ep,
    Board.with_castling, Board.get_bb, Board.get_combined_bb,
    Board.friendly_color, Board.enemy_color, upd_pieces, upd_bb, upd_comb,
    hfpep, hepfp, hene, Color.enemy_ne b.current_color, eq_self_iff_true,
    if_true, if_false, ite_true, ite_false, Option.map_some', Option.some_bind]
  simp only [undo_move, if_pos ht, undo_move_ep, heq, Board.xor_hash,
    Board.with_bb, Board.with_comb, Board.with_piece, Board.with_ep,
    Board.with_castling, Board.get_bb, Board.get_combined_bb,
    Board.friendly_color, Board.enemy_color, Color.enemy_enemy,
    upd_pieces, upd_bb, upd_comb, hfpep, hepfp, hene,
    Color.enemy_ne b.current_color, eq_self_iff_true,
    if_true, if_false, ite_true, ite_false, Option.some.injEq]
  refine Board.ext rfl rfl rfl rfl heq.symm ?_ ?_ ?_ rfl ?_
  · funext j
    simp only [upd_pieces]
    by_cases hj1 : j = get_move_end m <;> by_cases hj2 : j = get_move_start m <;>
      by_cases hj3 : j = eps <;> simp_all
  · funext q
    simp only [upd_bb]
    by_cases hq1 : q = Pieces.pawn b.current_color.enemy
    · subst hq1
      rw [if_pos rfl]
      exact clear_then_set_restore (hbb_lt _) he64 hbee
    · by_cases hq2 : q = Pieces.pawn b.current_color
      · subst hq2
        rw [if_neg hfpep, if_pos rfl]
        exact clear_set_restore (hbb_lt _) hs64 heps64 hseps hbfs hbf_eps
      · simp [hq1, hq2]
  · funext d
    simp only [upd_comb]
    by_cases hd1 : d = b.current_color.enemy
    · subst hd1
      rw [if_pos rfl]
      exact clear_then_set_restore (hcomb_lt _) he64 hcee
    · by_cases hd2 : d = b.current_color
      · subst hd2
        rw [if_neg hene, if_pos rfl]
        exact clear_set_restore (hcomb_lt _) hs64 heps64 hseps hcfs hcf_eps
      · simp [hd1, hd2]
  · simp [Nat.xor_assoc, Nat.xor_comm, xor_left_comm, Nat.xor_self,
      Nat.xor_cancel_left, Nat.xor_zero, Nat.zero_xor]

theorem decode_promotion_color (p : Nat) (c : Color) :
    (decode_promotion p c).color = c := by
  unfold decode_promotion
  split_ifs <;> cases c <;> rfl

theorem decode_promotion_ne_pawn (p : Nat) (c c2 : Color) :
    decode_promotion p c ≠ Pieces.pawn c2 := by
  unfold decode_promotion
  split_ifs <;> cases c <;> cases c2 <;> simp [Pieces.knight, Pieces.bishop,
    Pieces.rook, Pieces.queen, Pieces.pawn]

theorem pieces_ne_of_color {p q : Pieces} (h : p.color ≠ q.color) : p ≠ q :=
  fun hpq => h (hpq ▸ rfl)

theorem roundtrip_promotion (b : Board) (m : Move)
    (hwf : well_formed b)
    (ht : get_move_type m = MOVE_TYPE_PROMOTION)
    (hs : b.pieces (get_move_start m) = some (Pieces.pawn b.current_color))
    (hse : get_move_start m ≠ get_move_end m)
    (hend : ∀ q, b.pieces (get_move_end m) = some q → q.color ≠ b.current_color) :
    (make_move b m).bind (fun bi => undo_move bi.1 m bi.2) = some b := by
  obtain ⟨hbb_lt, hcomb_lt, hpieces, hcomb⟩ := hwf
  have ht1 : ¬ get_move_type m = MOVE_TYPE_EN_PASSANT := by rw [ht]; decide
  have ht2 : ¬ get_move_type m = MOVE_TYPE_CASTLE := by rw [ht]; decide
  have hs64 := get_move_start_lt m
  have he64 := get_move_end_lt m
  have hse' : get_move_end m ≠ get_move_start m := Ne.symm hse
  have hene : b.current_color ≠ b.current_color.enemy :=
    fun h => Color.enemy_ne b.current_color h.symm
  have hpc : (decode_promotion (get_move_piece m) b.current_color).color =
      b.current_color := decode_promotion_color _ _
  have hppf : decode_promotion (get_move_piece m) b.current_color ≠
      Pieces.pawn b.current_color := decode_promotion_ne_pawn _ _ _
  have hpfp : Pieces.pawn b.current_color ≠
      decode_promotion (get_move_piece m) b.current_color := fun h => hppf h.symm
  have hbfs : (b.get_bb (Pieces.pawn b.current_color)).testBit (get_move_start m) = true :=
    (hpieces ⟨_, hs64⟩ _).mp hs
  have hcfs : (b.get_combined_bb b.current_color).testBit (get_move_start m) = true :=
    (hcomb ⟨_, hs64⟩ _).mpr ⟨_, pawn_color _, hs⟩
  have hbpe : (b.get_bb (decode_promotion (get_move_piece m) b.current_color)).testBit
      (get_move_end m) = false := by
    by_contra hcon
    have := (hpieces ⟨_, he64⟩ _).mpr (by simpa using hcon)
    exact hend _ this hpc
  have hcfe : (b.get_combined_bb b.current_color).testBit (get_move_end m) = false := by
    by_contra hcon
    obtain ⟨p, hp1, hp2⟩ := (hcomb ⟨_, he64⟩ _).mp (by simpa using hcon)
    exact hend p hp2 hp1
  cases hq : b.pieces (get_move_end m) with
  | none =>
    simp only [make_move, hs, hq, if_neg ht1, if_neg ht2, if_pos ht,
      make_move_promotion, Board.xor_hash, Board.with_bb, Board.with_comb,
      Board.with_piece, Board.with_ep, Board.with_castling, Board.get_bb,
      Board.get_combined_bb, Board.friendly_color, Board.enemy_color,
      upd_pieces, upd_bb, upd_comb, hppf, hpfp, hene,
      Color.enemy_ne b.current_color, hse', eq_self_iff_true,
      if_true, if_false, ite_true, ite_false, Option.map_some', Option.some_bind]
    simp only [undo_move, if_neg ht1, if_neg ht2, if_pos ht,
      undo_move_promotion, Board.xor_hash, Board.with_bb, Board.with_comb,
      Board.with_piece, Board.with_ep, Board.with_castling, Board.get_bb,
      Board.get_combined_bb, Board.friendly_color, Board.enemy_color,
      Color.enemy_enemy, upd_pieces, upd_bb, upd_comb, hppf, hpfp, hene,
      Color.enemy_ne b.current_color, hse', eq_self_iff_true,
      if_true, if_false, ite_true, ite_false, Option.some.injEq]
    refine Board.ext rfl rfl rfl rfl rfl ?_ ?_ ?_ rfl ?_
    · funext j
      simp only [upd_pieces]
      by_cases hj1 : j = get_move_end m <;> by_cases hj2 : j = get_move_start m <;>
        simp_all
    · funext q
      simp only [upd_bb]
      by_cases hq1 : q = decode_promotion (get_move_piece m) b.current_color
      · subst hq1
        simp only [if_pos rfl, if_neg hppf]
        exact set_then_clear_restore (hbb_lt _) he64 hbpe
      · by_cases hq2 : q = Pieces.pawn b.current_color
        · subst hq2
          simp only [if_pos rfl, if_neg hpfp]
          exact clear_then_set_restore (hbb_lt _) hs64 hbfs
        · simp [hq1, hq2]
    · funext d
      simp only [upd_comb]
      by_cases hd : d = b.current_color
      · subst hd
        simp only [if_pos rfl]
        exact clear_set_restore (hcomb_lt _) hs64 he64 hse hcfs hcfe
      · simp [hd]
    · simp [Nat.xor_assoc, Nat.xor_comm, xor_left_comm, Nat.xor_self,
        Nat.xor_cancel_left, Nat.xor_zero, Nat.zero_xor]
  | some cap =>
    have hcapcol : cap.color ≠ b.current_color := hend cap hq
    have hcapen : cap.color = b.current_color.enemy := Color.eq_enemy_of_ne hcapcol
    have hcapfp : cap ≠ Pieces.pawn b.current_color :=
      pieces_ne_of_color (by rw [pawn_color]; exact hcapcol)
    have hfpcap : Pieces.pawn b.current_color ≠ cap := fun h => hcapfp h.symm
    have hcappr : cap ≠ decode_promotion (get_move_piece m) b.current_color :=
      pieces_ne_of_color (by rw [hpc]; exact hcapcol)
    have hprcap : decode_promotion (get_move_piece m) b.current_color ≠ cap :=
      fun h => hcappr h.symm
    have hbq : (b.get_bb cap).testBit (get_move_end m) = true :=
      (hpieces ⟨_, he64⟩ cap).mp hq
    have hcombe : (b.get_combined_bb b.current_color.enemy).testBit (get_move_end m) = true :=
      (hcomb ⟨_, he64⟩ _).mpr ⟨cap, hcapen, hq⟩
    simp only [make_move, hs, hq, if_neg ht1, if_neg ht2, if_pos ht,
      make_move_promotion, Board.xor_hash, Board.with_bb, Board.with_comb,
      Board.with_piece, Board.with_ep, Board.with_castling, Board.get_bb,
      Board.get_combined_bb, Board.friendly_color, Board.enemy_color,
      upd_pieces, upd_bb, upd_comb, hppf, hpfp, hene, hcapfp, hfpcap,
      hcappr, hprcap, Color.enemy_ne b.current_color, hse', eq_self_iff_true,
      if_true, if_false, ite_true, ite_false, Option.map_some', Option.some_bind]
    simp only [undo_move, if_neg ht1, if_neg ht2, if_pos ht,
      undo_move_promotion, Board.xor_hash, Board.with_bb, Board.with_comb,
      Board.with_piece, Board.with_ep, Board.with_castling, Board.get_bb,
      Board.get_combined_bb, Board.friendly_color, Board.enemy_color,
      Color.enemy_enemy, upd_pieces, upd_bb, upd_comb, hppf, hpfp, hene,
      hcapfp, hfpcap, hcappr, hprcap, Color.enemy_ne b.current_color, hse',
      eq_self_iff_true, if_true, if_false, ite_true, ite_false,
      Option.some.injEq]
    refine Board.ext rfl rfl rfl rfl rfl ?_ ?_ ?_ rfl ?_
    · funext j
      simp only [upd_pieces]
      by_cases hj1 : j = get_move_end m <;> by_cases hj2 : j = get_move_start m <;>
        simp_all
    · funext q
      simp only [upd_bb]
      by_cases hq1 : q = cap
      · subst hq1
        simp only [if_pos rfl, if_neg hcapfp, if_neg hcappr]
        exact clear_then_set_restore (hbb_lt _) he64 hbq
      · by_cases hq2 : q = decode_promotion (get_move_piece m) b.current_color
        · subst hq2
          simp only [if_pos rfl, if_neg hppf, if_neg hprcap]
          exact set_then_clear_restore (hbb_lt _) he64 hbpe
        · by_cases hq3 : q = Pieces.pawn b.current_color
          · subst hq3
            simp only [if_pos rfl, if_neg hpfp, if_neg hfpcap]
            exact clear_then_set_restore (hbb_lt _) hs64 hbfs
          · simp [hq1, hq2, hq3]
    · funext d
      simp only [upd_comb]
      by_cases hd : d = b.current_color
      · subst hd
        simp only [if_pos rfl, if_neg hene]
        exact clear_set_restore (hcomb_lt _) hs64 he64 hse hcfs hcfe
      · by_cases hd2 : d = b.current_color.enemy
        · subst hd2
          simp only [if_pos rfl, if_neg (Color.enemy_ne b.current_color)]
          exact clear_then_set_restore (hcomb_lt _) he64 hcombe
        · simp [hd, hd2]
    · simp [Nat.xor_assoc, Nat.xor_comm, xor_left_comm, Nat.xor_self,
        Nat.xor_cancel_left, Nat.xor_zero, Nat.zero_xor]

theorem king_ne_rook (c c2 : Color) : Pieces.king c ≠ Pieces.rook c2 := by
  cases c <;> cases c2 <;> simp [Pieces.king, Pieces.rook]

theorem rook_ne_king (c c2 : Color) : Pieces.rook c ≠ Pieces.king c2 :=
  fun h => king_ne_rook c2 c h.symm

theorem king_color (c : Color) : (Pieces.king c).color = c := by
  cases c <;> rfl

theorem rook_color (c : Color) : (Pieces.rook c).color = c := by
  cases c <;> rfl

theorem roundtrip_castle (b : Board) (m : Move)
    (hwf : well_formed b)
    (ht : get_move_type m = MOVE_TYPE_CASTLE)
    (rs re : Nat)
    (hrs_def : rs = if get_move_piece m = MOVE_CASTLE_SIDE_QS then
      get_move_start m &&& 56 else (get_move_start m &&& 56) + 7)
    (hre_def : re = if get_move_piece m = MOVE_CASTLE_SIDE_QS then
      (get_move_start m &&& 56) + 3 else (get_move_start m &&& 56) + 5)
    (hs : b.pieces (get_move_start m) = some (Pieces.king b.current_color))
    (hrs : b.pieces rs = some (Pieces.rook b.current_color))
    (he : b.pieces (get_move_end m) = none)
    (hre : b.pieces re = none)
    (h1 : get_move_start m ≠ get_move_end m)
    (h2 : get_move_start m ≠ rs) (h3 : get_move_start m ≠ re)
    (h4 : get_move_end m ≠ rs) (h5 : get_move_end m ≠ re)
    (h6 : rs ≠ re) :
    (make_move b m).bind (fun bi => undo_move bi.1 m bi.2) = some b := by
  obtain ⟨hbb_lt, hcomb_lt, hpieces, hcomb⟩ := hwf
  have ht1 : ¬ get_move_type m = MOVE_TYPE_EN_PASSANT := by rw [ht]; decide
  have hs64 := get_move_start_lt m
  have he64 := get_move_end_lt m
  have hoff : get_move_start m &&& 56 ≤ 56 := Nat.and_le_right
  have hrs64 : rs < 64 := by rw [hrs_def]; split <;> omega
  have hre64 : re < 64 := by rw [hre_def]; split <;> omega
  have hkr : Pieces.king b.current_color ≠ Pieces.rook b.current_color :=
    king_ne_rook _ _
  have hrk : Pieces.rook b.current_color ≠ Pieces.king b.current_color :=
    rook_ne_king _ _
  have hene : b.current_color ≠ b.current_color.enemy :=
    fun h => Color.enemy_ne b.current_color h.symm
  have hbit_none : ∀ (i : Nat), i < 64 → b.pieces i = none →
      ∀ p : Pieces, (b.get_bb p).testBit i = false := by
    intro i hi hnone p
    by_contra hcon
    have := (hpieces ⟨i, hi⟩ p).mpr (by simpa using hcon)
    rw [hnone] at this
    exact Option.noConfusion this
  have hcomb_none : ∀ (i : Nat), i < 64 → b.pieces i = none →
      ∀ c : Color, (b.get_combined_bb c).testBit i = false := by
    intro i hi hnone c
    by_contra hcon
    obtain ⟨p, _, hp⟩ := (hcomb ⟨i, hi⟩ c).mp (by simpa using hcon)
    rw [hnone] at hp
    exact Option.noConfusion hp
  have hbks : (b.get_bb (Pieces.king b.current_color)).testBit (get_move_start m) = true :=
    (hpieces ⟨_, hs64⟩ _).mp hs
  have hbke : (b.get_bb (Pieces.king b.current_color)).testBit (get_move_end m) = false :=
    hbit_none _ he64 he _
  have hbrrs : (b.get_bb (Pieces.rook b.current_color)).testBit rs = true :=
    (hpieces ⟨_, hrs64⟩ _).mp hrs
  have hbrre : (b.get_bb (Pieces.rook b.current_color)).testBit re = false :=
    hbit_none _ hre64 hre _
  have hcs : (b.get_combined_bb b.current_color).testBit (get_move_start m) = true :=
    (hcomb ⟨_, hs64⟩ _).mpr ⟨_, king_color _, hs⟩
  have hce : (b.get_combined_bb b.current_color).testBit (get_move_end m) = false :=
    hcomb_none _ he64 he _
  have hcrs : (b.get_combined_bb b.current_color).testBit rs = true :=
    (hcomb ⟨_, hrs64⟩ _).mpr ⟨_, rook_color _, hrs⟩
  have hcre : (b.get_combined_bb b.current_color).testBit re = false :=
    hcomb_none _ hre64 hre _
  by_cases hqs : get_move_piece m = MOVE_CASTLE_SIDE_QS
  · rw [if_pos hqs] at hrs_def hre_def
    subst hrs_def hre_def
    simp only [make_move, hs, if_neg ht1, if_pos ht, make_move_castle,
      if_pos hqs, Board.xor_hash, Board.with_bb, Board.with_comb,
      Board.with_piece, Board.with_ep, Board.with_castling, Board.get_bb,
      Board.get_combined_bb, Board.friendly_color, Board.enemy_color,
      upd_pieces, upd_bb, upd_comb, hkr, hrk, hene,
      Color.enemy_ne b.current_color, eq_self_iff_true,
      if_true, if_false, ite_true, ite_false, Option.map_some', Option.some_bind]
    simp only [undo_move, if_neg ht1, if_pos ht, undo_move_castle,
      if_pos hqs, Board.xor_hash, Board.with_bb, Board.with_comb,
      Board.with_piece, Board.with_ep, Board.with_castling, Board.get_bb,
      Board.get_combined_bb, Board.friendly_color, Board.enemy_color,
      Color.enemy_enemy, upd_pieces, upd_bb, upd_comb, hkr, hrk, hene,
      Color.enemy_ne b.current_color, eq_self_iff_true,
      if_true, if_false, ite_true, ite_false, Option.some.injEq]
    refine Board.ext rfl rfl rfl rfl rfl ?_ ?_ ?_ rfl ?_
    · funext j
      simp only [upd_pieces]
      by_cases hj1 : j = get_move_end m <;> by_cases hj2 : j = get_move_start m <;>
        by_cases hj3 : j = get_move_start m &&& 56 <;>
        by_cases hj4 : j = (get_move_start m &&& 56) + 3 <;> simp_all
    · funext q
      simp only [upd_bb]
      by_cases hq1 : q = Pieces.rook b.current_color
      · subst hq1
        simp only [if_pos rfl, if_neg hrk]
        exact clear_set_restore (hbb_lt _) hrs64 hre64 h6 hbrrs hbrre
      · by_cases hq2 : q = Pieces.king b.current_color
        · subst hq2
          simp only [if_pos rfl, if_neg hkr]
          exact clear_set_restore (hbb_lt _) hs64 he64 h1 hbks hbke
        · simp [hq1, hq2]
    · funext d
      simp only [upd_comb]
      by_cases hd : d = b.current_color
      · subst hd
        simp only [if_pos rfl]
        exact castle_comb_restore (hcomb_lt _) hs64 he64 hrs64 hre64
          h1 h2 h3 h4 h5 h6 hcs hce hcrs hcre
      · simp [hd]
    · simp [Nat.xor_assoc, Nat.xor_comm, xor_left_comm, Nat.xor_self,
        Nat.xor_cancel_left, Nat.xor_zero, Nat.zero_xor]
  · rw [if_neg hqs] at hrs_def hre_def
    subst hrs_def hre_def
    simp only [make_move, hs, if_neg ht1, if_pos ht, make_move_castle,
      if_neg hqs, Board.xor_hash, Board.with_bb, Board.with_comb,
      Board.with_piece, Board.with_ep, Board.with_castling, Board.get_bb,
      Board.get_combined_bb, Board.friendly_color, Board.enemy_color,
      upd_pieces, upd_bb, upd_comb, hkr, hrk, hene,
      Color.enemy_ne b.current_color, eq_self_iff_true,
      if_true, if_false, ite_true, ite_false, Option.map_some', Option.some_bind]
    simp only [undo_move, if_neg ht1, if_pos ht, undo_move_castle,
      if_neg hqs, Board.xor_hash, Board.with_bb, Board.with_comb,
      Board.with_piece, Board.with_ep, Board.with_castling, Board.get_bb,
      Board.get_combined_bb, Board.friendly_color, Board.enemy_color,
      Color.enemy_enemy, upd_pieces, upd_bb, upd_comb, hkr, hrk, hene,
      Color.enemy_ne b.current_color, eq_self_iff_true,
      if_true, if_false, ite_true, ite_false, Option.some.injEq]
    refine Board.ext rfl rfl rfl rfl rfl ?_ ?_ ?_ rfl ?_
    · funext j
      simp only [upd_pieces]
      by_cases hj1 : j = get_move_end m <;> by_cases hj2 : j = get_move_start m <;>
        by_cases hj3 : j = (get_move_start m &&& 56) + 7 <;>
        by_cases hj4 : j = (get_move_start m &&& 56) + 5 <;> simp_all
    · funext q
      simp only [upd_bb]
      by_cases hq1 : q = Pieces.rook b.current_color
      · subst hq1
        simp only [if_pos rfl, if_neg hrk]
        exact clear_set_restore (hbb_lt _) hrs64 hre64 h6 hbrrs hbrre
      · by_cases hq2 : q = Pieces.king b.current_color
        · subst hq2
          simp only [if_pos rfl, if_neg hkr]
          exact clear_set_restore (hbb_lt _) hs64 he64 h1 hbks hbke
        · simp [hq1, hq2]
    · funext d
      simp only [upd_comb]
      by_cases hd : d = b.current_color
      · subst hd
        simp only [if_pos rfl]
        exact castle_comb_restore (hcomb_lt _) hs64 he64 hrs64 hre64
          h1 h2 h3 h4 h5 h6 hcs hce hcrs hcre
      · simp [hd]
    · simp [Nat.xor_assoc, Nat.xor_comm, xor_left_comm, Nat.xor_self,
        Nat.xor_cancel_left, Nat.xor_zero, Nat.zero_xor]

/-- Make/undo symmetry: for every well-formed board and every move whose
placement facts match its move type (`move_precond` - the shape of the
moves the generator emits, e.g. a friendly mover on the start square and
an en-passant target consistent with the board), `make_move` followed by
`undo_move` with the `UndoInfo` it filled in restores every field of the
board, including the Zobrist hash. -/
theorem make_undo_roundtrip (b : Board) (m : Move)
    (hwf : well_formed b) (hpre : move_precond b m) :
    (make_move b m).bind (fun bi => undo_move bi.1 m bi.2) = some b := by
  simp only [move_precond] at hpre
  by_cases ht1 : get_move_type m = MOVE_TYPE_EN_PASSANT
  · rw [if_pos ht1] at hpre
    cases heq : b.en_passant with
    | none =>
      rw [heq] at hpre
      exact False.elim hpre
    | some eps =>
      rw [heq] at hpre
      obtain ⟨heps64, hs, he, hepsq, hse, hseps, heeps⟩ := hpre
      exact roundtrip_ep b m hwf ht1 eps heq heps64 hs he hepsq hse hseps heeps
  · rw [if_neg ht1] at hpre
    by_cases ht2 : get_move_type m = MOVE_TYPE_CASTLE
    · rw [if_pos ht2] at hpre
      obtain ⟨hs, hrs, he, hre, h1, h2, h3, h4, h5, h6⟩ := hpre
      exact roundtrip_castle b m hwf ht2 _ _ rfl rfl hs hrs he hre h1 h2 h3 h4 h5 h6
    · rw [if_neg ht2] at hpre
      by_cases ht3 : get_move_type m = MOVE_TYPE_PROMOTION
      · rw [if_pos ht3] at hpre
        obtain ⟨hs, hse, hend⟩ := hpre
        exact roundtrip_promotion b m hwf ht3 hs hse hend
      · rw [if_neg ht3] at hpre
        obtain ⟨⟨sp, hs, hcol⟩, hse, hend⟩ := hpre
        exact roundtrip_default b m hwf ht1 ht2 ht3 sp hs hcol hse hend

/-- C1.  The claim's round trip can never be exercised through
`gen_moves`: on `phantom_board` - as on any board whose king's bitboard
bit is not 0 or 63 - the generator panics inside `lsb_idx` before
emitting a move (first conjunct).  At the intent level the claim is
refuted: the generator with the intended bit-scan emits the en-passant
capture c5xb6, and make-then-undo of that move materialises a black
pawn on b5 that was never on the board (conjuncts 2-4).  The make/undo
symmetry itself holds universally: for every well-formed board and
every move whose placement facts match its move type, make then undo
restores every field (final conjunct, `make_undo_roundtrip`). -/
theorem claim_C1_theorem :
    gen_moves phantom_board = none ∧
    (gen_moves_intended phantom_board).map (fun x => x.1.contains phantom_ep_move)
      = some true ∧
    ((make_move phantom_board phantom_ep_move).bind
      (fun bi => undo_move bi.1 phantom_ep_move bi.2)).map (fun b2 => b2.pieces 25)
      = some (some Pieces.BlackPawn) ∧
    phantom_board.pieces 25 = none ∧
    (∀ (b : Board) (m : Move), well_formed b → move_precond b m →
      (make_move b m).bind (fun bi => undo_move bi.1 m bi.2) = some b) :=
  ⟨rfl, by decide, by decide, by decide, make_undo_roundtrip⟩

/-- Witness for `claim_C1_theorem`: the en-passant capture c5xb6 on
`wit_board` round-trips. -/
theorem claim_C1_witness :
    (well_formed wit_board ∧
      move_precond wit_board (new_move 26 25 MOVE_TYPE_EN_PASSANT)) ∧
    (make_move wit_board (new_move 26 25 MOVE_TYPE_EN_PASSANT)).bind
      (fun bi => undo_move bi.1 (new_move 26 25 MOVE_TYPE_EN_PASSANT) bi.2) =
      some wit_board :=
  ⟨⟨by decide, by decide⟩,
    claim_C1_theorem.2.2.2.2 wit_board (new_move 26 25 MOVE_TYPE_EN_PASSANT)
      (by decide) (by decide)⟩

theorem wf_bit_some {b : Board} (hwf : well_formed b) {i : Nat} (hi : i < 64)
    {p : Pieces} (hp : b.pieces i = some p) : (b.get_bb p).testBit i = true :=
  (hwf.2.2.1 ⟨i, hi⟩ p).mp hp

theorem wf_bit_none {b : Board} (hwf : well_formed b) {i : Nat} (hi : i < 64)
    (hnone : b.pieces i = none) (p : Pieces) : (b.get_bb p).testBit i = false := by
  by_contra hcon
  have := (hwf.2.2.1 ⟨i, hi⟩ p).mpr (by simpa using hcon)
  rw [hnone] at this
  exact Option.noConfusion this

theorem wf_comb_some {b : Board} (hwf : well_formed b) {i : Nat} (hi : i < 64)
    {p : Pieces} (hp : b.pieces i = some p) :
    (b.get_combined_bb p.color).testBit i = true :=
  (hwf.2.2.2 ⟨i, hi⟩ p.color).mpr ⟨p, rfl, hp⟩

theorem wf_comb_none {b : Board} (hwf : well_formed b) {i : Nat} (hi : i < 64)
    (hnone : b.pieces i = none) (c : Color) :
    (b.get_combined_bb c).testBit i = false := by
  by_contra hcon
  obtain ⟨p, _, hp⟩ := (hwf.2.2.2 ⟨i, hi⟩ c).mp (by simpa using hcon)
  rw [hnone] at hp
  exact Option.noConfusion hp

theorem wf_piece_of_bit {b : Board} (hwf : well_formed b) {i : Nat} (hi : i < 64)
    {p : Pieces} (hbit : (b.get_bb p).testBit i = true) : b.pieces i = some p :=
  (hwf.2.2.1 ⟨i, hi⟩ p).mpr hbit

theorem wf_bit_lt {b : Board} (hwf : well_formed b) {p : Pieces} {i : Nat}
    (h : (b.get_bb p).testBit i = true) : i < 64 := by
  by_contra hcon
  rw [testBit_hi (hwf.1 p) (by omega)] at h
  exact Bool.noConfusion h

theorem wf_comb_lt {b : Board} (hwf : well_formed b) {c : Color} {i : Nat}
    (h : (b.get_combined_bb c).testBit i = true) : i < 64 := by
  by_contra hcon
  rw [testBit_hi (hwf.2.1 c) (by omega)] at h
  exact Bool.noConfusion h

theorem is_bit_set_eq (bb i : Nat) : is_bit_set bb i = bb.testBit i := by
  unfold is_bit_set
  cases h : bb.testBit i with
  | false =>
    have hz : bb &&& (1 <<< i) = 0 := by
      apply Nat.eq_of_testBit_eq
      intro j
      simp only [Nat.testBit_and, Nat.one_shiftLeft, Nat.testBit_two_pow,
        Nat.zero_testBit, Bool.and_eq_false_iff]
      by_cases hj : j = i
      · subst hj; simp [h]
      · right
        exact decide_eq_false (fun hh => hj hh.symm)
    simp [hz]
  | true =>
    have hz : bb &&& (1 <<< i) ≠ 0 := by
      intro hc
      have h2 := congrArg (fun x => x.testBit i) hc
      simp [Nat.testBit_and, Nat.one_shiftLeft, Nat.testBit_two_pow, h] at h2
    simp [hz]

theorem lsbi_mem {bb : Nat} (hne : ((List.range 64).filter (fun i => bb.testBit i)) ≠ []) :
    bb.testBit (lsbi bb) = true := by
  have h2 : lsbi bb ∈ (List.range 64).filter (fun i => bb.testBit i) := by
    unfold lsbi
    cases hl : (List.range 64).filter (fun i => bb.testBit i) with
    | nil => exact absurd hl hne
    | cons a l => simp
  simpa using (List.mem_filter.mp h2).2

theorem lsbi_testBit {bb : Nat} (hlt : bb < 2 ^ 64) (hne : bb ≠ 0) :
    bb.testBit (lsbi bb) = true := by
  apply lsbi_mem
  intro hnil
  apply hne
  apply Nat.eq_of_testBit_eq
  intro j
  simp only [Nat.zero_testBit]
  by_cases hj : j < 64
  · by_contra hc
    have hmem : j ∈ (List.range 64).filter (fun i => bb.testBit i) := by
      rw [List.mem_filter]
      exact ⟨List.mem_range.mpr hj, by simpa using hc⟩
    rw [hnil] at hmem
    exact absurd hmem (List.not_mem_nil j)
  · exact testBit_hi hlt (by omega)

theorem validate_ep_frame (c : Color) (b : Board) (kp start endSq occ : Nat)
    (hwf : well_formed b)
    (hstart : b.pieces start = some (Pieces.pawn c))
    (hend : b.pieces endSq = some (Pieces.pawn c.enemy))
    (hstart64 : start < 64) (hend64 : endSq < 64)
    (heps : ∀ eps, b.en_passant = some eps → eps < 64 ∧ b.pieces eps = none) :
    (validate_en_passant c b kp start endSq occ).2 = b := by
  cases heq : b.en_passant with
  | none => simp [validate_en_passant, heq]
  | some eps =>
    obtain ⟨heps64, hepsn⟩ := heps eps heq
    have hfpep : Pieces.pawn c ≠ Pieces.pawn c.enemy := pawn_ne_pawn_enemy c
    have hepfp : Pieces.pawn c.enemy ≠ Pieces.pawn c := fun h => hfpep h.symm
    have hcene : c.enemy ≠ c := Color.enemy_ne c
    have hcne : c ≠ c.enemy := fun h => hcene h.symm
    have hse : start ≠ eps := fun h => by
      rw [h, hepsn] at hstart; exact Option.noConfusion hstart
    have hbfs : (b.get_bb (Pieces.pawn c)).testBit start = true :=
      wf_bit_some hwf hstart64 hstart
    have hbfeps : (b.get_bb (Pieces.pawn c)).testBit eps = false :=
      wf_bit_none hwf heps64 hepsn _
    have hbee : (b.get_bb (Pieces.pawn c.enemy)).testBit endSq = true :=
      wf_bit_some hwf hend64 hend
    have hcfs : (b.get_combined_bb c).testBit start = true := by
      have := wf_comb_some hwf hstart64 hstart
      rwa [pawn_color] at this
    have hcfeps : (b.get_combined_bb c).testBit eps = false :=
      wf_comb_none hwf heps64 hepsn _
    have hcee : (b.get_combined_bb c.enemy).testBit endSq = true := by
      have := wf_comb_some hwf hend64 hend
      rwa [pawn_color] at this
    obtain ⟨hbb_lt, hcomb_lt, hpieces, hcomb⟩ := hwf
    simp only [validate_en_passant, heq, Board.with_bb, Board.with_comb,
      Board.get_bb, Board.get_combined_bb, upd_bb, upd_comb, hfpep, hepfp,
      hcne, hcene, eq_self_iff_true, if_true, if_false, ite_true, ite_false]
    refine Board.ext rfl rfl rfl rfl heq.symm rfl ?_ ?_ rfl rfl
    · funext q
      simp only [upd_bb]
      by_cases hq1 : q = Pieces.pawn c
      · subst hq1
        simp only [if_pos rfl, if_neg hfpep]
        exact clear_set_restore (hbb_lt _) hstart64 heps64 hse hbfs hbfeps
      · by_cases hq2 : q = Pieces.pawn c.enemy
        · subst hq2
          simp only [if_pos rfl, if_neg hepfp]
          exact clear_then_set_restore (hbb_lt _) hend64 hbee
        · simp [hq1, hq2]
    · funext d
      simp only [upd_comb]
      by_cases hd1 : d = c
      · subst hd1
        simp only [if_pos rfl, if_neg hcne]
        exact clear_set_restore (hcomb_lt _) hstart64 heps64 hse hcfs hcfeps
      · by_cases hd2 : d = c.enemy
        · subst hd2
          simp only [if_pos rfl, if_neg hcene]
          exact clear_then_set_restore (hcomb_lt _) hend64 hcee
        · simp [hd1, hd2]

theorem capture_start_pawn (c : Color) (isLeft : Bool) {b : Board}
    (hwf : well_formed b) {pinned mask eps : Nat}
    (hbit : (if c.is_white then
        ((b.get_bb (Pieces.pawn c) &&& not64 pinned) &&& mask) >>>
          (if isLeft then 9 else 7)
      else
        shl64 ((b.get_bb (Pieces.pawn c) &&& not64 pinned) &&& mask)
          (if isLeft then 7 else 9)).testBit eps = true) :
    ((eps : Int) + capture_offset c isLeft).toNat < 64 ∧
    b.pieces (((eps : Int) + capture_offset c isLeft).toNat) =
      some (Pieces.pawn c) := by
  cases c <;> cases isLeft <;>
    simp only [Color.is_white, capture_offset, shl64, Bool.false_eq_true,
      Bool.true_eq_false, ite_true, ite_false, if_true, if_false,
      eq_self_iff_true] at hbit ⊢
  case White.true =>
    rw [Nat.testBit_shiftRight] at hbit
    simp only [Nat.testBit_and, Bool.and_eq_true] at hbit
    have hb3 := hbit.1.1
    have h64 := wf_bit_lt hwf hb3
    have hsn : ((eps : Int) + 9).toNat = 9 + eps := by omega
    rw [hsn]
    exact ⟨h64, wf_piece_of_bit hwf h64 hb3⟩
  case White.false =>
    rw [Nat.testBit_shiftRight] at hbit
    simp only [Nat.testBit_and, Bool.and_eq_true] at hbit
    have hb3 := hbit.1.1
    have h64 := wf_bit_lt hwf hb3
    have hsn : ((eps : Int) + 7).toNat = 7 + eps := by omega
    rw [hsn]
    exact ⟨h64, wf_piece_of_bit hwf h64 hb3⟩
  case Black.true =>
    rw [Nat.testBit_and, testBit_umax, Nat.testBit_shiftLeft] at hbit
    simp only [Bool.and_eq_true, decide_eq_true_eq, Nat.testBit_and,
      ge_iff_le] at hbit
    obtain ⟨⟨hk, hb2⟩, _⟩ := hbit
    have hb3 := hb2.1.1
    have h64 := wf_bit_lt hwf hb3
    have hsn : ((eps : Int) + -7).toNat = eps - 7 := by omega
    rw [hsn]
    exact ⟨h64, wf_piece_of_bit hwf h64 hb3⟩
  case Black.false =>
    rw [Nat.testBit_and, testBit_umax, Nat.testBit_shiftLeft] at hbit
    simp only [Bool.and_eq_true, decide_eq_true_eq, Nat.testBit_and,
      ge_iff_le] at hbit
    obtain ⟨⟨hk, hb2⟩, _⟩ := hbit
    have hb3 := hb2.1.1
    have h64 := wf_bit_lt hwf hb3
    have hsn : ((eps : Int) + -9).toNat = eps - 9 := by omega
    rw [hsn]
    exact ⟨h64, wf_piece_of_bit hwf h64 hb3⟩

theorem add_pawn_captures_frame (c : Color) (isLeft : Bool) (b : Board)
    (occ pinned lc kp : Nat)
    (hwf : well_formed b)
    (heps : ∀ eps, b.en_passant = some eps → eps < 64 ∧ b.pieces eps = none ∧
      ((eps : Int) + forward_offset c).toNat < 64 ∧
      b.pieces (((eps : Int) + forward_offset c).toNat) =
        some (Pieces.pawn c.enemy)) :
    (add_pawn_captures_intended c isLeft b occ pinned lc kp).2 = b := by
  simp only [add_pawn_captures_intended]
  cases heq : b.en_passant with
  | none => simp
  | some eps =>
    obtain ⟨heps64, hepsn, hfwd64, hfwd⟩ := heps eps heq
    by_cases hbit : is_bit_set (if c.is_white then
        ((b.get_bb (Pieces.pawn c) &&& not64 pinned) &&&
          not_files_tbl (if isLeft then FILES_A else FILES_H)) >>>
          (if isLeft then 9 else 7)
      else
        shl64 ((b.get_bb (Pieces.pawn c) &&& not64 pinned) &&&
          not_files_tbl (if isLeft then FILES_A else FILES_H))
          (if isLeft then 7 else 9)) eps = true
    · simp only [hbit, eq_self_iff_true, if_true, ite_true]
      rw [is_bit_set_eq] at hbit
      obtain ⟨hs64, hstart⟩ := capture_start_pawn c isLeft hwf hbit
      have hframe := validate_ep_frame c b kp
        (((eps : Int) + capture_offset c isLeft).toNat)
        (((eps : Int) + forward_offset c).toNat) occ hwf hstart hfwd hs64 hfwd64
        (fun e he => by rw [heq] at he; cases he; exact ⟨heps64, hepsn⟩)
      split <;> simp [hframe]
    · simp only [Bool.not_eq_true] at hbit
      simp only [hbit, Bool.false_eq_true, if_false, ite_false]

theorem snd_ite_eq {b : Board} (cond : Prop) [Decidable cond]
    (x y : List Move × Board) (hx : x.2 = b) (hy : y.2 = b) :
    (if cond then x else y).2 = b := by
  split
  · exact hx
  · exact hy

theorem add_pawn_moves_frame (c : Color) (b : Board)
    (occ pinned lc blockers kp : Nat)
    (hwf : well_formed b)
    (heps : ∀ eps, b.en_passant = some eps → eps < 64 ∧ b.pieces eps = none ∧
      ((eps : Int) + forward_offset c).toNat < 64 ∧
      b.pieces (((eps : Int) + forward_offset c).toNat) =
        some (Pieces.pawn c.enemy)) :
    (add_pawn_moves_intended c b occ pinned lc blockers kp).2 = b := by
  have h1 := add_pawn_captures_frame c true b occ pinned lc kp hwf heps
  have h2 := add_pawn_captures_frame c false b occ pinned lc kp hwf heps
  have e1 : add_pawn_captures_intended c true b occ pinned lc kp =
      ((add_pawn_captures_intended c true b occ pinned lc kp).1, b) := Prod.ext rfl h1
  have e2 : add_pawn_captures_intended c false b occ pinned lc kp =
      ((add_pawn_captures_intended c false b occ pinned lc kp).1, b) := Prod.ext rfl h2
  simp only [add_pawn_moves_intended]
  rw [e1]
  simp only
  rw [e2]

theorem eq_pawn_of_is_pawn {p : Pieces} (h : p.is_pawn = true) :
    p = Pieces.pawn p.color := by
  cases p <;> simp_all [Pieces.is_pawn, Pieces.color, Pieces.pawn]

theorem add_pinned_pawn_captures_frame (c : Color) (isLeft : Bool) (b : Board)
    (occ pinned_pos mask kp : Nat)
    (hwf : well_formed b)
    (heps : ∀ eps, b.en_passant = some eps → eps < 64 ∧ b.pieces eps = none ∧
      ((eps : Int) + forward_offset c).toNat < 64 ∧
      b.pieces (((eps : Int) + forward_offset c).toNat) =
        some (Pieces.pawn c.enemy))
    (hpp64 : pinned_pos < 64)
    (hpp : b.pieces pinned_pos = some (Pieces.pawn c)) :
    (add_pinned_pawn_captures_intended c isLeft b occ pinned_pos mask kp).2 = b := by
  simp only [add_pinned_pawn_captures_intended]
  apply snd_ite_eq
  · rfl
  · cases heq : b.en_passant with
    | none => simp
    | some eps =>
      obtain ⟨heps64, hepsn, hfwd64, hfwd⟩ := heps eps heq
      have hframe := validate_ep_frame c b kp pinned_pos
        (((eps : Int) + forward_offset c).toNat) occ hwf hpp hfwd hpp64 hfwd64
        (fun e he => by rw [heq] at he; cases he; exact ⟨heps64, hepsn⟩)
      apply snd_ite_eq
      · apply snd_ite_eq <;> simp [hframe]
      · rfl

theorem add_pinned_moves_frame (c : Color) (b : Board)
    (occ lc blockers kp pinned_pos ap : Nat)
    (hwf : well_formed b)
    (heps : ∀ eps, b.en_passant = some eps → eps < 64 ∧ b.pieces eps = none ∧
      ((eps : Int) + forward_offset c).toNat < 64 ∧
      b.pieces (((eps : Int) + forward_offset c).toNat) =
        some (Pieces.pawn c.enemy))
    (hppc : (b.get_combined_bb c).testBit pinned_pos = true) :
    (add_pinned_moves_intended c b occ lc blockers kp pinned_pos ap).2 = b := by
  have hpp64 : pinned_pos < 64 := wf_comb_lt hwf hppc
  obtain ⟨p, hpcol, hp⟩ := (hwf.2.2.2 ⟨pinned_pos, hpp64⟩ c).mp hppc
  simp only [add_pinned_moves_intended]
  cases hq : b.pieces pinned_pos with
  | none => rfl
  | some piece =>
    have hpc : piece.color = c := by
      rw [hq] at hp
      cases hp
      exact hpcol
    by_cases hpawn : piece.is_pawn = true
    · have hpiece : piece = Pieces.pawn c := by
        rw [eq_pawn_of_is_pawn hpawn, hpc]
      rw [hpiece] at hq
      simp only [hpawn, if_true, ite_true]
      apply snd_ite_eq
      · apply snd_ite_eq
        · rfl
        · have h1 := add_pinned_pawn_captures_frame c true b occ pinned_pos
            (lc &&& ((slider_range ap kp &&& not64 (b.get_combined_bb c)) |||
              (1 <<< ap))) kp hwf heps hpp64 hq
          have h2 := add_pinned_pawn_captures_frame c false b occ pinned_pos
            (lc &&& ((slider_range ap kp &&& not64 (b.get_combined_bb c)) |||
              (1 <<< ap))) kp hwf heps hpp64 hq
          have e1 : add_pinned_pawn_captures_intended c true b occ pinned_pos
              (lc &&& ((slider_range ap kp &&& not64 (b.get_combined_bb c)) |||
                (1 <<< ap))) kp =
              ((add_pinned_pawn_captures_intended c true b occ pinned_pos
                (lc &&& ((slider_range ap kp &&& not64 (b.get_combined_bb c)) |||
                  (1 <<< ap))) kp).1, b) := Prod.ext rfl h1
          have e2 : add_pinned_pawn_captures_intended c false b occ pinned_pos
              (lc &&& ((slider_range ap kp &&& not64 (b.get_combined_bb c)) |||
                (1 <<< ap))) kp =
              ((add_pinned_pawn_captures_intended c false b occ pinned_pos
                (lc &&& ((slider_range ap kp &&& not64 (b.get_combined_bb c)) |||
                  (1 <<< ap))) kp).1, b) := Prod.ext rfl h2
          rw [e1]
          simp only
          rw [e2]
      · rfl
    · simp only [Bool.not_eq_true] at hpawn
      simp only [hpawn, Bool.false_eq_true, if_false, ite_false]

theorem ite_pred {α : Type} (P : α → Prop) (cond : Prop) [Decidable cond]
    (x y : α) (hx : P x) (hy : P y) : P (if cond then x else y) := by
  split
  · exact hx
  · exact hy

theorem foldl_inv {α β : Type} (f : β → α → β) (P : β → Prop)
    (hf : ∀ st a, P st → P (f st a)) :
    ∀ (l : List α) (st : β), P st → P (l.foldl f st) := by
  intro l
  induction l with
  | nil => intro st h; simpa using h
  | cons a t ih =>
    intro st h
    simpa using ih (f st a) (hf st a h)

theorem gen_pin_attackers_frame (c : Color) (b : Board)
    (occ kp checkers lc blockers : Nat) (isb : Bool)
    (hwf : well_formed b)
    (heps : ∀ eps, b.en_passant = some eps → eps < 64 ∧ b.pieces eps = none ∧
      ((eps : Int) + forward_offset c).toNat < 64 ∧
      b.pieces (((eps : Int) + forward_offset c).toNat) =
        some (Pieces.pawn c.enemy)) :
    (gen_pin_attackers_intended c b occ kp checkers lc blockers isb).2.1 = b := by
  simp only [gen_pin_attackers_intended]
  refine foldl_inv _ (fun st : List Move × Board × Nat => st.2.1 = b) ?_ _ _ rfl
  intro st a hst
  obtain ⟨ml, b2, pinned⟩ := st
  simp only at hst
  subst b2
  simp only
  by_cases hocc : slider_range a kp &&& b.get_combined_bb c = 0
  · rw [if_pos hocc]
  · rw [if_neg hocc]
    apply ite_pred (fun st : List Move × Board × Nat => st.2.1 = b)
    · have hlt : slider_range a kp &&& b.get_combined_bb c < 2 ^ 64 :=
        Nat.lt_of_le_of_lt Nat.and_le_right (hwf.2.1 c)
      have hbit := lsbi_testBit hlt hocc
      rw [Nat.testBit_and, Bool.and_eq_true] at hbit
      have h1 := add_pinned_moves_frame c b occ lc blockers kp
        (lsbi (slider_range a kp &&& b.get_combined_bb c)) a hwf heps hbit.2
      have e1 : add_pinned_moves_intended c b occ lc blockers kp
          (lsbi (slider_range a kp &&& b.get_combined_bb c)) a =
          ((add_pinned_moves_intended c b occ lc blockers kp
            (lsbi (slider_range a kp &&& b.get_combined_bb c)) a).1, b) :=
        Prod.ext rfl h1
      rw [e1]
    · rfl

theorem gen_pinned_pieces_frame (c : Color) (b : Board)
    (occ kp checkers lc blockers : Nat)
    (hwf : well_formed b)
    (heps : ∀ eps, b.en_passant = some eps → eps < 64 ∧ b.pieces eps = none ∧
      ((eps : Int) + forward_offset c).toNat < 64 ∧
      b.pieces (((eps : Int) + forward_offset c).toNat) =
        some (Pieces.pawn c.enemy)) :
    (gen_pinned_pieces_intended c b occ kp checkers lc blockers).2.1 = b := by
  have h1 := gen_pin_attackers_frame c b occ kp checkers lc blockers true hwf heps
  have h2 := gen_pin_attackers_frame c b occ kp checkers lc blockers false hwf heps
  have e1 : gen_pin_attackers_intended c b occ kp checkers lc blockers true =
      ((gen_pin_attackers_intended c b occ kp checkers lc blockers true).1, b,
        (gen_pin_attackers_intended c b occ kp checkers lc blockers true).2.2) :=
    Prod.ext rfl (Prod.ext h1 rfl)
  have e2 : gen_pin_attackers_intended c b occ kp checkers lc blockers false =
      ((gen_pin_attackers_intended c b occ kp checkers lc blockers false).1, b,
        (gen_pin_attackers_intended c b occ kp checkers lc blockers false).2.2) :=
    Prod.ext rfl (Prod.ext h2 rfl)
  simp only [gen_pinned_pieces_intended]
  rw [e1]
  simp only
  rw [e2]

theorem gen_moves_for_player_frame (c : Color) (b : Board)
    (p : List Move × Board)
    (hwf : well_formed b)
    (heps : ∀ eps, b.en_passant = some eps → eps < 64 ∧ b.pieces eps = none ∧
      ((eps : Int) + forward_offset c).toNat < 64 ∧
      b.pieces (((eps : Int) + forward_offset c).toNat) =
        some (Pieces.pawn c.enemy))
    (h : gen_moves_for_player_intended c b = some p) : p.2 = b := by
  have E1 : ∀ x1 x2 x3 x4 x5, gen_pinned_pieces_intended c b x1 x2 x3 x4 x5 =
      ((gen_pinned_pieces_intended c b x1 x2 x3 x4 x5).1, b,
        (gen_pinned_pieces_intended c b x1 x2 x3 x4 x5).2.2) :=
    fun x1 x2 x3 x4 x5 =>
      Prod.ext rfl
        (Prod.ext (gen_pinned_pieces_frame c b x1 x2 x3 x4 x5 hwf heps) rfl)
  have E2 : ∀ x1 x2 x3 x4 x5, add_pawn_moves_intended c b x1 x2 x3 x4 x5 =
      ((add_pawn_moves_intended c b x1 x2 x3 x4 x5).1, b) :=
    fun x1 x2 x3 x4 x5 =>
      Prod.ext rfl (add_pawn_moves_frame c b x1 x2 x3 x4 x5 hwf heps)
  simp only [gen_moves_for_player_intended] at h
  split at h
  · have := Option.some.inj h
    subst this
    rfl
  · split at h
    · rw [E1] at h
      simp only at h
      rw [E2] at h
      simp only at h
      have := Option.some.inj h
      subst this
      rfl
    · split at h
      · rw [E1] at h
        simp only at h
        rw [E2] at h
        simp only at h
        have := Option.some.inj h
        subst this
        rfl
      · exact Option.noConfusion h

/-- Frame property of the intended-bit-scan generator: on a well-formed
board whose en-passant target is consistent with the placement (the
target square empty, the capturable enemy pawn in front of it) every
temporary change `validate_en_passant` makes is reverted, so the board
returned equals the input in every field. -/
theorem gen_moves_intended_frame (b : Board) (p : List Move × Board)
    (hwf : well_formed b) (hep : ep_consistent b)
    (h : gen_moves_intended b = some p) : p.2 = b := by
  unfold ep_consistent at hep
  unfold gen_moves_intended at h
  cases hc : b.current_color with
  | White =>
    rw [Board.friendly_color, hc] at h
    simp only [Color.is_white, eq_self_iff_true, if_true, ite_true] at h
    refine gen_moves_for_player_frame Color.White b p hwf ?_ h
    intro eps heq
    rw [heq] at hep
    obtain ⟨hnone, hW, _⟩ := hep
    obtain ⟨h64, hpawn⟩ := hW hc
    have ht : ((eps : Int) + forward_offset Color.White).toNat = eps + 8 := by
      simp only [forward_offset, Color.is_white, ite_true, if_true]
      omega
    rw [ht]
    exact ⟨by omega, hnone, by omega, hpawn⟩
  | Black =>
    rw [Board.friendly_color, hc] at h
    simp only [Color.is_white, if_false, ite_false] at h
    refine gen_moves_for_player_frame Color.Black b p hwf ?_ h
    intro eps heq
    rw [heq] at hep
    obtain ⟨hnone, _, hB⟩ := hep
    obtain ⟨h8, h64, hpawn⟩ := hB hc
    have ht : ((eps : Int) + forward_offset Color.Black).toNat = eps - 8 := by
      simp only [forward_offset, Color.is_white, Bool.false_eq_true, ite_false,
        if_false]
      omega
    rw [ht]
    exact ⟨by omega, hnone, by omega, hpawn⟩

/-- C10.  `gen_moves` never returns a board at all on `wit_board` - as on
any board whose king's bitboard bit is not 0 or 63 it panics inside
`lsb_idx` (first conjunct).  At the intent level the claim is refuted:
on `phantom_board` (en-passant target b6 with no black pawn on b5, a
board `load_fen` accepts) the en-passant validation removes the
"captured" pawn bit and then unconditionally sets it back, so the
black-pawn bitboard changes from 0 to `2^25` across the call (conjuncts
2-3).  On a well-formed board whose en-passant target is consistent with
the placement the intended-bit-scan generator does return the board
unchanged in every field (final conjunct,
`gen_moves_intended_frame`). -/
theorem claim_C10_theorem :
    gen_moves wit_board = none ∧
    (gen_moves_intended phantom_board).map
      (fun x => x.2.piece_bitboards Pieces.BlackPawn) = some 33554432 ∧
    phantom_board.piece_bitboards Pieces.BlackPawn = 0 ∧
    (∀ (b : Board) (p : List Move × Board), well_formed b → ep_consistent b →
      gen_moves_intended b = some p → p.2 = b) :=
  ⟨rfl, by decide, by decide, gen_moves_intended_frame⟩

/-- Witness for `claim_C10_theorem`: on `wit_board` (whose en-passant
target b6 is consistent) `gen_moves_intended` returns the board unchanged. -/
theorem claim_C10_witness :
    well_formed wit_board ∧ ep_consistent wit_board ∧
    (gen_moves_intended wit_board).map (fun q => q.2) = some wit_board := by
  refine ⟨by decide, by decide, ?_⟩
  cases heq : gen_moves_intended wit_board with
  | none =>
    have hs : (gen_moves_intended wit_board).isSome = true := by decide
    rw [heq] at hs
    exact Bool.noConfusion hs
  | some q =>
    rw [Option.map_some']
    exact congrArg some
      (claim_C10_theorem.2.2.2 wit_board q (by decide) (by decide) heq)

theorem dig_char_toNat {d : Nat} (h : d < 10) : (dig_char d).toNat = 48 + d := by
  interval_cases d <;> decide

theorem is_digit_dig {d : Nat} (h : d < 10) : is_digit (dig_char d) = true := by
  interval_cases d <;> decide

theorem not_ws_dig {d : Nat} (h : d < 10) : is_ws (dig_char d) = false := by
  interval_cases d <;> decide

theorem piece_of_dig {d : Nat} (h : d < 10) : piece_of_char (dig_char d) = none := by
  interval_cases d <;> decide

theorem piece_of_fen_char (p : Pieces) : piece_of_char p.fen_char = some p := by
  cases p <;> decide

theorem not_ws_fen_char (p : Pieces) : is_ws p.fen_char = false := by
  cases p <;> decide

theorem nat_chars_small {n : Nat} (h : n < 10) : nat_chars n = [dig_char n] := by
  unfold nat_chars nat_chars_go
  rw [if_pos h]

theorem nat_chars_go_foldl :
    ∀ fuel n, n < 10 ^ fuel → ∀ a,
      (nat_chars_go fuel n).foldl (fun a c => a * 10 + (c.toNat - 48)) a =
        a * 10 ^ (nat_chars_go fuel n).length + n := by
  intro fuel
  induction fuel with
  | zero =>
    intro n hn a
    have : n = 0 := by omega
    subst this
    simp [nat_chars_go]
  | succ fuel ih =>
    intro n hn a
    by_cases h10 : n < 10
    · simp only [nat_chars_go, if_pos h10, List.foldl_cons, List.foldl_nil,
        List.length_cons, List.length_nil]
      rw [dig_char_toNat h10]
      ring_nf
      omega
    · have hdiv : n / 10 < 10 ^ fuel := by
        rw [Nat.div_lt_iff_lt_mul (by omega)]
        calc n < 10 ^ (fuel + 1) := hn
        _ = 10 ^ fuel * 10 := by ring
      simp only [nat_chars_go, if_neg h10, List.foldl_append, List.foldl_cons,
        List.foldl_nil, List.length_append, List.length_cons, List.length_nil]
      rw [ih (n / 10) hdiv a]
      rw [dig_char_toNat (by omega)]
      have : (48 : Nat) + n % 10 - 48 = n % 10 := by omega
      rw [this]
      have hmod := Nat.div_add_mod n 10
      have hpow : 10 ^ ((nat_chars_go fuel (n / 10)).length + (0 + 1)) =
          10 ^ (nat_chars_go fuel (n / 10)).length * 10 := by ring
      rw [hpow]
      ring_nf
      omega

theorem nat_chars_go_digits :
    ∀ fuel n, (nat_chars_go fuel n).all is_digit = true := by
  intro fuel
  induction fuel with
  | zero => intro n; rfl
  | succ fuel ih =>
    intro n
    by_cases h10 : n < 10
    · simp [nat_chars_go, if_pos h10, is_digit_dig h10]
    · simp only [nat_chars_go, if_neg h10, List.all_append, List.all_cons,
        List.all_nil, Bool.and_eq_true]
      exact ⟨ih (n / 10), by simp [is_digit_dig (Nat.mod_lt n (by omega))], trivial⟩

theorem nat_chars_go_ne {fuel n : Nat} (h : 0 < fuel) :
    nat_chars_go fuel n ≠ [] := by
  cases fuel with
  | zero => omega
  | succ fuel =>
    unfold nat_chars_go
    by_cases h10 : n < 10
    · simp [if_pos h10]
    · simp only [if_neg h10]
      intro hc
      have := List.append_eq_nil.mp hc
      exact List.noConfusion this.2

theorem parse_usize_nat_chars (n : Nat) : parse_usize (nat_chars n) = some n := by
  unfold parse_usize nat_chars
  rw [if_pos ⟨nat_chars_go_ne (by omega), nat_chars_go_digits (n + 1) n⟩]
  rw [nat_chars_go_foldl (n + 1) n
    (lt_of_lt_of_le (Nat.lt_pow_self (by omega) n : n < 10 ^ n)
      (Nat.pow_le_pow_right (by omega) (by omega))) 0]
  simp

theorem not_ws_of_digit {c : Char} (hd : is_digit c = true) : is_ws c = false := by
  unfold is_ws
  apply decide_eq_false
  intro hws
  simp only [is_digit, Bool.and_eq_true, decide_eq_true_eq] at hd
  rcases hws with h | h | h | h <;> subst h <;> exact absurd hd (by decide)

theorem nat_chars_no_ws (n : Nat) :
    (nat_chars n).all (fun c => !is_ws c) = true := by
  have h := nat_chars_go_digits (n + 1) n
  rw [List.all_eq_true] at h ⊢
  intro c hc
  simp [not_ws_of_digit (h c hc)]

theorem castling_roundtrip : ∀ m : Fin 16,
    parse_castling_go 0 (castling_chars m.val) = (m.val, none) ∧
    (castling_chars m.val).all (fun c => !is_ws c) = true ∧
    castling_chars m.val ≠ [] := by decide

theorem sq_roundtrip : ∀ e : Fin 64,
    from_alg (sq_chars e.val) = some e.val ∧
    (sq_chars e.val).all (fun c => !is_ws c) = true ∧
    sq_chars e.val ≠ ['-'] := by decide

theorem split_ws_go_token : ∀ (t acc rest : List Char),
    t.all (fun c => !is_ws c) = true → (acc ≠ [] ∨ t ≠ []) →
    split_ws_go (t ++ ' ' :: rest) acc =
      (acc.reverse ++ t) :: split_ws_go rest [] := by
  intro t
  induction t with
  | nil =>
    intro acc rest _ hne
    have hacc : acc ≠ [] := by
      rcases hne with h | h
      · exact h
      · exact absurd rfl h
    simp only [List.nil_append, split_ws_go]
    rw [if_pos (by decide : is_ws ' ' = true)]
    rw [if_neg (by simpa using hacc)]
    simp
  | cons c t ih =>
    intro acc rest hall hne
    simp only [List.all_cons, Bool.and_eq_true, Bool.not_eq_true'] at hall
    simp only [List.cons_append, split_ws_go, List.append_eq]
    rw [if_neg (by simp [hall.1])]
    rw [ih (c :: acc) rest hall.2 (Or.inl (by simp))]
    simp

theorem split_ws_go_last : ∀ (t acc : List Char),
    t.all (fun c => !is_ws c) = true → (acc ≠ [] ∨ t ≠ []) →
    split_ws_go t acc = [acc.reverse ++ t] := by
  intro t
  induction t with
  | nil =>
    intro acc _ hne
    have hacc : acc ≠ [] := by
      rcases hne with h | h
      · exact h
      · exact absurd rfl h
    simp only [split_ws_go]
    rw [if_neg (by simpa using hacc)]
    simp
  | cons c t ih =>
    intro acc hall hne
    simp only [List.all_cons, Bool.and_eq_true, Bool.not_eq_true'] at hall
    simp only [split_ws_go]
    rw [if_neg (by simp [hall.1])]
    rw [ih (c :: acc) hall.2 (Or.inl (by simp))]
    simp

theorem split_ws_fen (t1 t2 t3 t4 t5 t6 : List Char)
    (h1 : t1.all (fun c => !is_ws c) = true)
    (h2 : t2.all (fun c => !is_ws c) = true)
    (h3 : t3.all (fun c => !is_ws c) = true)
    (h4 : t4.all (fun c => !is_ws c) = true)
    (h5 : t5.all (fun c => !is_ws c) = true)
    (h6 : t6.all (fun c => !is_ws c) = true)
    (n1 : t1 ≠ []) (n2 : t2 ≠ []) (n3 : t3 ≠ []) (n4 : t4 ≠ [])
    (n5 : t5 ≠ []) (n6 : t6 ≠ []) :
    split_ws (t1 ++ [' '] ++ t2 ++ [' '] ++ t3 ++ [' '] ++ t4 ++ [' ']
      ++ t5 ++ [' '] ++ t6) = [t1, t2, t3, t4, t5, t6] := by
  unfold split_ws
  have e : t1 ++ [' '] ++ t2 ++ [' '] ++ t3 ++ [' '] ++ t4 ++ [' ']
      ++ t5 ++ [' '] ++ t6 =
      t1 ++ ' ' :: (t2 ++ ' ' :: (t3 ++ ' ' :: (t4 ++ ' ' ::
        (t5 ++ ' ' :: t6)))) := by
    simp [List.append_assoc]
  rw [e]
  rw [split_ws_go_token t1 [] _ h1 (Or.inr n1)]
  rw [split_ws_go_token t2 [] _ h2 (Or.inr n2)]
  rw [split_ws_go_token t3 [] _ h3 (Or.inr n3)]
  rw [split_ws_go_token t4 [] _ h4 (Or.inr n4)]
  rw [split_ws_go_token t5 [] _ h5 (Or.inr n5)]
  rw [split_ws_go_last t6 [] h6 (Or.inr n6)]
  simp

theorem fen_go_no_ws (pieces : Nat → Option Pieces) :
    ∀ fuel sq r f e,
      (fen_board_go pieces fuel sq r f e).all (fun c => !is_ws c) = true := by
  intro fuel
  induction fuel with
  | zero => intro sq r f e; rfl
  | succ fuel ih =>
    intro sq r f e
    unfold fen_board_go
    by_cases hr : r < 8
    · rw [if_pos hr]
      cases hp : pieces sq <;> by_cases hf : f + 1 > 7 <;>
        simp only [hf, if_pos, if_neg, ite_true, ite_false, List.all_append,
          Bool.and_eq_true] <;>
        (try split_ifs) <;>
        simp [List.all_append, nat_chars_no_ws, not_ws_fen_char, ih,
          show is_ws (Char.ofNat 47) = false from by decide]
    · rw [if_neg hr]
      rfl

theorem fen_go_ne (pieces : Nat → Option Pieces) :
    ∀ fuel sq r f e, r < 8 → f ≤ 7 → 8 - f ≤ fuel →
      fen_board_go pieces fuel sq r f e ≠ [] := by
  intro fuel
  induction fuel with
  | zero => intro sq r f e _ hf hfuel; omega
  | succ fuel ih =>
    intro sq r f e hr hf hfuel
    unfold fen_board_go
    rw [if_pos hr]
    cases hp : pieces sq with
    | some p =>
      by_cases hff : f + 1 > 7 <;> simp [hff]
    | none =>
      by_cases hff : f + 1 > 7
      · simp only [hff, ite_true, if_pos]
        intro hc
        rcases List.append_eq_nil.mp hc with ⟨hc1, _⟩
        rcases List.append_eq_nil.mp hc1 with ⟨hc2, _⟩
        rcases List.append_eq_nil.mp hc2 with ⟨_, hc3⟩
        rw [if_pos (by omega : e + 1 ≠ 0)] at hc3
        exact nat_chars_go_ne (by omega) hc3
      · simp only [hff, ite_false, if_neg, List.nil_append]
        exact ih (sq + 1) r (f + 1) (e + 1) hr (by omega) (by omega)

theorem fen_go_congr (p1 p2 : Nat → Option Pieces) :
    ∀ fuel sq r f e, (∀ j, j < 64 → p1 j = p2 j) → sq + fuel ≤ 64 →
      fen_board_go p1 fuel sq r f e = fen_board_go p2 fuel sq r f e := by
  intro fuel
  induction fuel with
  | zero => intro sq r f e _ _; rfl
  | succ fuel ih =>
    intro sq r f e h hsq
    unfold fen_board_go
    by_cases hr : r < 8
    · rw [if_pos hr, if_pos hr, h sq (by omega)]
      cases hp2 : p2 sq <;> simp only [hp2] <;>
        by_cases hff : f + 1 > 7 <;>
        simp only [hff, ite_true, ite_false] <;>
        rw [ih (sq + 1) _ _ _ h (by omega)]
    · rw [if_neg hr, if_neg hr]

theorem parse_step_piece (B : Board) (square : Nat) (p : Pieces)
    (rest : List Char) (h : square < 64) :
    parse_board_go B square (p.fen_char :: rest) =
      parse_board_go
        ((B.with_bb p (set_bit (B.get_bb p) square)).with_piece square (some p))
        (square + 1) rest := by
  simp only [parse_board_go, if_pos h, piece_of_fen_char]

theorem parse_step_digit (B : Board) (square d : Nat) (rest : List Char)
    (h : square < 64) (h1 : 1 ≤ d) (h8 : d ≤ 8) :
    parse_board_go B square (dig_char d :: rest) =
      parse_board_go B (square + d) rest := by
  simp only [parse_board_go, if_pos h, piece_of_dig (show d < 10 by omega)]
  rw [if_pos (by rw [dig_char_toNat (by omega)]; omega)]
  rw [dig_char_toNat (by omega)]
  have : 48 + d - 48 = d := by omega
  rw [this]

theorem parse_step_slash (B : Board) (square : Nat) (rest : List Char)
    (h : square < 64) :
    parse_board_go B square (('/') :: rest) =
      parse_board_go B square rest := by
  simp only [parse_board_go, if_pos h,
    show piece_of_char ('/') = none from by decide]
  rw [if_neg (by decide), if_pos (by decide)]

theorem formula_step (B : Board) (pieces : Nat → Option Pieces)
    (sq e : Nat) (p : Pieces)
    (hp : pieces sq = some p) (hesq : e ≤ sq) (hsq64 : sq < 64)
    (hnone : ∀ j, sq - e ≤ j → j < sq → pieces j = none)
    (hB : ∀ j, sq - e ≤ j → B.pieces j = none)
    (v : Nat → Option Pieces)
    (hv : ∀ j, v j = if sq + 1 ≤ j ∧ j < 64 then pieces j else
      (((B.with_bb p (set_bit (B.get_bb p) sq)).with_piece sq
        (some p)).pieces j)) :
    ∀ j, v j = if sq - e ≤ j ∧ j < 64 then pieces j else B.pieces j := by
  intro j
  rw [hv j]
  simp only [Board.with_piece, Board.with_bb, upd_pieces]
  by_cases h1 : sq + 1 ≤ j ∧ j < 64
  · rw [if_pos h1, if_pos (by omega)]
  · rw [if_neg h1]
    by_cases hj : j = sq
    · rw [hj, if_pos rfl, if_pos (by omega), hp]
    · rw [if_neg hj]
      by_cases h2 : sq - e ≤ j ∧ j < 64
      · rw [if_pos h2]
        rw [hnone j h2.1 (by omega), hB j h2.1]
      · rw [if_neg h2]

theorem formula_skip (B : Board) (pieces : Nat → Option Pieces) (sq e : Nat)
    (hp : pieces sq = none) (hesq : e ≤ sq) (hsq64 : sq < 64)
    (hnone : ∀ j, sq - e ≤ j → j < sq → pieces j = none)
    (hB : ∀ j, sq - e ≤ j → B.pieces j = none)
    (v : Nat → Option Pieces)
    (hv : ∀ j, v j = if sq + 1 ≤ j ∧ j < 64 then pieces j else B.pieces j) :
    ∀ j, v j = if sq - e ≤ j ∧ j < 64 then pieces j else B.pieces j := by
  intro j
  rw [hv j]
  by_cases h1 : sq + 1 ≤ j ∧ j < 64
  · rw [if_pos h1, if_pos (by omega)]
  · rw [if_neg h1]
    by_cases h2 : sq - e ≤ j ∧ j < 64
    · rw [if_pos h2]
      by_cases hj : j = sq
      · rw [hj, hp, hB sq (by omega)]
      · rw [hnone j h2.1 (by omega), hB j h2.1]
    · rw [if_neg h2]

theorem parse_fen_inv (pieces : Nat → Option Pieces) :
    ∀ fuel r f e sq (B : Board),
      sq = 8 * r + f → f ≤ 7 → e ≤ f → sq + fuel = 64 →
      (∀ j, sq - e ≤ j → j < sq → pieces j = none) →
      (∀ j, sq - e ≤ j → B.pieces j = none) →
      ((parse_board_go B (sq - e) (fen_board_go pieces fuel sq r f e)).2.2
          = none ∧
        (parse_board_go B (sq - e) (fen_board_go pieces fuel sq r f e)).2.1
          = 64) ∧
      (∀ j,
        (parse_board_go B (sq - e) (fen_board_go pieces fuel sq r f e)).1.pieces j
          = if sq - e ≤ j ∧ j < 64 then pieces j else B.pieces j) ∧
      ((parse_board_go B (sq - e)
          (fen_board_go pieces fuel sq r f e)).1.current_color
            = B.current_color ∧
        (parse_board_go B (sq - e)
          (fen_board_go pieces fuel sq r f e)).1.castling = B.castling ∧
        (parse_board_go B (sq - e)
          (fen_board_go pieces fuel sq r f e)).1.en_passant = B.en_passant ∧
        (parse_board_go B (sq - e)
          (fen_board_go pieces fuel sq r f e)).1.fifty_move = B.fifty_move ∧
        (parse_board_go B (sq - e)
          (fen_board_go pieces fuel sq r f e)).1.full_move_count
            = B.full_move_count) := by
  intro fuel
  induction fuel with
  | zero =>
    intro r f e sq B hsq hf he hfuel hnone hB
    have hs64 : sq = 64 := by omega
    have he0 : e = 0 := by omega
    subst hs64 he0
    simp only [fen_board_go, parse_board_go]
    refine ⟨⟨by first | trivial | omega, by first | trivial | omega⟩, ?_,
      by first | trivial | omega, by first | trivial | omega,
      by first | trivial | omega, by first | trivial | omega,
      by first | trivial | omega⟩
    intro j
    rw [if_neg (by omega)]
  | succ fuel ih =>
    intro r f e sq B hsq hf he hfuel hnone hB
    have hr : r < 8 := by omega
    have hsq64 : sq < 64 := by omega
    have hse64 : sq - e < 64 := by omega
    have hesq : e ≤ sq := by omega
    simp only [fen_board_go, if_pos hr]
    have hdig : ∀ tail,
        parse_board_go B (sq - e)
          ((if ¬ e = 0 then nat_chars e else []) ++ tail) =
        parse_board_go B sq tail := by
      intro tail
      by_cases he0 : e = 0
      · subst he0
        simp
      · rw [if_pos he0, nat_chars_small (show e < 10 by omega)]
        have hcons : [dig_char e] ++ tail = dig_char e :: tail := rfl
        rw [hcons, parse_step_digit B _ e tail hse64 (by omega) (by omega)]
        congr 1
        omega
    cases hp : pieces sq with
    | some p =>
      simp only [hp]
      by_cases hff : f + 1 > 7
      · have hf7 : f = 7 := by omega
        simp only [hff, ite_true, ne_eq, eq_self_iff_true, not_true,
          not_true_eq_false, if_false, ite_false, List.append_nil,
          List.nil_append, List.append_assoc, List.cons_append,
          List.singleton_append]
        by_cases hrr : r < 7
        · simp only [hrr, ite_true, List.singleton_append]
          rw [hdig (p.fen_char :: '/' ::
            fen_board_go pieces fuel (sq + 1) (r + 1) 0 0)]
          rw [parse_step_piece B sq p _ hsq64]
          rw [parse_step_slash _ _ _ (by omega)]
          have IH := ih (r + 1) 0 0 (sq + 1)
            ((B.with_bb p (set_bit (B.get_bb p) sq)).with_piece sq (some p))
            (by omega) (by omega) (by omega) (by omega)
            (fun j h1 h2 => absurd (lt_of_le_of_lt h1 h2) (by omega))
            (fun j hj => by
              simp only [Board.with_piece, Board.with_bb, upd_pieces]
              rw [if_neg (by omega)]
              exact hB j (by omega))
          simp only [Nat.sub_zero] at IH
          refine ⟨IH.1, ?_, ?_⟩
          · exact formula_step B pieces sq e p hp hesq hsq64 hnone hB _ IH.2.1
          · have hs := IH.2.2
            simp only [Board.with_piece, Board.with_bb] at hs
            exact hs
        · have hr7 : r = 7 := by omega
          have hfuel0 : fuel = 0 := by omega
          have hsq63 : sq = 63 := by omega
          subst hfuel0
          simp only [hrr, ite_false, List.append_nil, fen_board_go]
          rw [hdig (p.fen_char :: [])]
          rw [parse_step_piece B sq p _ hsq64]
          simp only [parse_board_go]
          refine ⟨⟨by first | trivial | omega, by first | trivial | omega⟩,
            ?_, by first | trivial | omega, by first | trivial | omega,
            by first | trivial | omega, by first | trivial | omega,
            by first | trivial | omega⟩
          exact formula_step B pieces sq e p hp hesq hsq64 hnone hB _
            (fun j => by
              rw [if_neg (by omega)])
      · simp only [hff, ite_false, ne_eq, List.append_assoc,
          List.singleton_append]
        rw [hdig (p.fen_char ::
          fen_board_go pieces fuel (sq + 1) r (f + 1) 0)]
        rw [parse_step_piece B sq p _ hsq64]
        have IH := ih r (f + 1) 0 (sq + 1)
          ((B.with_bb p (set_bit (B.get_bb p) sq)).with_piece sq (some p))
          (by omega) (by omega) (by omega) (by omega)
          (fun j h1 h2 => absurd (lt_of_le_of_lt h1 h2) (by omega))
          (fun j hj => by
            simp only [Board.with_piece, Board.with_bb, upd_pieces]
            rw [if_neg (by omega)]
            exact hB j (by omega))
        simp only [Nat.sub_zero] at IH
        refine ⟨IH.1, ?_, ?_⟩
        · exact formula_step B pieces sq e p hp hesq hsq64 hnone hB _ IH.2.1
        · have hs := IH.2.2
          simp only [Board.with_piece, Board.with_bb] at hs
          exact hs
    | none =>
      simp only [hp]
      by_cases hff : f + 1 > 7
      · have hf7 : f = 7 := by omega
        simp only [hff, ite_true, ne_eq, Nat.succ_ne_zero, not_false_eq_true,
          if_true, ite_true, List.nil_append, List.append_assoc,
          List.cons_append, List.singleton_append]
        rw [nat_chars_small (show e + 1 < 10 by omega)]
        by_cases hrr : r < 7
        · simp only [hrr, ite_true]
          rw [show ([dig_char (e + 1)] : List Char) ++
              (['/'] ++ fen_board_go pieces fuel (sq + 1) (r + 1) 0 0) =
            dig_char (e + 1) :: '/' ::
              fen_board_go pieces fuel (sq + 1) (r + 1) 0 0 from rfl]
          rw [parse_step_digit B _ (e + 1) _ hse64 (by omega) (by omega)]
          rw [show sq - e + (e + 1) = sq + 1 from by omega]
          rw [parse_step_slash _ _ _ (by omega)]
          have IH := ih (r + 1) 0 0 (sq + 1) B
            (by omega) (by omega) (by omega) (by omega)
            (fun j h1 h2 => absurd (lt_of_le_of_lt h1 h2) (by omega))
            (fun j hj => hB j (by omega))
          simp only [Nat.sub_zero] at IH
          refine ⟨IH.1, ?_, IH.2.2⟩
          exact formula_skip B pieces sq e hp hesq hsq64 hnone hB _ IH.2.1
        · have hr7 : r = 7 := by omega
          have hfuel0 : fuel = 0 := by omega
          have hsq63 : sq = 63 := by omega
          subst hfuel0
          simp only [hrr, ite_false, List.append_nil, fen_board_go]
          rw [show ([dig_char (e + 1)] : List Char) = dig_char (e + 1) :: []
            from rfl]
          rw [parse_step_digit B _ (e + 1) _ hse64 (by omega) (by omega)]
          simp only [parse_board_go]
          refine ⟨⟨by first | trivial | omega, by first | trivial | omega⟩,
            ?_, by first | trivial | omega, by first | trivial | omega,
            by first | trivial | omega, by first | trivial | omega,
            by first | trivial | omega⟩
          exact formula_skip B pieces sq e hp hesq hsq64 hnone hB _
            (fun j => by
              rw [if_neg (by omega)])
      · simp only [hff, ite_false, List.nil_append]
        have IH := ih r (f + 1) (e + 1) (sq + 1) B
          (by omega) (by omega) (by omega) (by omega)
          (fun j h1 h2 => by
            by_cases hj : j = sq
            · subst hj; exact hp
            · exact hnone j (by omega) (by omega))
          (fun j hj => hB j (by omega))
        rw [show sq + 1 - (e + 1) = sq - e from by omega] at IH
        exact IH

theorem as_letter_no_ws (c : Color) :
    ([c.as_letter].all (fun ch => !is_ws ch)) = true := by
  cases c <;> decide

/-- C4 (amended).  The FEN round trip holds at the level of the
serialized text through the code's own serializer: for every board whose
castling mask is a legal 4-bit subset and whose en-passant target (if
set) is a real square, `load_fen` accepts `to_fen b` and serializing the
loaded board returns exactly `to_fen b` - all six fields, with the
castling letters in the code's `QqKk` order.  As stated over canonical
FEN strings the claim fails (`claim_C4_counterexample`): the canonical
castling order is `KQkq`, so `to_fen (from_fen x) ≠ x` already for the
starting position. -/
theorem claim_C4_theorem (b b1 : Board)
    (hcl : b.castling < 16)
    (hep : ∀ e, b.en_passant = some e → e < 64) :
    (load_fen b1 (to_fen b)).2 = none ∧
    to_fen (load_fen b1 (to_fen b)).1 = to_fen b := by
  have hE : (match b.en_passant with
      | some sq => sq_chars sq | none => ['-']).all (fun ch => !is_ws ch)
        = true ∧
      (match b.en_passant with
      | some sq => sq_chars sq | none => ['-']) ≠ [] := by
    cases hb : b.en_passant with
    | none => exact ⟨by decide, by decide⟩
    | some e =>
      have h64 := hep e hb
      refine ⟨(sq_roundtrip ⟨e, h64⟩).2.1, ?_⟩
      simp [sq_chars]
  have hto : to_fen b =
      fen_board_go b.pieces 64 0 0 0 0 ++ [' '] ++ [b.friendly_color.as_letter]
        ++ [' '] ++ castling_chars b.castling ++ [' ']
        ++ (match b.en_passant with
            | some sq => sq_chars sq | none => ['-'])
        ++ [' '] ++ nat_chars b.fifty_move ++ [' ']
        ++ nat_chars b.full_move_count := by
    simp [to_fen, List.append_assoc]
  have hsplit : split_ws (to_fen b) =
      [fen_board_go b.pieces 64 0 0 0 0, [b.friendly_color.as_letter],
        castling_chars b.castling,
        (match b.en_passant with | some sq => sq_chars sq | none => ['-']),
        nat_chars b.fifty_move, nat_chars b.full_move_count] := by
    rw [hto]
    exact split_ws_fen _ _ _ _ _ _
      (fen_go_no_ws b.pieces 64 0 0 0 0)
      (as_letter_no_ws b.friendly_color)
      (castling_roundtrip ⟨b.castling, hcl⟩).2.1
      hE.1
      (nat_chars_no_ws b.fifty_move)
      (nat_chars_no_ws b.full_move_count)
      (fen_go_ne b.pieces 64 0 0 0 0 (by omega) (by omega) (by omega))
      (by simp)
      (castling_roundtrip ⟨b.castling, hcl⟩).2.2
      hE.2
      (nat_chars_go_ne (by omega))
      (nat_chars_go_ne (by omega))
  have INV := parse_fen_inv b.pieces 64 0 0 0 0 (zero_boards b1)
    (by omega) (by omega) (by omega) (by omega)
    (fun j h1 h2 => absurd (lt_of_le_of_lt h1 h2) (by omega))
    (fun j _ => rfl)
  simp only [Nat.sub_zero] at INV
  obtain ⟨⟨herr, h64⟩, hform, hcc, hca, hepres, hfm, hfmc⟩ := INV
  have hpb : parse_board_go (zero_boards b1) 0 (fen_board_go b.pieces 64 0 0 0 0)
      = ((parse_board_go (zero_boards b1) 0
          (fen_board_go b.pieces 64 0 0 0 0)).1, 64, none) :=
    Prod.ext rfl (Prod.ext h64 herr)
  have hcastle : parse_castling_go 0 (castling_chars b.castling) =
      (b.castling, none) := (castling_roundtrip ⟨b.castling, hcl⟩).1
  simp only [load_fen]
  rw [hsplit]
  simp only [List.getD_cons_zero, List.getD_cons_succ, List.length_cons,
    List.length_nil]
  rw [if_neg (by omega)]
  rw [hpb]
  simp only
  rw [if_neg (by omega)]
  cases hcc2 : b.current_color with
  | White =>
    simp only [Board.friendly_color, hcc2, Color.as_letter, List.head?,
      eq_self_iff_true, true_or, or_true, if_true, ite_true]
    rw [hcastle]
    simp only
    cases hb : b.en_passant with
    | none =>
      rw [if_pos rfl]
      rw [parse_usize_nat_chars, parse_usize_nat_chars]
      simp only
      refine ⟨trivial, ?_⟩
      simp only [to_fen, Board.with_comb, Board.with_ep, Board.with_castling,
        Board.friendly_color, Board.xor_hash]
      rw [fen_go_congr _ b.pieces 64 0 0 0 0
        (fun j hj => by rw [hform j, if_pos (by omega)]) (by omega)]
      rw [hcc2, hb]
    | some e =>
      have hsq1 : from_alg (sq_chars e) = some e :=
        (sq_roundtrip ⟨e, hep e hb⟩).1
      have hsq2 : sq_chars e ≠ ['-'] := (sq_roundtrip ⟨e, hep e hb⟩).2.2
      rw [if_neg hsq2]
      rw [hsq1]
      rw [parse_usize_nat_chars, parse_usize_nat_chars]
      simp only
      refine ⟨trivial, ?_⟩
      simp only [to_fen, Board.with_comb, Board.with_ep, Board.with_castling,
        Board.friendly_color, Board.xor_hash]
      rw [fen_go_congr _ b.pieces 64 0 0 0 0
        (fun j hj => by rw [hform j, if_pos (by omega)]) (by omega)]
      rw [hcc2, hb]
  | Black =>
    simp only [Board.friendly_color, hcc2, Color.as_letter, List.head?,
      eq_self_iff_true, true_or, or_true, if_true, ite_true]
    rw [if_neg (show ¬(('b' : Char) = 'w') from by decide)]
    rw [hcastle]
    simp only
    cases hb : b.en_passant with
    | none =>
      rw [if_pos rfl]
      rw [parse_usize_nat_chars, parse_usize_nat_chars]
      simp only
      refine ⟨trivial, ?_⟩
      simp only [to_fen, Board.with_comb, Board.with_ep, Board.with_castling,
        Board.friendly_color, Board.xor_hash]
      rw [fen_go_congr _ b.pieces 64 0 0 0 0
        (fun j hj => by rw [hform j, if_pos (by omega)]) (by omega)]
      rw [hcc2, hb]
    | some e =>
      have hsq1 : from_alg (sq_chars e) = some e :=
        (sq_roundtrip ⟨e, hep e hb⟩).1
      have hsq2 : sq_chars e ≠ ['-'] := (sq_roundtrip ⟨e, hep e hb⟩).2.2
      rw [if_neg hsq2]
      rw [hsq1]
      rw [parse_usize_nat_chars, parse_usize_nat_chars]
      simp only
      refine ⟨trivial, ?_⟩
      simp only [to_fen, Board.with_comb, Board.with_ep, Board.with_castling,
        Board.friendly_color, Board.xor_hash]
      rw [fen_go_congr _ b.pieces 64 0 0 0 0
        (fun j hj => by rw [hform j, if_pos (by omega)]) (by omega)]
      rw [hcc2, hb]

/-- Witness for `claim_C4_theorem`: the round trip on `wit_board`
(castling 0, en-passant target b6). -/
theorem claim_C4_witness :
    wit_board.castling < 16 ∧
    (∀ e, wit_board.en_passant = some e → e < 64) ∧
    (load_fen init_board (to_fen wit_board)).2 = none ∧
    to_fen (load_fen init_board (to_fen wit_board)).1 = to_fen wit_board := by
  have hep : ∀ e, wit_board.en_passant = some e → e < 64 := by
    intro e he
    rw [show wit_board.en_passant = some 17 from rfl] at he
    injection he with h
    omega
  obtain ⟨h1, h2⟩ := claim_C4_theorem wit_board init_board (by decide) hep
  exact ⟨by decide, hep, h1, h2⟩

end Chess
